import Mathlib

/-!
Verification development for the dinox-sync Obsidian plugin.

The TypeScript sources are shallowly embedded: pure functions become Lean
functions over `String` / `List Char`; the host application's vault is an
explicit `Vault` state; fallible code returns `Except`.  JavaScript strings
are modelled as Lean strings (Unicode code points instead of UTF-16 units;
this difference is irrelevant to everything proved here).
-/

namespace Dinox

/-! ## JavaScript string primitives

Models of the JS string operations used by the plugin sources.  `\s` is
modelled by `Char.isWhitespace`. -/

/-- The left brace character (source text uses it inside template markers). -/
def lbrace : Char := Char.ofNat 123

/-- The right brace character. -/
def rbrace : Char := Char.ofNat 125

/-- The backtick character. -/
def btick : Char := Char.ofNat 96

/-- The single-quote character. -/
def squoteChar : Char := Char.ofNat 39

/-- JS `\s` character class (model: Unicode whitespace). -/
def wsChar (c : Char) : Bool := c.isWhitespace

/-- JS `\w` word-character class: `[A-Za-z0-9_]`. -/
def isWordChar (c : Char) : Bool :=
  (('a' ≤ c ∧ c ≤ 'z') ∨ ('A' ≤ c ∧ c ≤ 'Z') ∨ ('0' ≤ c ∧ c ≤ '9') ∨ c = '_')

/-- ASCII decimal digit test. -/
def isDigitChar (c : Char) : Bool := '0' ≤ c ∧ c ≤ '9'

/-- Hex digit test (`[0-9a-fA-F]`). -/
def isHexChar (c : Char) : Bool :=
  isDigitChar c ∨ ('a' ≤ c ∧ c ≤ 'f') ∨ ('A' ≤ c ∧ c ≤ 'F')

/-- Lowercase-hex-or-digit test (`[0-9a-f]` with the `i` flag handled by callers). -/
def isHexCharCI (c : Char) : Bool :=
  isDigitChar c ∨ ('a' ≤ c ∧ c ≤ 'f') ∨ ('A' ≤ c ∧ c ≤ 'F')

/-- Trim whitespace from the front of a char list. -/
def trimStartChars (l : List Char) : List Char := l.dropWhile wsChar

/-- Trim whitespace from the back of a char list. -/
def trimEndChars (l : List Char) : List Char :=
  (l.reverse.dropWhile wsChar).reverse

/-- JS `String.prototype.trim` on char lists. -/
def trimChars (l : List Char) : List Char := trimEndChars (trimStartChars l)

/-- JS `String.prototype.trim`. -/
def jsTrim (s : String) : String := String.mk (trimChars s.data)

/-- JS `String.prototype.trimStart`. -/
def jsTrimStart (s : String) : String := String.mk (trimStartChars s.data)

/-- JS `s.slice(a)` / `substring` tail from index `a` (by code points). -/
def jsDrop (s : String) (a : Nat) : String := String.mk (s.data.drop a)

/-- JS `s.slice(0, b)` prefix (by code points). -/
def jsTake (s : String) (b : Nat) : String := String.mk (s.data.take b)

/-- JS `s.slice(a, b)` (non-negative indices, clamped like JS). -/
def jsSlice (s : String) (a b : Nat) : String :=
  String.mk ((s.data.take b).drop a)

/-- Length in code points (model of JS `length`). -/
def jsLength (s : String) : Nat := s.data.length

/-- JS `startsWith`. -/
def jsStartsWith (s pre : String) : Bool := pre.data.isPrefixOf s.data

/-- JS `endsWith`. -/
def jsEndsWith (s suf : String) : Bool := suf.data.isSuffixOf s.data

/-- Character membership (JS `includes` for a single character). -/
def containsChar (s : String) (c : Char) : Bool := s.data.contains c

/-- Scan worker for `idxOfChar`, carrying the current index. -/
def idxOfCharGo (c : Char) : List Char → Nat → Option Nat
  | [], _ => none
  | x :: xs, i => if x = c then some i else idxOfCharGo c xs (i + 1)

/-- First index of a character, JS `indexOf` (`none` for `-1`). -/
def idxOfChar (l : List Char) (c : Char) : Option Nat := idxOfCharGo c l 0

/-- First index (from `start`) of a sublist, JS `indexOf(sub, start)`. -/
def idxOfSubFrom (l sub : List Char) (start : Nat) : Option Nat :=
  go (l.drop start) start
where
  /-- Scan helper carrying the current index. -/
  go : List Char → Nat → Option Nat
    | [], i => if sub.isPrefixOf [] then some i else none
    | x :: xs, i =>
      if sub.isPrefixOf (x :: xs) then some i else go xs (i + 1)

/-- Split on a separator character, JS `split("/")`-style (never empty). -/
def splitOnChar (s : String) (sep : Char) : List String :=
  (go s.data []).map String.mk
where
  /-- Accumulating splitter; `acc` holds the current piece reversed. -/
  go : List Char → List Char → List (List Char)
    | [], acc => [acc.reverse]
    | c :: cs, acc =>
      if c = sep then acc.reverse :: go cs [] else go cs (c :: acc)

/-- Split into lines on `/\r?\n/` as JS `split(/\r?\n/)` does. -/
def splitLinesJs (s : String) : List String :=
  (go s.data []).map String.mk
where
  /-- Accumulating splitter; drops a `\r` that immediately precedes `\n`. -/
  go : List Char → List Char → List (List Char)
    | [], acc => [acc.reverse]
    | '\r' :: '\n' :: cs, acc => acc.reverse :: go cs []
    | '\n' :: cs, acc => acc.reverse :: go cs []
    | c :: cs, acc => go cs (c :: acc)

/-- Split on runs of characters satisfying `p` (JS `split(/[..]+/)` composed
with the `.filter(nonempty)` the callers apply; leading empty pieces are
dropped here as the callers filter them out anyway). -/
def splitOnRuns (p : Char → Bool) (s : String) : List String :=
  (go s.data []).map String.mk
where
  /-- Accumulates the current piece reversed; separator runs close a piece. -/
  go : List Char → List Char → List (List Char)
    | [], [] => []
    | [], acc => [acc.reverse]
    | c :: cs, acc =>
      if p c then
        match acc with
        | [] => go cs []
        | _ => acc.reverse :: go cs []
      else go cs (c :: acc)

/-- Replace every occurrence of a (nonempty) literal pattern, JS
`replace(/pat/g, rep)` for a literal pattern: leftmost, non-overlapping,
scanning resumes after each replacement.  The first argument counts chars
still to skip after an emitted replacement (structural-recursion form of
the index jump). -/
def replaceAllGo (pat rep : List Char) : Nat → List Char → List Char
  | _ + 1, [] => []
  | n + 1, _ :: cs => replaceAllGo pat rep n cs
  | 0, [] => []
  | 0, c :: cs =>
    if pat.isPrefixOf (c :: cs) then
      rep ++ replaceAllGo pat rep (pat.length - 1) cs
    else c :: replaceAllGo pat rep 0 cs

/-- Entry point of the literal global replacement (the empty pattern never
occurs in the sources and is returned unchanged). -/
def replaceAllChars (pat rep : List Char) (l : List Char) : List Char :=
  match pat with
  | [] => l
  | _ :: _ => replaceAllGo pat rep 0 l

/-- JS global replacement of a literal pattern on strings. -/
def jsReplaceAll (s pat rep : String) : String :=
  String.mk (replaceAllChars pat.data rep.data s.data)

/-- Replace each character satisfying `p` by the string `rep`
(JS `replace(/[class]/g, rep)`). -/
def replaceCharClass (p : Char → Bool) (rep : List Char) (l : List Char) :
    List Char :=
  match l with
  | [] => []
  | c :: cs =>
    if p c then rep ++ replaceCharClass p rep cs
    else c :: replaceCharClass p rep cs

/-- Run collapser worker: the flag records being inside a matched run. -/
def collapseGo (p : Char → Bool) (rep : List Char) :
    Bool → List Char → List Char
  | _, [] => []
  | inRun, c :: cs =>
    if p c then
      if inRun then collapseGo p rep true cs
      else rep ++ collapseGo p rep true cs
    else c :: collapseGo p rep false cs

/-- Collapse runs of characters satisfying `p` into `rep`
(JS `replace(/[class]+/g, rep)`). -/
def collapseRuns (p : Char → Bool) (rep : List Char) (l : List Char) :
    List Char :=
  collapseGo p rep false l

/-- Strip leading and trailing runs of characters satisfying `p`
(JS `replace(/^X+|X+$/g, "")`). -/
def stripEnds (p : Char → Bool) (l : List Char) : List Char :=
  ((l.dropWhile p).reverse.dropWhile p).reverse

/-- JS `toLowerCase` (ASCII model; the sources only compare ASCII values). -/
def jsToLower (s : String) : String := String.mk (s.data.map Char.toLower)

/-- JS `toUpperCase` (ASCII model). -/
def jsToUpper (s : String) : String := String.mk (s.data.map Char.toUpper)

/-- Case-insensitive prefix test (`i`-flagged literal regex fragment). -/
def isPrefixOfCI (pat l : List Char) : Bool :=
  (pat.map Char.toLower).isPrefixOf (l.map Char.toLower)

/-- JS `String(n).padStart(2, "0")` for a natural number. -/
def pad2 (n : Nat) : String :=
  if n < 10 then "0" ++ toString n else toString n

/-! ## JSON values

Untyped JavaScript values (persisted data, API payloads, duck-typed
records) are modelled by this inductive.  `undefined` at a field access is
modelled by a failed association-list lookup. -/

/-- A JavaScript/JSON value. -/
inductive Json where
  /-- A string. -/
  | str (s : String)
  /-- A number (modelled as an integer; the sources only compare integers). -/
  | num (n : Int)
  /-- A boolean. -/
  | bool (b : Bool)
  /-- `null`. -/
  | null
  /-- An array. -/
  | arr (xs : List Json)
  /-- An object: association list in property-insertion order. -/
  | obj (fields : List (String × Json))
  deriving Repr

mutual

/-- Decidable equality of JSON values (written by hand: the deriving
handler does not support the nested lists). -/
def Json.decEq : (a b : Json) → Decidable (a = b)
  | .str x, .str y =>
    if h : x = y then .isTrue (by rw [h])
    else .isFalse (fun hh => h (by cases hh; rfl))
  | .num x, .num y =>
    if h : x = y then .isTrue (by rw [h])
    else .isFalse (fun hh => h (by cases hh; rfl))
  | .bool x, .bool y =>
    if h : x = y then .isTrue (by rw [h])
    else .isFalse (fun hh => h (by cases hh; rfl))
  | .null, .null => .isTrue rfl
  | .arr xs, .arr ys =>
    match Json.decEqList xs ys with
    | .isTrue h => .isTrue (by rw [h])
    | .isFalse h => .isFalse (fun hh => h (by cases hh; rfl))
  | .obj xs, .obj ys =>
    match Json.decEqFields xs ys with
    | .isTrue h => .isTrue (by rw [h])
    | .isFalse h => .isFalse (fun hh => h (by cases hh; rfl))
  | .str _, .num _ => .isFalse (fun h => Json.noConfusion h)
  | .str _, .bool _ => .isFalse (fun h => Json.noConfusion h)
  | .str _, .null => .isFalse (fun h => Json.noConfusion h)
  | .str _, .arr _ => .isFalse (fun h => Json.noConfusion h)
  | .str _, .obj _ => .isFalse (fun h => Json.noConfusion h)
  | .num _, .str _ => .isFalse (fun h => Json.noConfusion h)
  | .num _, .bool _ => .isFalse (fun h => Json.noConfusion h)
  | .num _, .null => .isFalse (fun h => Json.noConfusion h)
  | .num _, .arr _ => .isFalse (fun h => Json.noConfusion h)
  | .num _, .obj _ => .isFalse (fun h => Json.noConfusion h)
  | .bool _, .str _ => .isFalse (fun h => Json.noConfusion h)
  | .bool _, .num _ => .isFalse (fun h => Json.noConfusion h)
  | .bool _, .null => .isFalse (fun h => Json.noConfusion h)
  | .bool _, .arr _ => .isFalse (fun h => Json.noConfusion h)
  | .bool _, .obj _ => .isFalse (fun h => Json.noConfusion h)
  | .null, .str _ => .isFalse (fun h => Json.noConfusion h)
  | .null, .num _ => .isFalse (fun h => Json.noConfusion h)
  | .null, .bool _ => .isFalse (fun h => Json.noConfusion h)
  | .null, .arr _ => .isFalse (fun h => Json.noConfusion h)
  | .null, .obj _ => .isFalse (fun h => Json.noConfusion h)
  | .arr _, .str _ => .isFalse (fun h => Json.noConfusion h)
  | .arr _, .num _ => .isFalse (fun h => Json.noConfusion h)
  | .arr _, .bool _ => .isFalse (fun h => Json.noConfusion h)
  | .arr _, .null => .isFalse (fun h => Json.noConfusion h)
  | .arr _, .obj _ => .isFalse (fun h => Json.noConfusion h)
  | .obj _, .str _ => .isFalse (fun h => Json.noConfusion h)
  | .obj _, .num _ => .isFalse (fun h => Json.noConfusion h)
  | .obj _, .bool _ => .isFalse (fun h => Json.noConfusion h)
  | .obj _, .null => .isFalse (fun h => Json.noConfusion h)
  | .obj _, .arr _ => .isFalse (fun h => Json.noConfusion h)

/-- Decidable equality of JSON arrays. -/
def Json.decEqList : (xs ys : List Json) → Decidable (xs = ys)
  | [], [] => .isTrue rfl
  | [], _ :: _ => .isFalse (fun h => List.noConfusion h)
  | _ :: _, [] => .isFalse (fun h => List.noConfusion h)
  | x :: xs, y :: ys =>
    match Json.decEq x y with
    | .isFalse h1 => .isFalse (fun hh => h1 (by cases hh; rfl))
    | .isTrue h1 =>
      match Json.decEqList xs ys with
      | .isTrue h2 => .isTrue (by rw [h1, h2])
      | .isFalse h2 => .isFalse (fun hh => h2 (by cases hh; rfl))

/-- Decidable equality of JSON object field lists. -/
def Json.decEqFields :
    (xs ys : List (String × Json)) → Decidable (xs = ys)
  | [], [] => .isTrue rfl
  | [], _ :: _ => .isFalse (fun h => List.noConfusion h)
  | _ :: _, [] => .isFalse (fun h => List.noConfusion h)
  | (k1, v1) :: xs, (k2, v2) :: ys =>
    if h1 : k1 = k2 then
      match Json.decEq v1 v2 with
      | .isFalse h2 => .isFalse (fun hh => h2 (by cases hh; rfl))
      | .isTrue h2 =>
        match Json.decEqFields xs ys with
        | .isTrue h3 => .isTrue (by rw [h1, h2, h3])
        | .isFalse h3 => .isFalse (fun hh => h3 (by cases hh; rfl))
    else .isFalse (fun hh => h1 (by cases hh; rfl))

end

instance : DecidableEq Json := Json.decEq

/-- `isJsonRecord` from the sources: non-null non-array object. -/
def Json.isRecord : Json → Bool
  | .obj _ => true
  | _ => false

/-- Property access on an object (`undefined` = `none`); the first binding
wins, mirroring unique JS object keys. -/
def Json.get? : Json → String → Option Json
  | .obj fields, k => (fields.find? (fun f => f.1 = k)).map Prod.snd
  | _, _ => none

/-- JS truthiness of a value. -/
def Json.truthy : Json → Bool
  | .str s => s ≠ ""
  | .num n => n ≠ 0
  | .bool b => b
  | .null => false
  | .arr _ => true
  | .obj _ => true

/-- Set (or append) a key in a JS object association list, keeping the
original key position as JS objects do. -/
def setAssoc {α : Type} (m : List (String × α)) (k : String) (v : α) :
    List (String × α) :=
  if m.any (fun f => f.1 = k) then
    m.map (fun f => if f.1 = k then (k, v) else f)
  else m ++ [(k, v)]

/-- Delete a key from a JS object association list. -/
def delAssoc {α : Type} (m : List (String × α)) (k : String) :
    List (String × α) :=
  m.filter (fun f => f.1 ≠ k)

/-- Lookup in a JS object association list. -/
def getAssoc {α : Type} (m : List (String × α)) (k : String) : Option α :=
  (m.find? (fun f => f.1 = k)).map Prod.snd

/-- JS object spread `{...a, ...b}`: keys of `b` overwrite values in `a`
in place, new keys are appended in order. -/
def objAssign {α : Type} (a b : List (String × α)) : List (String × α) :=
  b.foldl (fun acc f => setAssoc acc f.1 f.2) a

/-! ## Frontmatter and the vault

The host application's metadata cache exposes a file's frontmatter as a
loosely-typed record; modelled as an association list of `FmValue`s. -/

/-- A cached frontmatter value. -/
inductive FmValue where
  /-- A boolean value. -/
  | b (v : Bool)
  /-- A string value. -/
  | s (v : String)
  /-- A number value. -/
  | n (v : Int)
  /-- A null value. -/
  | null
  /-- A list value. -/
  | list (vs : List String)
  deriving Repr, DecidableEq

/-- A frontmatter record. -/
abbrev Frontmatter : Type := List (String × FmValue)

/-- Lookup a frontmatter key (JS property read; `none` = `undefined`). -/
def fmGet (fm : Frontmatter) (k : String) : Option FmValue := getAssoc fm k

/-- JS `a ?? b` over possibly-missing frontmatter values: `null` and
`undefined` fall through to the second read. -/
def fmCoalesce (a b : Option FmValue) : Option FmValue :=
  match a with
  | some .null => b
  | none => b
  | some v => some v

/-- A markdown file in the vault: its path, raw content and the metadata
cache's view of its frontmatter (`none` when the cache has no entry). -/
structure VFile where
  /-- Vault-relative path. -/
  path : String
  /-- Raw file content. -/
  content : String
  /-- Cached frontmatter, if any. -/
  frontmatter : Option Frontmatter
  deriving Repr, DecidableEq

/-- The host vault: live files, existing folders, and the trash.  Trashing
a file moves it from `files` to `trash` (not a hard delete). -/
structure Vault where
  /-- Live files. -/
  files : List VFile
  /-- Existing folder paths. -/
  folders : List String
  /-- Trashed files. -/
  trash : List VFile
  deriving Repr, DecidableEq

/-- What `getAbstractFileByPath` finds at a path. -/
inductive AbstractFile where
  /-- A file (`TFile`). -/
  | file (f : VFile)
  /-- A folder (`TFolder`). -/
  | folder
  /-- Nothing. -/
  | missing
  deriving Repr, DecidableEq

/-- Model of `app.vault.getAbstractFileByPath`. -/
def Vault.abstractAt (v : Vault) (p : String) : AbstractFile :=
  match v.files.find? (fun f => f.path = p) with
  | some f => .file f
  | none => if v.folders.contains p then .folder else .missing

/-- Model of `app.vault.getAbstractFileByPath` restricted to files. -/
def Vault.fileAt (v : Vault) (p : String) : Option VFile :=
  v.files.find? (fun f => f.path = p)

/-- Model of `app.fileManager.trashFile`: remove from the live files and
append to the trash. -/
def Vault.trashFile (v : Vault) (f : VFile) : Vault :=
  { v with
    files := v.files.filter (fun g => g.path ≠ f.path)
    trash := v.trash ++ [f] }

/-- Model of `app.vault.modify`: overwrite a file's content in place. -/
def Vault.modify (v : Vault) (p newContent : String) : Vault :=
  { v with
    files := v.files.map (fun g =>
      if g.path = p then { g with content := newContent } else g) }

/-- Model of `app.fileManager.renameFile`: move a file to a new path. -/
def Vault.rename (v : Vault) (p newPath : String) : Vault :=
  { v with
    files := v.files.map (fun g =>
      if g.path = p then { g with path := newPath } else g) }

/-- Model of `app.vault.create`: add a new file (frontmatter cache entry
appears as `none` until the cache indexes it). -/
def Vault.create (v : Vault) (p content : String) : Vault :=
  { v with files := v.files ++ [{ path := p, content := content, frontmatter := none }] }

/-- Model of `app.vault.createFolder`. -/
def Vault.createFolder (v : Vault) (p : String) : Vault :=
  { v with folders := v.folders ++ [p] }

/-- Model of `app.fileManager.processFrontMatter` applying a structured
patch setting the given keys (in order) on a file's frontmatter. -/
def Vault.patchFrontmatter (v : Vault) (p : String)
    (props : List (String × FmValue)) : Vault :=
  { v with
    files := v.files.map (fun g =>
      if g.path = p then
        let fm :=
          props.foldl (fun fm kv => setAssoc fm kv.1 kv.2)
            (g.frontmatter.getD [])
        { g with frontmatter := some fm }
      else g) }

/-- Model of Obsidian's `normalizePath` host API (external collaborator,
interface only): backslashes become forward slashes, repeated slashes
collapse, and leading/trailing slashes are stripped. -/
def normalizePath (p : String) : String :=
  String.intercalate "/"
    ((splitOnChar (jsReplaceAll p "\\" "/") '/').filter (fun s => s ≠ ""))

/-! ## utils.ts -/

/-- A JS `Date` through the getters the sources use.  `month` is 0-based as
in `Date.getMonth()`.  The host timezone is modelled as UTC (timezone
handling is outside the embedded code). -/
structure JsDate where
  /-- `getFullYear()`. -/
  year : Nat
  /-- `getMonth()` (0-based). -/
  month : Nat
  /-- `getDate()`. -/
  day : Nat
  /-- `getHours()`. -/
  hours : Nat
  /-- `getMinutes()`. -/
  minutes : Nat
  /-- `getSeconds()`. -/
  seconds : Nat
  deriving Repr, DecidableEq

/-- `formatDate` from utils.ts: `YYYY-MM-DD HH:mm:ss` (the year is emitted
unpadded via `String(year)`, months/days/… via `padStart(2, "0")`). -/
def formatDate (d : JsDate) : String :=
  toString d.year ++ "-" ++ pad2 (d.month + 1) ++ "-" ++ pad2 d.day ++ " " ++
    pad2 d.hours ++ ":" ++ pad2 d.minutes ++ ":" ++ pad2 d.seconds

/-- `formatDate` applied to a possibly-invalid date: every getter of an
invalid JS date is `NaN` and `String(NaN).padStart(2, "0")` is `"NaN"`. -/
def formatDateOpt : Option JsDate → String
  | some d => formatDate d
  | none => "NaN-NaN-NaN NaN:NaN:NaN"

/-- Number of days in a month (1-based month), with leap years. -/
def daysInMonth (year month : Nat) : Nat :=
  if month = 2 then
    if year % 4 = 0 ∧ (year % 100 ≠ 0 ∨ year % 400 = 0) then 29 else 28
  else if month = 4 ∨ month = 6 ∨ month = 9 ∨ month = 11 then 30
  else 31

/-- `isValidDateParts` from utils.ts. -/
def isValidDateParts (year month day hours minutes seconds : Nat) : Bool :=
  year ≤ 9999 ∧ 1 ≤ month ∧ month ≤ 12 ∧ 1 ≤ day ∧ day ≤ 31 ∧
    hours ≤ 23 ∧ minutes ≤ 59 ∧ seconds ≤ 59

/-- Numeric value of a digit character. -/
def digitVal (c : Char) : Nat := c.toNat - '0'.toNat

/-- Two-digit decimal value. -/
def num2 (a b : Char) : Nat := digitVal a * 10 + digitVal b

/-- Four-digit decimal value. -/
def num4 (a b c d : Char) : Nat :=
  ((digitVal a * 10 + digitVal b) * 10 + digitVal c) * 10 + digitVal d

/-- The strict regex `^(\d{4})-(\d{2})-(\d{2}) (\d{2}):(\d{2}):(\d{2})$`
from `parseLocalDateTime`, returning the six numeric fields; the separator
between date and time is a parameter so the ISO `T` form can reuse it. -/
def matchDateTime (sep : Char) (s : String) :
    Option (Nat × Nat × Nat × Nat × Nat × Nat) :=
  match s.data with
  | [y1, y2, y3, y4, c1, m1, m2, c2, d1, d2, c3, h1, h2, c4, n1, n2, c5,
     e1, e2] =>
    if c1 = '-' ∧ c2 = '-' ∧ c3 = sep ∧ c4 = ':' ∧ c5 = ':' ∧
        ([y1, y2, y3, y4, m1, m2, d1, d2, h1, h2, n1, n2, e1, e2].all
          isDigitChar) then
      some (num4 y1 y2 y3 y4, num2 m1 m2, num2 d1 d2, num2 h1 h2,
        num2 n1 n2, num2 e1 e2)
    else none
  | _ => none

/-- The regex `^(\d{4})-(\d{2})-(\d{2})$` (bare ISO date). -/
def matchDateOnly (s : String) : Option (Nat × Nat × Nat) :=
  match s.data with
  | [y1, y2, y3, y4, c1, m1, m2, c2, d1, d2] =>
    if c1 = '-' ∧ c2 = '-' ∧
        ([y1, y2, y3, y4, m1, m2, d1, d2].all isDigitChar) then
      some (num4 y1 y2 y3 y4, num2 m1 m2, num2 d1 d2)
    else none
  | _ => none

/-- `parseLocalDateTime` from utils.ts.  The source constructs a `Date`
from the parts and re-reads every getter to reject roll-over; that check
rejects day numbers past the month's length, and also years 0–99 (which
`new Date(year, …)` maps to 1900+year). -/
def parseLocalDateTime (value : String) : Option JsDate :=
  match matchDateTime ' ' (jsTrim value) with
  | none => none
  | some (y, mo, d, h, mi, se) =>
    if isValidDateParts y mo d h mi se ∧ 100 ≤ y ∧ d ≤ daysInMonth y mo then
      some { year := y, month := mo - 1, day := d, hours := h,
             minutes := mi, seconds := se }
    else none

/-- Model of the host's `new Date(string)` parser (external collaborator,
implementation-defined beyond ISO 8601): accepts `YYYY-MM-DDTHH:mm:ss`,
`YYYY-MM-DD HH:mm:ss` and bare `YYYY-MM-DD` (read in the host timezone,
modelled as UTC); every other string yields an invalid date (`none`). -/
def jsNewDate (s : String) : Option JsDate :=
  let fromParts (y mo d h mi se : Nat) : Option JsDate :=
    if 1 ≤ mo ∧ mo ≤ 12 ∧ 1 ≤ d ∧ d ≤ daysInMonth y mo ∧ h ≤ 23 ∧
        mi ≤ 59 ∧ se ≤ 59 then
      some { year := y, month := mo - 1, day := d, hours := h,
             minutes := mi, seconds := se }
    else none
  match matchDateTime 'T' s with
  | some (y, mo, d, h, mi, se) => fromParts y mo d h mi se
  | none =>
    match matchDateTime ' ' s with
    | some (y, mo, d, h, mi, se) => fromParts y mo d h mi se
    | none =>
      match matchDateOnly s with
      | some (y, mo, d) => fromParts y mo d 0 0 0
      | none => none

/-- `parseDate` from utils.ts: strict local-datetime parse first, then the
host's `new Date(string)` as a fallback; non-strings and blank strings are
rejected up front.  (The string-typed entry point; the `unknown`-typed
callers only ever pass the note's `createTime` string.) -/
def parseDate (value : String) : Option JsDate :=
  let trimmed := jsTrim value
  if trimmed = "" then none
  else
    match parseLocalDateTime trimmed with
    | some d => some d
    | none => jsNewDate trimmed

/-- Character class `[\\/:*?"<>|#^[\]]` from `sanitizeFilename`. -/
def filenameIllegalChar (c : Char) : Bool :=
  c = '\\' ∨ c = '/' ∨ c = ':' ∨ c = '*' ∨ c = '?' ∨ c = '"' ∨ c = '<' ∨
    c = '>' ∨ c = '|' ∨ c = '#' ∨ c = '^' ∨ c = '[' ∨ c = ']'

/-- `sanitizeFilename` from utils.ts. -/
def sanitizeFilename (name : String) : String :=
  if name = "" then "Untitled"
  else
    let s1 := replaceCharClass filenameIllegalChar ['-'] name.data
    let s2 := collapseRuns (fun c => wsChar c ∨ c = '-') ['-'] s1
    let s3 := stripEnds (fun c => c = '-') (trimChars s2)
    let s4 := s3.take 100
    let out := String.mk s4
    if out = "." ∨ out = ".." then "Untitled"
    else if out = "" then "Untitled"
    else out

/-- `isWindowsReservedDeviceName` from utils.ts. -/
def isWindowsReservedDeviceName (value : String) : Bool :=
  let trimmed := String.mk
    (stripEnds (fun c => c = '.' ∨ c = ' ') (trimChars value.data))
  if trimmed = "" then false
  else
    let upper := jsToUpper trimmed
    let base := (splitOnChar upper '.').headD upper
    if base = "CON" ∨ base = "PRN" ∨ base = "AUX" ∨ base = "NUL" then true
    else
      match base.data with
      | [a, b, c, d] =>
        ((a = 'C' ∧ b = 'O' ∧ c = 'M') ∨ (a = 'L' ∧ b = 'P' ∧ c = 'T')) ∧
          ('1' ≤ d ∧ d ≤ '9')
      | _ => false

/-- Character class `[\u0000-\u001F<>:"|?*]` from `sanitizeFolderSegment`. -/
def folderInvalidChar (c : Char) : Bool :=
  c.toNat ≤ 31 ∨ c = '<' ∨ c = '>' ∨ c = ':' ∨ c = '"' ∨ c = '|' ∨
    c = '?' ∨ c = '*'

/-- `sanitizeFolderSegment` from utils.ts. -/
def sanitizeFolderSegment (value : String) : Option String :=
  let raw := jsTrim value
  if raw = "" then none
  else
    let s1 := replaceCharClass (fun c => c = '\\' ∨ c = '/') ['-'] raw.data
    let s2 := replaceCharClass folderInvalidChar ['-'] s1
    let s3 := collapseRuns wsChar [' '] s2
    let s4 := collapseRuns (fun c => c = '-') ['-'] s3
    let s5 := stripEnds (fun c => c = ' ' ∨ c = '.' ∨ c = '-') s4
    let s6 := (s5.reverse.dropWhile (fun c => c = '.' ∨ c = ' ')).reverse
    let s7 := trimChars s6
    let sanitized := String.mk s7
    if sanitized = "" ∨ sanitized = "." ∨ sanitized = ".." then none
    else
      let s8 := trimChars (s7.take 80)
      let s9 := (s8.reverse.dropWhile (fun c => c = '.' ∨ c = ' ')).reverse
      let sanitized2 := String.mk s9
      if sanitized2 = "" ∨ sanitized2 = "." ∨ sanitized2 = ".." then none
      else if isWindowsReservedDeviceName sanitized2 then
        some (sanitized2 ++ "-box")
      else some sanitized2

/-! ## markdown-images.ts -/

/-- Result record of the image-URL rewriters. -/
structure StripImageUrlQueryParamsResult where
  /-- Rewritten text. -/
  content : String
  /-- Number of URLs whose query part was stripped. -/
  strippedCount : Nat
  deriving Repr, DecidableEq

/-- `String.fromCharCode` (ToUint16 wrap; lone surrogates are not
representable as Lean chars and are modelled as U+0000, which `Char.ofNat`
returns for invalid scalars). -/
def fromCharCodeJs (n : Nat) : Char := Char.ofNat (n % 65536)

/-- Decimal value of a digit run. -/
def digitsVal (l : List Char) : Nat :=
  l.foldl (fun acc c => acc * 10 + digitVal c) 0

/-- Hexadecimal value of a hex-digit run. -/
def hexVal (l : List Char) : Nat :=
  l.foldl (fun acc c =>
    acc * 16 +
      (if isDigitChar c then digitVal c
       else if 'a' ≤ c ∧ c ≤ 'f' then c.toNat - 'a'.toNat + 10
       else c.toNat - 'A'.toNat + 10)) 0

/-- Worker for the `/&#(\d+);/g` pass; the counter skips the already
consumed entity characters. -/
def decNumGo : Nat → List Char → List Char
  | _ + 1, [] => []
  | n + 1, _ :: cs => decNumGo n cs
  | 0, [] => []
  | 0, c :: cs =>
    if c = '&' then
      match cs with
      | '#' :: rest =>
        let digits := rest.takeWhile isDigitChar
        if digits ≠ [] ∧ (rest.drop digits.length).take 1 = [';'] then
          fromCharCodeJs (digitsVal digits) ::
            decNumGo (digits.length + 2) cs
        else '&' :: decNumGo 0 cs
      | _ => '&' :: decNumGo 0 cs
    else c :: decNumGo 0 cs

/-- The `/&#(\d+);/g` decoding pass of `decodeHtmlEntities`. -/
def decodeNumericEntities (l : List Char) : List Char := decNumGo 0 l

/-- Worker for the `/&#x([0-9a-fA-F]+);/g` pass. -/
def decHexGo : Nat → List Char → List Char
  | _ + 1, [] => []
  | n + 1, _ :: cs => decHexGo n cs
  | 0, [] => []
  | 0, c :: cs =>
    if c = '&' then
      match cs with
      | '#' :: 'x' :: rest =>
        let digits := rest.takeWhile isHexChar
        if digits ≠ [] ∧ (rest.drop digits.length).take 1 = [';'] then
          fromCharCodeJs (hexVal digits) ::
            decHexGo (digits.length + 3) cs
        else '&' :: decHexGo 0 cs
      | _ => '&' :: decHexGo 0 cs
    else c :: decHexGo 0 cs

/-- The `/&#x([0-9a-fA-F]+);/g` decoding pass of `decodeHtmlEntities`. -/
def decodeHexEntities (l : List Char) : List Char := decHexGo 0 l

/-- `decodeHtmlEntities` from markdown-images.ts: five literal passes, then
the numeric pass, then the hex pass, in source order. -/
def decodeHtmlEntities (text : String) : String :=
  let l := text.data
  let l := replaceAllChars "&amp;".data ['&'] l
  let l := replaceAllChars "&lt;".data ['<'] l
  let l := replaceAllChars "&gt;".data ['>'] l
  let l := replaceAllChars "&quot;".data ['"'] l
  let l := replaceAllChars "&apos;".data [squoteChar] l
  let l := decodeNumericEntities l
  let l := decodeHexEntities l
  String.mk l

/-- `stripUrlQueryParamsPreservingFragment` from markdown-images.ts. -/
def stripUrlQueryParamsPreservingFragment (url : String) : String :=
  let raw := url
  let decoded := decodeHtmlEntities (jsTrim raw)
  if ¬ containsChar decoded '?' then raw
  else
    let leadingWhitespace := String.mk (raw.data.takeWhile wsChar)
    let trailingWhitespace :=
      String.mk ((raw.data.reverse.takeWhile wsChar).reverse)
    match idxOfChar decoded.data '?' with
    | none => raw
    | some queryIndex =>
      let stripped :=
        match idxOfChar decoded.data '#' with
        | some hashIndex =>
          if queryIndex < hashIndex then
            String.mk (decoded.data.take queryIndex ++
              decoded.data.drop hashIndex)
          else String.mk (decoded.data.take queryIndex)
        | none => String.mk (decoded.data.take queryIndex)
      leadingWhitespace ++ stripped ++ trailingWhitespace

/-! ### HTML `<img src=...>` rewriting

Hand-rolled matcher for the regex
`/<img\b[^>]*?\bsrc\s*=\s*(?:"([^"]*)"|'([^']*)'|([^\s>]+))/gi`: find a
case-insensitive `<img`, then the lazily-shortest run of non-`>` chars
(the char right after `img` must be a non-word char for the first `\b`),
then `src` (case-insensitive, preceded by a non-word char for the second
`\b`), `\s*=\s*` and one of the three value alternatives in order. -/

/-- Which value alternative the `src` pattern matched. -/
inductive SrcQuote where
  /-- Double-quoted value. -/
  | dq
  /-- Single-quoted value. -/
  | sq
  /-- Bare (unquoted) value. -/
  | bare
  deriving Repr, DecidableEq

/-- Try the `src\s*=\s*(value)` part at the current position; `some` gives
the alternative, the raw url and the total number of chars consumed. -/
def trySrcAt (cs : List Char) : Option (SrcQuote × List Char × Nat) :=
  if isPrefixOfCI "src".data cs then
    let afterSrc := cs.drop 3
    let ws1 := (afterSrc.takeWhile wsChar).length
    match afterSrc.drop ws1 with
    | '=' :: rest2 =>
      let ws2 := (rest2.takeWhile wsChar).length
      let rest3 := rest2.drop ws2
      let consumedToValue := 3 + ws1 + 1 + ws2
      let bareAlt : Option (SrcQuote × List Char × Nat) :=
        let run := rest3.takeWhile (fun c => ¬ wsChar c ∧ c ≠ '>')
        if run = [] then none
        else some (.bare, run, consumedToValue + run.length)
      match rest3 with
      | '"' :: r =>
        match idxOfChar r '"' with
        | some j => some (.dq, r.take j, consumedToValue + 1 + j + 1)
        | none => bareAlt
      | q :: r =>
        if q = squoteChar then
          match idxOfChar r q with
          | some j => some (.sq, r.take j, consumedToValue + 1 + j + 1)
          | none => bareAlt
        else bareAlt
      | [] => none
    | _ => none
  else none

/-- Scan for the `\bsrc` position inside the tag, consuming the lazy
`[^>]*?` run one char at a time; `prev` is the char just before the
candidate position. -/
def srcScan (prev : Char) (cur : List Char) (k : Nat) :
    Option (Nat × SrcQuote × List Char × Nat) :=
  match (if ¬ isWordChar prev then trySrcAt cur else none) with
  | some (q, url, len) => some (k, q, url, len)
  | none =>
    match cur with
    | [] => none
    | c :: t => if c = '>' then none else srcScan c t (k + 1)

/-- Find the `src=value` match inside a tag body (the text right after
`<img`); the first char must be a non-word, non-`>` char (the `\b` after
`img`, and the `[^>]` constraint). -/
def findSrcInTag (rest : List Char) :
    Option (Nat × SrcQuote × List Char × Nat) :=
  match rest with
  | [] => none
  | r0 :: rtail =>
    if isWordChar r0 ∨ r0 = '>' then none else srcScan r0 rtail 1

/-- Global-scan worker of `rewriteHtmlImgSrcAttributes`; the counter
skips the chars of an already-emitted match. -/
def htmlImgGo : Nat → List Char → List Char × Nat
  | _ + 1, [] => ([], 0)
  | n + 1, _ :: cs => htmlImgGo n cs
  | 0, [] => ([], 0)
  | 0, c :: cs =>
    if isPrefixOfCI "<img".data (c :: cs) then
      match findSrcInTag ((c :: cs).drop 4) with
      | none =>
        let (out, k) := htmlImgGo 0 cs
        (c :: out, k)
      | some (kpos, quote, url, srcLen) =>
        let matchLen := 4 + kpos + srcLen
        let matched := (c :: cs).take matchLen
        let stripped :=
          (stripUrlQueryParamsPreservingFragment (String.mk url)).data
        let (tailOut, tailCnt) := htmlImgGo (matchLen - 1) cs
        if stripped = url then (matched ++ tailOut, tailCnt)
        else
          let replacement :=
            match quote with
            | .dq =>
              matched.take (matchLen - (url.length + 2)) ++
                '"' :: replaceAllChars ['"'] "%22".data stripped ++ ['"']
            | .sq =>
              matched.take (matchLen - (url.length + 2)) ++
                squoteChar ::
                  replaceAllChars [squoteChar] "%27".data stripped ++
                  [squoteChar]
            | .bare => matched.take (matchLen - url.length) ++ stripped
          (replacement ++ tailOut, tailCnt + 1)
    else
      let (out, k) := htmlImgGo 0 cs
      (c :: out, k)

/-- The `<img src>` global rewrite scan. -/
def htmlImgScan (l : List Char) : List Char × Nat := htmlImgGo 0 l

/-- `rewriteHtmlImgSrcAttributes` from markdown-images.ts. -/
def rewriteHtmlImgSrcAttributes (text : String) :
    StripImageUrlQueryParamsResult :=
  let (out, k) := htmlImgScan text.data
  { content := String.mk out, strippedCount := k }

/-! ### Markdown `![alt](dest)` rewriting -/

/-- Escape-aware scan for the `]` closing the alt text; returns its offset
(`cursor` walk of the source). -/
def altScan : List Char → Nat → Option Nat
  | [], _ => none
  | '\\' :: rest, i =>
    match rest with
    | [] => none
    | _ :: r2 => altScan r2 (i + 2)
  | ']' :: _, i => some i
  | _ :: rest, i => altScan rest (i + 1)

/-- The non-angle destination scan: returns the destination's end offset
(`destEnd`), tracking escapes, nested parens and depth-0 whitespace. -/
def destScan : List Char → Nat → Nat → Nat
  | [], pos, _ => pos
  | '\\' :: rest, pos, d =>
    match rest with
    | [] => pos + 2
    | _ :: r2 => destScan r2 (pos + 2) d
  | '(' :: rest, pos, d => destScan rest (pos + 1) (d + 1)
  | ')' :: rest, pos, d =>
    if d = 0 then pos else destScan rest (pos + 1) (d - 1)
  | ch :: rest, pos, d =>
    if wsChar ch ∧ d = 0 then pos else destScan rest (pos + 1) d

/-- The closing-paren scan (escape-, quote- and depth-aware); `dep` starts
at 1 and the offset of the closing `)` is returned. -/
def cpScan : List Char → Nat → Nat → Option Char → Option Nat
  | [], _, _, _ => none
  | '\\' :: rest, pos, dep, q =>
    match rest with
    | [] => none
    | _ :: r2 => cpScan r2 (pos + 2) dep q
  | ch :: rest, pos, dep, some q =>
    if ch = q then cpScan rest (pos + 1) dep none
    else cpScan rest (pos + 1) dep (some q)
  | ch :: rest, pos, dep, none =>
    if ch = '"' ∨ ch = squoteChar then cpScan rest (pos + 1) dep (some ch)
    else if ch = '(' then cpScan rest (pos + 1) (dep + 1) none
    else if ch = ')' then
      if dep = 1 then some pos else cpScan rest (pos + 1) (dep - 1) none
    else cpScan rest (pos + 1) dep none

/-- Output of one `![` handling step in the markdown-image loop. -/
structure ImgStep where
  /-- Text emitted for this chunk. -/
  out : List Char
  /-- Chars consumed from the tail after `![` (loop resume point). -/
  extra : Nat
  /-- 1 when a destination was stripped. -/
  count : Nat
  deriving Repr

/-- Handle one `![` occurrence: `inner` is the text after `![`; mirrors
the body of the `while` loop of `rewriteMarkdownImageDestinations`
(positions are into `org = "![" ++ inner`). -/
def parseImageAt (inner : List Char) : ImgStep :=
  let org := '!' :: '[' :: inner
  match altScan inner 0 with
  | none => { out := org, extra := inner.length, count := 0 }
  | some j =>
    let afterAlt := 2 + j + 1
    let afterWs := afterAlt + ((org.drop afterAlt).takeWhile wsChar).length
    if (org.drop afterWs).take 1 ≠ ['('] then
      { out := org.take afterWs, extra := afterWs - 2, count := 0 }
    else
      let openParen := afterWs
      let pos0 :=
        openParen + 1 +
          ((org.drop (openParen + 1)).takeWhile wsChar).length
      let finish (_isAngle : Bool) (destStart destEnd scanStart : Nat) :
          ImgStep :=
        let destRaw := (org.take destEnd).drop destStart
        let destStripped :=
          (stripUrlQueryParamsPreservingFragment (String.mk destRaw)).data
        let changed := destStripped ≠ destRaw
        match cpScan (org.drop scanStart) scanStart 1 none with
        | none => { out := org, extra := inner.length, count := 0 }
        | some cp =>
          if changed then
            { out := org.take destStart ++ destStripped ++
                ((org.take (cp + 1)).drop destEnd)
              extra := cp + 1 - 2
              count := 1 }
          else
            { out := org.take (cp + 1), extra := cp + 1 - 2, count := 0 }
      if (org.drop pos0).take 1 = ['<'] then
        let destStart := pos0 + 1
        match idxOfSubFrom org ['>'] destStart with
        | none =>
          { out := org.take (openParen + 1)
            extra := openParen + 1 - 2
            count := 0 }
        | some close => finish true destStart close (close + 1)
      else
        let destEnd := destScan (org.drop pos0) pos0 0
        finish false pos0 destEnd destEnd

/-- The main loop of `rewriteMarkdownImageDestinations`: scan for `![`,
hand the tail to `parseImageAt`, emit its chunk and skip to its resume
point (skip counter keeps the recursion structural). -/
def imgGo : Nat → List Char → List Char × Nat
  | _ + 1, [] => ([], 0)
  | n + 1, _ :: cs => imgGo n cs
  | 0, [] => ([], 0)
  | 0, c :: cs =>
    if c = '!' ∧ cs.take 1 = ['['] then
      let inner := cs.drop 1
      let pr := parseImageAt inner
      let (tailOut, k2) := imgGo (1 + pr.extra) cs
      (pr.out ++ tailOut, pr.count + k2)
    else
      let (out, k) := imgGo 0 cs
      (c :: out, k)

/-- Markdown-image rewrite over a char list. -/
def scanImages (cs : List Char) : List Char × Nat := imgGo 0 cs

/-- `rewriteMarkdownImageDestinations` from markdown-images.ts. -/
def rewriteMarkdownImageDestinations (text : String) :
    StripImageUrlQueryParamsResult :=
  let (out, k) := scanImages text.data
  { content := String.mk out, strippedCount := k }

/-! ### Inline-code and fenced-block skipping -/

/-- Find the first occurrence of `sub` and split around it: `some (before,
after)` with the input `= before ++ sub ++ after`. -/
def findSubSplit (sub : List Char) : List Char → Option (List Char × List Char)
  | [] => if sub = [] then some ([], []) else none
  | x :: xs =>
    if sub.isPrefixOf (x :: xs) then some ([], (x :: xs).drop sub.length)
    else
      match findSubSplit sub xs with
      | some (b, a) => some (x :: b, a)
      | none => none

/-- Worker of `rewriteOutsideInlineCode`: `buf` accumulates the plain
segment since the last code span, the counter skips an already-emitted
span.  At a backtick, the closing fence of the same run length is looked
up; without one the rest (from the tick) is rewritten as plain text, as the
source does. -/
def roicGo (rw : List Char → List Char × Nat) :
    Nat → List Char → List Char → List Char × Nat
  | _ + 1, buf, [] => rw buf
  | n + 1, buf, _ :: cs => roicGo rw n buf cs
  | 0, buf, [] => rw buf
  | 0, buf, c :: cs =>
    if c = btick then
      let fromTick := c :: cs
      let runLen := (fromTick.takeWhile (fun x => x = btick)).length
      let fence := List.replicate runLen btick
      match findSubSplit fence (fromTick.drop runLen) with
      | none =>
        let (bOut, bCnt) := rw buf
        let (tOut, tCnt) := rw fromTick
        (bOut ++ tOut, bCnt + tCnt)
      | some (mid, _rest) =>
        let (bOut, bCnt) := rw buf
        let span := fence ++ mid ++ fence
        let (rOut, rCnt) := roicGo rw (span.length - 1) [] cs
        (bOut ++ span ++ rOut, bCnt + rCnt)
    else roicGo rw 0 (buf ++ [c]) cs

/-- `rewriteOutsideInlineCode` from markdown-images.ts: rewrite the
segments outside backtick-delimited inline code spans, copying the spans
verbatim. -/
def rewriteOutsideInlineCode (rw : List Char → List Char × Nat)
    (l : List Char) : List Char × Nat :=
  roicGo rw 0 [] l

/-- Line splitter worker (accumulator holds the current line reversed). -/
def linesGo : List Char → List Char → List (List Char)
  | [], [] => []
  | [], acc => [acc.reverse]
  | '\n' :: cs, acc => (acc.reverse ++ ['\n']) :: linesGo cs []
  | c :: cs, acc => linesGo cs (c :: acc)

/-- Split into lines, each keeping its trailing newline (the manual line
walk of `rewriteOutsideFencedCodeBlocks`). -/
def linesKeepNl (l : List Char) : List (List Char) := linesGo l []

/-- The fence-line test `/^\s*([\x60~]{3,})/`: leading whitespace then at
least three backtick/tilde characters; gives the marker's first char and
length. -/
def fenceInfo (line : List Char) : Option (Char × Nat) :=
  let t := line.dropWhile wsChar
  let marker := t.takeWhile (fun c => c = btick ∨ c = '~')
  if marker.length ≥ 3 then some (marker.headD ' ', marker.length) else none

/-- The line loop of `rewriteOutsideFencedCodeBlocks`; `buffer` collects
non-fence text outside fences (flushed through the inline-code rewriter),
fenced lines are copied verbatim. -/
def fencedGo (rw : List Char → List Char × Nat) :
    List (List Char) → List Char → Bool → Char → Nat → List Char × Nat
  | [], buffer, _, _, _ =>
    if buffer = [] then ([], 0) else rewriteOutsideInlineCode rw buffer
  | line :: rest, buffer, inFence, fc, fl =>
    match fenceInfo line with
    | some (ch, len) =>
      if ¬ inFence then
        let (fOut, fCnt) :=
          if buffer = [] then ([], 0)
          else rewriteOutsideInlineCode rw buffer
        let (rOut, rCnt) := fencedGo rw rest [] true ch len
        (fOut ++ line ++ rOut, fCnt + rCnt)
      else if ch = fc ∧ fl ≤ len then
        let (rOut, rCnt) := fencedGo rw rest buffer false fc 0
        (line ++ rOut, rCnt)
      else
        let (rOut, rCnt) := fencedGo rw rest buffer true fc fl
        (line ++ rOut, rCnt)
    | none =>
      if inFence then
        let (rOut, rCnt) := fencedGo rw rest buffer true fc fl
        (line ++ rOut, rCnt)
      else fencedGo rw rest (buffer ++ line) false fc fl

/-- `rewriteOutsideFencedCodeBlocks` from markdown-images.ts. -/
def rewriteOutsideFencedCodeBlocks (markdown : String)
    (rw : List Char → List Char × Nat) : StripImageUrlQueryParamsResult :=
  let (out, k) := fencedGo rw (linesKeepNl markdown.data) [] false ' ' 0
  { content := String.mk out, strippedCount := k }

/-- The per-segment two-pass rewrite of `stripQueryParamsFromImageUrls`:
HTML `<img src>` first, then markdown image destinations. -/
def rewriteSegment (l : List Char) : List Char × Nat :=
  let (htmlOut, htmlCnt) := htmlImgScan l
  let (mdOut, mdCnt) := scanImages htmlOut
  (mdOut, htmlCnt + mdCnt)

/-- `stripQueryParamsFromImageUrls` from markdown-images.ts: the top-level
entry point, skipping fenced blocks and inline code spans. -/
def stripQueryParamsFromImageUrls (markdown : String) :
    StripImageUrlQueryParamsResult :=
  rewriteOutsideFencedCodeBlocks markdown rewriteSegment

/-! ## types.ts: the remote note record -/

/-- A `Note` from the remote API (types.ts).  The zettel-box helpers read
several loosely-typed properties straight off the runtime record
(`zettelboxexes`, `zettelBoxexes`, `zettelBoxExes`, `zettelBoxes`); those
duck-typed properties are carried in `boxFields` as raw JSON. -/
structure Note where
  /-- Note title. -/
  title : String
  /-- Creation time string. -/
  createTime : String
  /-- Rendered body (template already applied server-side). -/
  content : String
  /-- Stable remote identifier. -/
  noteId : String
  /-- Optional type marker. -/
  type : Option String
  /-- Deletion flag. -/
  isDel : Bool
  /-- Raw zettel-box related properties of the runtime record. -/
  boxFields : List (String × Json)
  deriving Repr

/-! ## zettel-box-folders.ts -/

/-- The UUID shape `[0-9a-f]{8}-..-[0-9a-f]{12}` (case-insensitive). -/
def isUuidShape (s : String) : Bool :=
  match (splitOnChar s '-').map (fun p => p.data) with
  | [a, b, c, d, e] =>
    a.length = 8 ∧ b.length = 4 ∧ c.length = 4 ∧ d.length = 4 ∧
      e.length = 12 ∧ (a ++ b ++ c ++ d ++ e).all isHexChar
  | _ => false

/-- `looksLikeLikelyId` from zettel-box-folders.ts: UUID shape, 32 hex
chars, or 8-or-more purely numeric chars. -/
def looksLikeLikelyId (value : String) : Bool :=
  let trimmed := jsTrim value
  if trimmed = "" then false
  else
    isUuidShape trimmed ∨
      (trimmed.data.length = 32 ∧ trimmed.data.all isHexChar) ∨
      (8 ≤ trimmed.data.length ∧ trimmed.data.all isDigitChar)

/-- Read a string property and trim it, keeping it only when non-blank
(the `typeof x === "string" && x.trim()` pattern). -/
def recStrTrimmed (entry : Json) (key : String) : Option String :=
  match entry.get? key with
  | some (.str s) => if jsTrim s = "" then none else some (jsTrim s)
  | _ => none

/-- `extractNameFromBoxEntry` from zettel-box-folders.ts. -/
def extractNameFromBoxEntry (entry : Json) : Option String :=
  match entry with
  | .str s =>
    let trimmed := jsTrim s
    if trimmed = "" then none
    else if looksLikeLikelyId trimmed then none
    else some trimmed
  | .obj _ =>
    match recStrTrimmed entry "name" with
    | some n => some n
    | none =>
      match recStrTrimmed entry "zettelBoxName" with
      | some n => some n
      | none =>
        match entry.get? "zettelBox" with
        | some nested =>
          if nested.isRecord then recStrTrimmed nested "name" else none
        | none => none
  | _ => none

/-- `extractFirstBoxName` from zettel-box-folders.ts: first entry of an
array yielding a name; non-arrays yield nothing. -/
def extractFirstBoxName (value : Json) : Option String :=
  match value with
  | .arr entries => go entries
  | _ => none
where
  /-- Walk the entries in order. -/
  go : List Json → Option String
    | [] => none
    | e :: es =>
      match extractNameFromBoxEntry e with
      | some n => some n
      | none => go es

/-- The `zettelBoxes` walk of `extractFirstZettelBoxName`: raw string
entries are skipped entirely; only object entries may contribute. -/
def zettelBoxesScan : List Json → Option String
  | [] => none
  | .str _ :: es => zettelBoxesScan es
  | e :: es =>
    match extractNameFromBoxEntry e with
    | some n => some n
    | none => zettelBoxesScan es

/-- Property read off the duck-typed record (`undefined` modelled as
`null`; neither is an array or record, so the downstream helpers treat
them alike). -/
def boxGet (fields : List (String × Json)) (k : String) : Json :=
  (getAssoc fields k).getD .null

/-- `extractFirstZettelBoxName` from zettel-box-folders.ts. -/
def extractFirstZettelBoxName (noteData : Note) : Option String :=
  let record := noteData.boxFields
  let fromExes :=
    match extractFirstBoxName (boxGet record "zettelboxexes") with
    | some n => some n
    | none =>
      match extractFirstBoxName (boxGet record "zettelBoxexes") with
      | some n => some n
      | none => extractFirstBoxName (boxGet record "zettelBoxExes")
  match fromExes with
  | some n => some n
  | none =>
    match boxGet record "zettelBoxes" with
    | .arr entries => zettelBoxesScan entries
    | _ => none

/-- `resolveZettelBoxFolderSegment` from zettel-box-folders.ts. -/
def resolveZettelBoxFolderSegment (noteData : Note) (enabled : Bool) :
    Option String :=
  if ¬ enabled then none
  else
    match extractFirstZettelBoxName noteData with
    | none => none
    | some rawName => sanitizeFolderSegment rawName

/-- Bare string entries that are blank or ID-shaped never produce a name
(helper for C8). -/
theorem extractName_str_none (s : String)
    (h : jsTrim s = "" ∨ looksLikeLikelyId (jsTrim s) = true) :
    extractNameFromBoxEntry (.str s) = none := by
  simp only [extractNameFromBoxEntry]
  rcases h with h | h
  · simp [h]
  · by_cases h0 : jsTrim s = ""
    · simp [h0]
    · simp [h0, h]

/-- C8 counterexample: the claim says an ID-shaped string is never used as
a folder name, but an object entry whose explicit `name` field is a 32-hex
ID-shaped string is used verbatim — the ID-shape filter only applies to
bare string entries. -/
theorem C8_counterexample :
    looksLikeLikelyId "0123456789abcdef0123456789abcdef" = true ∧
    resolveZettelBoxFolderSegment
      { title := "", createTime := "", content := "", noteId := "n",
        type := none, isDel := false,
        boxFields := [("zettelboxexes",
          Json.arr [Json.obj [("name",
            Json.str "0123456789abcdef0123456789abcdef")]])] } true =
      some "0123456789abcdef0123456789abcdef" := by
  exact ⟨by decide, by decide⟩

/-- C8 (amended): when zettel-box folders are enabled the folder segment is
resolved from an explicit `name`, `zettelBoxName`, nested `zettelBox.name`,
or the first non-ID-shaped *bare string* entry of an array; an ID-shaped
*bare string* entry is never used as a folder name (the ID-shape filter
does not apply to explicit name fields of object entries); a note without
a resolvable name yields `none` (the note stays at the parent level, not an
error); and a resolved name is sanitized into the segment. -/
theorem C8_zettel_box_segment :
    (∀ (noteData : Note) (enabled : Bool),
        extractFirstZettelBoxName noteData = none →
        resolveZettelBoxFolderSegment noteData enabled = none) ∧
    (∀ noteData : Note, resolveZettelBoxFolderSegment noteData false = none) ∧
    (∀ s n : String, extractNameFromBoxEntry (.str s) = some n →
        n = jsTrim s ∧ looksLikeLikelyId n = false) ∧
    (∀ ss : List String,
        (∀ s ∈ ss, jsTrim s = "" ∨ looksLikeLikelyId (jsTrim s) = true) →
        extractFirstBoxName (.arr (ss.map .str)) = none) ∧
    (∀ (noteData : Note) (n : String),
        extractFirstZettelBoxName noteData = some n →
        resolveZettelBoxFolderSegment noteData true =
          sanitizeFolderSegment n) := by
  refine ⟨?_, ?_, ?_, ?_, ?_⟩
  · intro nd e h
    cases e <;> simp [resolveZettelBoxFolderSegment, h]
  · intro nd
    simp [resolveZettelBoxFolderSegment]
  · intro s n h
    simp only [extractNameFromBoxEntry] at h
    by_cases h0 : jsTrim s = ""
    · simp [h0] at h
    · by_cases h1 : looksLikeLikelyId (jsTrim s) = true
      · simp [h0, h1] at h
      · simp only [h0, h1, if_false, if_neg] at h
        cases h
        exact ⟨rfl, by simpa using h1⟩
  · intro ss hss
    induction ss with
    | nil => simp [extractFirstBoxName, extractFirstBoxName.go]
    | cons s rest ih =>
      simp only [List.map_cons, extractFirstBoxName, extractFirstBoxName.go]
      rw [extractName_str_none s (hss s (by simp))]
      have := ih (fun x hx => hss x (by simp [hx]))
      simpa [extractFirstBoxName] using this
  · intro nd n h
    simp [resolveZettelBoxFolderSegment, h]

/-- C8 witness: the amended theorem applied at concrete inputs — a
UUID-shaped bare string entry resolves to no segment, and a plain name
resolves to its sanitized form. -/
theorem C8_witness :
    resolveZettelBoxFolderSegment
      { title := "", createTime := "", content := "", noteId := "n",
        type := none, isDel := false,
        boxFields := [("zettelboxexes",
          Json.arr [Json.str "123e4567-e89b-12d3-a456-426614174000"])] }
      true = none ∧
    resolveZettelBoxFolderSegment
      { title := "", createTime := "", content := "", noteId := "n",
        type := none, isDel := false,
        boxFields := [("zettelboxexes", Json.arr [Json.str "Projects"])] }
      true = sanitizeFolderSegment "Projects" := by
  constructor
  · exact C8_zettel_box_segment.1 _ true (by decide)
  · exact C8_zettel_box_segment.2.2.2.2 _ "Projects" (by decide)

/-! ## markdown.ts (frontmatter helpers used by the sync module) -/

/-- `stripQuotes` from markdown.ts. -/
def stripQuotes (value : String) : String :=
  let trimmed := jsTrim value
  if (jsStartsWith trimmed "\x22" ∧ jsEndsWith trimmed "\x22") ∨
      (trimmed.data.take 1 = [squoteChar] ∧
        trimmed.data.reverse.take 1 = [squoteChar]) then
    String.mk ((trimmed.data.drop 1).dropLast)
  else trimmed

/-- Result of `splitFrontmatter`. -/
structure FrontmatterSplitResult where
  /-- The raw frontmatter text, `none` when absent/malformed. -/
  frontmatter : Option String
  /-- The body. -/
  body : String
  deriving Repr, DecidableEq

/-- Index of the first line (from position 1) equal to `---` after trim. -/
def findCloseDash (lines : List String) : Option Nat :=
  go lines 1
where
  /-- Scan from index 1 of the original list. -/
  go : List String → Nat → Option Nat
    | [], _ => none
    | x :: xs, i => if jsTrim x = "---" then some i else go xs (i + 1)

/-- `splitFrontmatter` from markdown.ts. -/
def splitFrontmatter (markdown : String) : FrontmatterSplitResult :=
  let raw := markdown
  let lines := splitLinesJs raw
  match lines with
  | [] => { frontmatter := none, body := raw }
  | first :: restLines =>
    if jsTrim first ≠ "---" then { frontmatter := none, body := raw }
    else
      match findCloseDash restLines with
      | none => { frontmatter := none, body := raw }
      | some endIndex =>
        { frontmatter :=
            some (String.intercalate "\n" ((lines.drop 1).take (endIndex - 1)))
          body := jsTrim (String.intercalate "\n" (lines.drop (endIndex + 1))) }

/-- One-line scalar match of `extractFrontmatterScalar`: leading
whitespace, the key (case-insensitively), optional whitespace, `:`, and a
rest that must contain at least one character for the regex to match. -/
def scalarLineValue (key : String) (line : String) : Option String :=
  let t := line.data.dropWhile wsChar
  if isPrefixOfCI key.data t then
    let afterKey := t.drop key.data.length
    match afterKey.dropWhile wsChar with
    | ':' :: rest =>
      if rest = [] then none
      else
        let value := stripQuotes (String.mk rest)
        some (if value = "" then "" else value)
    | _ => none
  else none

/-- `extractFrontmatterScalar` from markdown.ts (shallow `key: value`
parse; the first matching line wins; blank values yield `null`). -/
def extractFrontmatterScalar (frontmatter : Option String) (key : String) :
    Option String :=
  match frontmatter with
  | none => none
  | some fm => go (splitLinesJs fm)
where
  /-- Walk the lines for the first match of the `mi`-flagged pattern. -/
  go : List String → Option String
    | [] => none
    | line :: rest =>
      match scalarLineValue key line with
      | some v => if v = "" then none else some v
      | none => go rest

/-! ## type-folders.ts -/

/-- The two routing categories. -/
inductive DinoxFolderCategory where
  /-- Regular note. -/
  | note
  /-- Crawl-sourced material. -/
  | material
  deriving Repr, DecidableEq

/-- Result of `categorizeDinoxType`. -/
structure CategorizeTypeResult where
  /-- The category routed to. -/
  category : DinoxFolderCategory
  /-- Normalized (trimmed, lowercased) type value. -/
  normalizedType : String
  /-- Whether the type was recognized. -/
  isKnown : Bool
  deriving Repr, DecidableEq

/-- `normalizeTypeValue` from type-folders.ts (non-strings become ""). -/
def normalizeTypeValue (value : Option String) : String :=
  match value with
  | some s => jsToLower (jsTrim s)
  | none => ""

/-- `categorizeDinoxType` from type-folders.ts. -/
def categorizeDinoxType (value : Option String) : CategorizeTypeResult :=
  let normalizedType := normalizeTypeValue value
  if normalizedType = "" ∨ normalizedType = "note" then
    { category := .note, normalizedType, isKnown := true }
  else if normalizedType = "crawl" then
    { category := .material, normalizedType, isKnown := true }
  else { category := .note, normalizedType, isKnown := false }

/-- `sanitizeRelativeFolderSubpath` from type-folders.ts (string input
variant; non-strings yield `none`). -/
def sanitizeRelativeFolderSubpath (value : String) : Option String :=
  let trimmed := jsTrim value
  if trimmed = "" then none
  else
    let cleaned :=
      String.mk (stripEnds (fun c => c = '/')
        (replaceCharClass (fun c => c = '\\') ['/'] trimmed.data))
    let normalized := normalizePath cleaned
    if normalized = "" then none
    else if jsStartsWith normalized "/" then none
    else
      let segments :=
        (splitOnChar normalized '/').filter (fun s => s ≠ "")
      if segments = [] then none
      else if segments.any (fun s => s = "." ∨ s = "..") then none
      else some normalized

/-- Type-folder settings (types.ts). -/
structure TypeFoldersSettings where
  /-- Feature toggle. -/
  enabled : Bool
  /-- Note subfolder. -/
  note : String
  /-- Material subfolder. -/
  material : String
  deriving Repr, DecidableEq

/-- `DEFAULT_TYPE_FOLDERS_SETTINGS` from constants.ts. -/
def DEFAULT_TYPE_FOLDERS_SETTINGS : TypeFoldersSettings :=
  { enabled := true, note := "note", material := "material" }

/-- `getSanitizedTypeFolderNames` from type-folders.ts. -/
def getSanitizedTypeFolderNames (typeFolders : TypeFoldersSettings) :
    String × String :=
  let note :=
    (sanitizeRelativeFolderSubpath typeFolders.note).getD
      DEFAULT_TYPE_FOLDERS_SETTINGS.note
  let material :=
    (sanitizeRelativeFolderSubpath typeFolders.material).getD
      DEFAULT_TYPE_FOLDERS_SETTINGS.material
  if note = material then
    (DEFAULT_TYPE_FOLDERS_SETTINGS.note,
      DEFAULT_TYPE_FOLDERS_SETTINGS.material)
  else (note, material)

/-- `resolveCategoryBaseDir` from type-folders.ts. -/
def resolveCategoryBaseDir (baseDir : String)
    (typeFolders : TypeFoldersSettings) (category : DinoxFolderCategory) :
    String :=
  let baseDir := normalizePath baseDir
  if ¬ typeFolders.enabled then baseDir
  else
    let names := getSanitizedTypeFolderNames typeFolders
    let subdir := if category = .material then names.2 else names.1
    normalizePath (baseDir ++ "/" ++ subdir)


/-! ## types.ts (settings records) and hotkeys.ts -/

/-- One configurable hotkey (types.ts). -/
structure DinoHotkeySetting where
  /-- Modifier names, sorted by `MODIFIER_ORDER`. -/
  modifiers : List String
  /-- Normalized key value. -/
  key : String
  deriving Repr, DecidableEq

/-- The per-command hotkey map (types.ts). -/
structure DinoHotkeyMap where
  /-- Full-sync command. -/
  syncAll : DinoHotkeySetting
  /-- Push-current-note command. -/
  syncCurrentNote : DinoHotkeySetting
  /-- Create-note command. -/
  createNote : DinoHotkeySetting
  deriving Repr, DecidableEq

/-- Daily-note settings (types.ts); `insertTo` and `linkStyle` are kept as
strings so that the validation in persisted-data.ts is meaningful. -/
structure DailyNotesSettings where
  /-- Feature toggle. -/
  enabled : Bool
  /-- Heading above the managed block. -/
  heading : String
  /-- "top" or "bottom". -/
  insertTo : String
  /-- Create the daily note when missing. -/
  createIfMissing : Bool
  /-- "wikilink" or "embed". -/
  linkStyle : String
  /-- Render preview lines. -/
  includePreview : Bool
  deriving Repr, DecidableEq

/-- Zettel-box folder settings (types.ts). -/
structure ZettelBoxFoldersSettings where
  /-- Feature toggle. -/
  enabled : Bool
  deriving Repr, DecidableEq

/-- Plugin settings (types.ts); enum-valued fields are strings, validated
by `normalizeSettings`. -/
structure DinoPluginSettings where
  /-- API token. -/
  token : String
  /-- Auto-sync toggle. -/
  isAutoSync : Bool
  /-- Sync base directory. -/
  dir : String
  /-- Type-folder routing settings. -/
  typeFolders : TypeFoldersSettings
  /-- Zettel-box folder settings. -/
  zettelBoxFolders : ZettelBoxFoldersSettings
  /-- Content template sent to the API. -/
  template : String
  /-- "noteId" | "title" | "time" | "titleDate" | "template". -/
  filenameFormat : String
  /-- Free-form filename template. -/
  filenameTemplate : String
  /-- "flat" | "nested". -/
  fileLayout : String
  /-- Frontmatter key for the ignore-sync flag. -/
  ignoreSyncKey : String
  /-- Comma/newline separated preserve keys. -/
  preserveKeys : String
  /-- Hotkey map. -/
  commandHotkeys : DinoHotkeyMap
  /-- Daily-note settings. -/
  dailyNotes : DailyNotesSettings
  deriving Repr, DecidableEq

/-- `VALID_MODIFIERS` from hotkeys.ts. -/
def VALID_MODIFIERS : List String := ["Mod", "Ctrl", "Meta", "Shift", "Alt"]

/-- `MODIFIER_ORDER` from hotkeys.ts. -/
def MODIFIER_ORDER : List String := ["Mod", "Ctrl", "Meta", "Shift", "Alt"]

/-- `normalizeKeyValue` from hotkeys.ts. -/
def normalizeKeyValue (key : String) : String :=
  if key = "" then ""
  else if key = "Esc" then "Escape"
  else if key = "Space" then " "
  else if key.data.length = 1 then jsToUpper key
  else key

/-- `createEmptyHotkey` from hotkeys.ts. -/
def createEmptyHotkey : DinoHotkeySetting := { modifiers := [], key := "" }

/-- `createDefaultHotkeys` from hotkeys.ts. -/
def createDefaultHotkeys : DinoHotkeyMap :=
  { syncAll := createEmptyHotkey
    syncCurrentNote := createEmptyHotkey
    createNote := createEmptyHotkey }

/-- `sanitizeHotkeySetting` from hotkeys.ts over a raw persisted value.
Deduplicating the valid modifiers and sorting by `MODIFIER_ORDER` index is
the order-filter of `MODIFIER_ORDER` (all indices are distinct). -/
def sanitizeHotkeySetting (setting : Json) : DinoHotkeySetting :=
  if ¬ setting.truthy then createEmptyHotkey
  else
    let keyValue :=
      match setting.get? "key" with
      | some (.str s) => normalizeKeyValue s
      | _ => ""
    let rawModifiers :=
      match setting.get? "modifiers" with
      | some (.arr xs) => xs
      | _ => []
    { key := keyValue
      modifiers :=
        MODIFIER_ORDER.filter (fun m => rawModifiers.contains (.str m)) }

/-- Read a property of an optional record, `undefined` as `null`. -/
def optGet (m : Option Json) (k : String) : Json :=
  match m with
  | some j => (j.get? k).getD .null
  | none => .null

/-- `cloneHotkeyMap` from hotkeys.ts over raw persisted data. -/
def cloneHotkeyMap (map : Option Json) : DinoHotkeyMap :=
  { syncAll := sanitizeHotkeySetting (optGet map "syncAll")
    syncCurrentNote := sanitizeHotkeySetting (optGet map "syncCurrentNote")
    createNote := sanitizeHotkeySetting (optGet map "createNote") }

/-! ## constants.ts -/

/-- `DEFAULT_TEMPLATE_TEXT` from constants.ts. -/
def DEFAULT_TEMPLATE_TEXT : String :=
  "---\ntitle: \x7b\x7btitle\x7d\x7d\nnoteId: \x7b\x7bnoteId\x7d\x7d\ntype: \x7b\x7btype\x7d\x7d\ntags:\n\x7b\x7b#tags\x7d\x7d\n    - \x7b\x7b.\x7d\x7d\n\x7b\x7b/tags\x7d\x7d\nzettelBoxes:\n\x7b\x7b#zettelBoxes\x7d\x7d\n    - \x7b\x7b.\x7d\x7d\n\x7b\x7b/zettelBoxes\x7d\x7d\naudioUrl: \x7b\x7baudioUrl\x7d\x7d\ncreateTime: \x7b\x7bcreateTime\x7d\x7d\nupdateTime: \x7b\x7bupdateTime\x7d\x7d\n---\n\x7b\x7b#audioUrl\x7d\x7d\n![录音](\x7b\x7baudioUrl\x7d\x7d)\n\x7b\x7b/audioUrl\x7d\x7d\n\n\x7b\x7bcontent\x7d\x7d\n"

/-- `DEFAULT_LAST_SYNC_TIME` from constants.ts. -/
def DEFAULT_LAST_SYNC_TIME : String := "1900-01-01 00:00:00"

/-- `DEFAULT_DAILY_NOTES_SETTINGS` from constants.ts. -/
def DEFAULT_DAILY_NOTES_SETTINGS : DailyNotesSettings :=
  { enabled := false
    heading := "## Dinox Notes"
    insertTo := "bottom"
    createIfMissing := true
    linkStyle := "wikilink"
    includePreview := false }

/-- `DEFAULT_ZETTEL_BOX_FOLDERS_SETTINGS` from constants.ts. -/
def DEFAULT_ZETTEL_BOX_FOLDERS_SETTINGS : ZettelBoxFoldersSettings :=
  { enabled := false }

/-- `DEFAULT_SETTINGS` from constants.ts. -/
def DEFAULT_SETTINGS : DinoPluginSettings :=
  { token := ""
    isAutoSync := false
    dir := "Dinox Sync"
    typeFolders := DEFAULT_TYPE_FOLDERS_SETTINGS
    zettelBoxFolders := DEFAULT_ZETTEL_BOX_FOLDERS_SETTINGS
    template := DEFAULT_TEMPLATE_TEXT
    filenameFormat := "noteId"
    filenameTemplate := "\x7b\x7btitle\x7d\x7d (\x7b\x7bcreateDate\x7d\x7d)"
    fileLayout := "nested"
    ignoreSyncKey := "ignore_sync"
    preserveKeys := ""
    commandHotkeys := createDefaultHotkeys
    dailyNotes := DEFAULT_DAILY_NOTES_SETTINGS }

/-! ## persisted-data.ts -/

/-- `PERSISTED_SCHEMA_VERSION` from persisted-data.ts. -/
def PERSISTED_SCHEMA_VERSION : Nat := 2

/-- Persisted state record. -/
structure PersistedPluginState where
  /-- Last-sync watermark string. -/
  lastSyncTime : String
  /-- noteId to path map. -/
  notePathById : List (String × String)
  deriving Repr, DecidableEq

/-- Persisted plugin data, schema version 2. -/
structure PersistedPluginDataV2 where
  /-- Schema version (always 2). -/
  schemaVersion : Nat
  /-- Normalized settings. -/
  settings : DinoPluginSettings
  /-- Normalized state. -/
  state : PersistedPluginState
  deriving Repr, DecidableEq

/-- Enumerate the properties of a JS value the way `Object.entries` does
(arrays enumerate with index keys; primitives have none, and the callers
exclude them anyway). -/
def jsEntries : Json → List (String × Json)
  | .obj fs => fs
  | .arr xs => xs.enum.map (fun p => (toString p.1, p.2))
  | _ => []

/-- `normalizeNotePathById` from persisted-data.ts. -/
def normalizeNotePathById (value : Json) : List (String × String) :=
  match value with
  | .obj _ =>
    (jsEntries value).foldl (fun acc kv => step acc kv) []
  | .arr _ =>
    (jsEntries value).foldl (fun acc kv => step acc kv) []
  | _ => []
where
  /-- Keep non-blank string ids mapped to non-blank string paths. -/
  step (acc : List (String × String)) (kv : String × Json) :
      List (String × String) :=
    if jsTrim kv.1 = "" then acc
    else
      match kv.2 with
      | .str p => if jsTrim p = "" then acc
                  else setAssoc acc (jsTrim kv.1) (normalizePath (jsTrim p))
      | _ => acc

/-- The record view `isJsonRecord(value) ? value : {}` used throughout
persisted-data.ts: a property read over it. -/
def recGet (value : Json) (k : String) : Option Json :=
  if value.isRecord then value.get? k else none

/-- The `a ?? b` read used for nested settings objects: a missing or null
property falls back to the encoded default. -/
def recGetOr (value : Json) (k : String) (dflt : Json) : Json :=
  match recGet value k with
  | some .null => dflt
  | some v => v
  | none => dflt

/-- JSON encoding of `TypeFoldersSettings` (the shape the normalizer reads
when handed the defaults object itself). -/
def jsonOfTypeFolders (t : TypeFoldersSettings) : Json :=
  .obj [("enabled", .bool t.enabled), ("note", .str t.note),
    ("material", .str t.material)]

/-- JSON encoding of `ZettelBoxFoldersSettings`. -/
def jsonOfZettelBox (z : ZettelBoxFoldersSettings) : Json :=
  .obj [("enabled", .bool z.enabled)]

/-- JSON encoding of `DailyNotesSettings`. -/
def jsonOfDailyNotes (d : DailyNotesSettings) : Json :=
  .obj [("enabled", .bool d.enabled), ("heading", .str d.heading),
    ("insertTo", .str d.insertTo),
    ("createIfMissing", .bool d.createIfMissing),
    ("linkStyle", .str d.linkStyle),
    ("includePreview", .bool d.includePreview)]

/-- `sanitizeRelativeFolderSubpath` on an untyped value. -/
def sanitizeRelativeFolderSubpathJ (value : Json) : Option String :=
  match value with
  | .str s => sanitizeRelativeFolderSubpath s
  | _ => none

/-- `normalizeTypeFoldersSettings` from persisted-data.ts. -/
def normalizeTypeFoldersSettings (value : Json) : TypeFoldersSettings :=
  let enabled :=
    match recGet value "enabled" with
    | some (.bool b) => b
    | _ => DEFAULT_TYPE_FOLDERS_SETTINGS.enabled
  let note :=
    (sanitizeRelativeFolderSubpathJ ((recGet value "note").getD .null)).getD
      DEFAULT_TYPE_FOLDERS_SETTINGS.note
  let material :=
    (sanitizeRelativeFolderSubpathJ
        ((recGet value "material").getD .null)).getD
      DEFAULT_TYPE_FOLDERS_SETTINGS.material
  if note = material then { DEFAULT_TYPE_FOLDERS_SETTINGS with enabled }
  else { enabled, note, material }

/-- `normalizeZettelBoxFoldersSettings` from persisted-data.ts. -/
def normalizeZettelBoxFoldersSettings (value : Json) :
    ZettelBoxFoldersSettings :=
  { enabled :=
      match recGet value "enabled" with
      | some (.bool b) => b
      | _ => DEFAULT_ZETTEL_BOX_FOLDERS_SETTINGS.enabled }

/-- The `x === "a" || x === "b" ? x : default` enum-validation pattern of
persisted-data.ts. -/
def validatedChoice (v : Option Json) (allowed : List String)
    (dflt : String) : String :=
  match v with
  | some (.str s) => if allowed.contains s then s else dflt
  | _ => dflt

/-- The validated value is the default or one of the allowed values. -/
theorem validatedChoice_mem (v : Option Json) (allowed : List String)
    (dflt : String) :
    validatedChoice v allowed dflt = dflt ∨
      validatedChoice v allowed dflt ∈ allowed := by
  rcases v with _ | j
  · exact Or.inl rfl
  · cases j with
    | str s =>
      simp only [validatedChoice]
      by_cases h : allowed.contains s
      · right
        simp only [h, if_true]
        exact List.mem_of_elem_eq_true h
      · left
        rw [if_neg h]
    | num n => exact Or.inl rfl
    | bool b => exact Or.inl rfl
    | null => exact Or.inl rfl
    | arr xs => exact Or.inl rfl
    | obj fs => exact Or.inl rfl

/-- `normalizeDailyNotesSettings` from persisted-data.ts. -/
def normalizeDailyNotesSettings (value : Json) : DailyNotesSettings :=
  let insertTo :=
    validatedChoice (recGet value "insertTo") ["top", "bottom"]
      DEFAULT_DAILY_NOTES_SETTINGS.insertTo
  let linkStyle :=
    validatedChoice (recGet value "linkStyle") ["wikilink", "embed"]
      DEFAULT_DAILY_NOTES_SETTINGS.linkStyle
  { enabled :=
      match recGet value "enabled" with
      | some (.bool b) => b
      | _ => DEFAULT_DAILY_NOTES_SETTINGS.enabled
    heading :=
      match recGet value "heading" with
      | some (.str s) => s
      | _ => DEFAULT_DAILY_NOTES_SETTINGS.heading
    insertTo
    createIfMissing :=
      match recGet value "createIfMissing" with
      | some (.bool b) => b
      | _ => DEFAULT_DAILY_NOTES_SETTINGS.createIfMissing
    linkStyle
    includePreview :=
      match recGet value "includePreview" with
      | some (.bool b) => b
      | _ => DEFAULT_DAILY_NOTES_SETTINGS.includePreview }

/-- `normalizeSettings` from persisted-data.ts. -/
def normalizeSettings (value : Json)
    (defaults : DinoPluginSettings := DEFAULT_SETTINGS) :
    DinoPluginSettings :=
  let dir :=
    match recGet value "dir" with
    | some (.str s) =>
      jsTrim (String.mk (stripEnds (fun c => c = '/') s.data))
    | _ => defaults.dir
  let filenameFormat :=
    validatedChoice (recGet value "filenameFormat")
      ["noteId", "title", "time", "titleDate", "template"]
      defaults.filenameFormat
  let fileLayout :=
    validatedChoice (recGet value "fileLayout") ["flat", "nested"]
      defaults.fileLayout
  let ignoreSyncKey :=
    match recGet value "ignoreSyncKey" with
    | some (.str s) =>
      if jsTrim s ≠ "" ∧ s.data.all (fun c => ¬ wsChar c) then jsTrim s
      else defaults.ignoreSyncKey
    | _ => defaults.ignoreSyncKey
  let rawCommandHotkeys :=
    match recGet value "commandHotkeys" with
    | some v => if v.isRecord then some v else none
    | none => none
  { token :=
      match recGet value "token" with
      | some (.str s) => jsTrim s
      | _ => defaults.token
    isAutoSync :=
      match recGet value "isAutoSync" with
      | some (.bool b) => b
      | _ => defaults.isAutoSync
    dir := if dir = "" then defaults.dir else dir
    typeFolders :=
      normalizeTypeFoldersSettings
        (recGetOr value "typeFolders" (jsonOfTypeFolders defaults.typeFolders))
    zettelBoxFolders :=
      normalizeZettelBoxFoldersSettings
        (recGetOr value "zettelBoxFolders"
          (jsonOfZettelBox defaults.zettelBoxFolders))
    template :=
      match recGet value "template" with
      | some (.str s) => s
      | _ => defaults.template
    filenameFormat
    filenameTemplate :=
      match recGet value "filenameTemplate" with
      | some (.str s) => s
      | _ => defaults.filenameTemplate
    fileLayout
    ignoreSyncKey
    preserveKeys :=
      match recGet value "preserveKeys" with
      | some (.str s) => s
      | _ => defaults.preserveKeys
    commandHotkeys := cloneHotkeyMap rawCommandHotkeys
    dailyNotes :=
      normalizeDailyNotesSettings
        (recGetOr value "dailyNotes" (jsonOfDailyNotes defaults.dailyNotes)) }

/-- `normalizeState` from persisted-data.ts. -/
def normalizeState (value : Json) : PersistedPluginState :=
  { lastSyncTime :=
      match recGet value "lastSyncTime" with
      | some (.str s) => if jsTrim s = "" then DEFAULT_LAST_SYNC_TIME
                         else jsTrim s
      | _ => DEFAULT_LAST_SYNC_TIME
    notePathById :=
      normalizeNotePathById ((recGet value "notePathById").getD .null) }

/-- The schema-versioned branch of `normalizePersistedData`. -/
def normalizePersistedDataNew (raw : Json)
    (defaults : DinoPluginSettings) : PersistedPluginDataV2 :=
  { schemaVersion := PERSISTED_SCHEMA_VERSION
    settings := normalizeSettings ((recGet raw "settings").getD .null)
      defaults
    state := normalizeState ((recGet raw "state").getD .null) }

/-- The legacy flat branch of `normalizePersistedData`: settings and state
intermixed at the top level. -/
def normalizePersistedDataLegacy (raw : Json)
    (defaults : DinoPluginSettings) : PersistedPluginDataV2 :=
  { schemaVersion := PERSISTED_SCHEMA_VERSION
    settings := normalizeSettings raw defaults
    state :=
      { lastSyncTime :=
          match recGet raw "lastSyncTime" with
          | some (.str s) => if jsTrim s = "" then DEFAULT_LAST_SYNC_TIME
                             else jsTrim s
          | _ => DEFAULT_LAST_SYNC_TIME
        notePathById :=
          objAssign
            (normalizeNotePathById ((recGet raw "noteMapping").getD .null))
            (normalizeNotePathById
              ((recGet raw "notePathById").getD .null)) } }

/-- `normalizePersistedData` from persisted-data.ts: tolerant of the
schema-versioned shape, the legacy flat shape, partially-missing fields
and garbage; it is a total Lean function, mirroring that the source never
throws on malformed persisted data. -/
def normalizePersistedData (raw : Json)
    (defaults : DinoPluginSettings := DEFAULT_SETTINGS) :
    PersistedPluginDataV2 :=
  if recGet raw "schemaVersion" = some (.num 2) ∧
      ((recGet raw "settings").getD .null).isRecord ∧
      ((recGet raw "state").getD .null).isRecord then
    normalizePersistedDataNew raw defaults
  else normalizePersistedDataLegacy raw defaults


/-- Projection lemma: `normalizeSettings` computes `filenameFormat` by the
enum validation. -/
theorem normalizeSettings_filenameFormat_eq (v : Json)
    (d : DinoPluginSettings) :
    (normalizeSettings v d).filenameFormat =
      validatedChoice (recGet v "filenameFormat")
        ["noteId", "title", "time", "titleDate", "template"]
        d.filenameFormat := rfl

/-- Projection lemma for `fileLayout`. -/
theorem normalizeSettings_fileLayout_eq (v : Json) (d : DinoPluginSettings) :
    (normalizeSettings v d).fileLayout =
      validatedChoice (recGet v "fileLayout") ["flat", "nested"]
        d.fileLayout := rfl

/-- Projection lemma for the nested daily-note settings. -/
theorem normalizeSettings_dailyNotes_eq (v : Json) (d : DinoPluginSettings) :
    (normalizeSettings v d).dailyNotes =
      normalizeDailyNotesSettings
        (recGetOr v "dailyNotes" (jsonOfDailyNotes d.dailyNotes)) := rfl

/-- Projection lemma for `insertTo`. -/
theorem normalizeDailyNotes_insertTo_eq (v : Json) :
    (normalizeDailyNotesSettings v).insertTo =
      validatedChoice (recGet v "insertTo") ["top", "bottom"]
        DEFAULT_DAILY_NOTES_SETTINGS.insertTo := rfl

/-- Projection lemma for `linkStyle`. -/
theorem normalizeDailyNotes_linkStyle_eq (v : Json) :
    (normalizeDailyNotesSettings v).linkStyle =
      validatedChoice (recGet v "linkStyle") ["wikilink", "embed"]
        DEFAULT_DAILY_NOTES_SETTINGS.linkStyle := rfl

/-- All four enum-valued settings fields land in their allowed sets
whatever value `normalizeSettings` is fed (with the stock defaults). -/
theorem settings_enums_ok (v : Json) :
    (normalizeSettings v DEFAULT_SETTINGS).filenameFormat ∈
        ["noteId", "title", "time", "titleDate", "template"] ∧
      (normalizeSettings v DEFAULT_SETTINGS).fileLayout ∈
        ["flat", "nested"] ∧
      (normalizeSettings v DEFAULT_SETTINGS).dailyNotes.insertTo ∈
        ["top", "bottom"] ∧
      (normalizeSettings v DEFAULT_SETTINGS).dailyNotes.linkStyle ∈
        ["wikilink", "embed"] := by
  refine ⟨?_, ?_, ?_, ?_⟩
  · rw [normalizeSettings_filenameFormat_eq]
    rcases validatedChoice_mem (recGet v "filenameFormat")
      ["noteId", "title", "time", "titleDate", "template"]
      DEFAULT_SETTINGS.filenameFormat with h | h
    · rw [h]; simp [DEFAULT_SETTINGS]
    · exact h
  · rw [normalizeSettings_fileLayout_eq]
    rcases validatedChoice_mem (recGet v "fileLayout") ["flat", "nested"]
      DEFAULT_SETTINGS.fileLayout with h | h
    · rw [h]; simp [DEFAULT_SETTINGS]
    · exact h
  · rw [normalizeSettings_dailyNotes_eq, normalizeDailyNotes_insertTo_eq]
    rcases validatedChoice_mem (recGet
        (recGetOr v "dailyNotes"
          (jsonOfDailyNotes DEFAULT_SETTINGS.dailyNotes))
        "insertTo") ["top", "bottom"]
        DEFAULT_DAILY_NOTES_SETTINGS.insertTo with h | h
    · rw [h]; simp [DEFAULT_DAILY_NOTES_SETTINGS]
    · exact h
  · rw [normalizeSettings_dailyNotes_eq, normalizeDailyNotes_linkStyle_eq]
    rcases validatedChoice_mem (recGet
        (recGetOr v "dailyNotes"
          (jsonOfDailyNotes DEFAULT_SETTINGS.dailyNotes))
        "linkStyle") ["wikilink", "embed"]
        DEFAULT_DAILY_NOTES_SETTINGS.linkStyle with h | h
    · rw [h]; simp [DEFAULT_DAILY_NOTES_SETTINGS]
    · exact h

/-- C6: for every persisted value of any shape (schema-versioned, legacy
flat, partial or garbage), `normalizePersistedData` returns a well-formed
`PersistedPluginDataV2` with `schemaVersion` 2 — it is a total function,
mirroring that the source never throws — and every enum-valued settings
field lies in its allowed set, falling back silently to its default. -/
theorem C6_normalize_persisted_wellFormed (raw : Json) :
    (normalizePersistedData raw).schemaVersion = 2 ∧
    (normalizePersistedData raw).settings.filenameFormat ∈
      ["noteId", "title", "time", "titleDate", "template"] ∧
    (normalizePersistedData raw).settings.fileLayout ∈ ["flat", "nested"] ∧
    (normalizePersistedData raw).settings.dailyNotes.insertTo ∈
      ["top", "bottom"] ∧
    (normalizePersistedData raw).settings.dailyNotes.linkStyle ∈
      ["wikilink", "embed"] := by
  unfold normalizePersistedData
  split
  · exact ⟨rfl, settings_enums_ok _⟩
  · exact ⟨rfl, settings_enums_ok _⟩


/-- First char is not whitespace (vacuously true for the empty list). -/
def headNotWs (l : List Char) : Bool :=
  match l with
  | [] => true
  | c :: _ => ¬ wsChar c

/-- Last char is not whitespace (vacuously true for the empty list). -/
def lastNotWs (l : List Char) : Bool := headNotWs l.reverse

/-- A list whose head is not whitespace is untouched by `trimStartChars`. -/
theorem trimStart_eq_self (l : List Char) (h : headNotWs l = true) :
    trimStartChars l = l := by
  cases l with
  | nil => rfl
  | cons c cs =>
    simp only [headNotWs, decide_eq_true_eq] at h
    simp [trimStartChars, List.dropWhile_cons, h]

/-- A list whose ends are not whitespace is untouched by `trimChars`. -/
theorem trimChars_eq_self (l : List Char) (h1 : headNotWs l = true)
    (h2 : lastNotWs l = true) : trimChars l = l := by
  unfold trimChars trimEndChars
  rw [trimStart_eq_self l h1]
  rw [show l.reverse.dropWhile wsChar = l.reverse from ?_,
    List.reverse_reverse]
  unfold lastNotWs at h2
  cases hr : l.reverse with
  | nil => rfl
  | cons c cs =>
    rw [hr] at h2
    simp only [headNotWs, decide_eq_true_eq] at h2
    simp [List.dropWhile_cons, h2]

/-- Membership implies `contains`. -/
theorem contains_of_mem (l : List Char) (c : Char) (h : c ∈ l) :
    l.contains c = true := by
  induction l with
  | nil => cases h
  | cons x xs ih =>
    rcases List.mem_cons.mp h with h | h
    · subst h; simp [List.contains_cons]
    · simp only [List.contains_cons, ih h, Bool.or_true]

/-- Absence implies `contains` is false. -/
theorem contains_eq_false (l : List Char) (c : Char) (h : ∀ x ∈ l, x ≠ c) :
    l.contains c = false := by
  induction l with
  | nil => rfl
  | cons x xs ih =>
    have hx := h x (by simp)
    simp only [List.contains_cons, Bool.or_eq_false_iff]
    refine ⟨?_, ih (fun y hy => h y (by simp [hy]))⟩
    simp only [beq_eq_false_iff_ne]
    exact fun hh => hx hh.symm

/-- Trimming only drops characters. -/
theorem mem_trimChars (l : List Char) (x : Char) (h : x ∈ trimChars l) :
    x ∈ l := by
  unfold trimChars trimEndChars trimStartChars at h
  have h1 : x ∈ (l.dropWhile wsChar).reverse.dropWhile wsChar := by
    simpa using h
  have h2 : x ∈ (l.dropWhile wsChar).reverse := List.dropWhile_subset _ h1
  have h3 : x ∈ l.dropWhile wsChar := by simpa using h2
  exact List.dropWhile_subset _ h3

/-- `replaceAllGo` is the identity on text free of the pattern's first
character. -/
theorem replaceAllGo_head_free (p : Char) (pt rep l : List Char)
    (h : ∀ x ∈ l, x ≠ p) : replaceAllGo (p :: pt) rep 0 l = l := by
  induction l with
  | nil => rfl
  | cons c cs ih =>
    have hc : c ≠ p := h c (by simp)
    have hnp : (p :: pt).isPrefixOf (c :: cs) = false := by
      simp [List.isPrefixOf]
      intro hpc
      exact absurd hpc.symm hc
    simp only [replaceAllGo, hnp, Bool.false_eq_true, if_false,
      List.cons.injEq, true_and]
    exact ih (fun y hy => h y (by simp [hy]))

/-- `decNumGo` is the identity on `&`-free text. -/
theorem decNumGo_amp_free (l : List Char) (h : ∀ x ∈ l, x ≠ '&') :
    decNumGo 0 l = l := by
  induction l with
  | nil => rfl
  | cons c cs ih =>
    have hc : c ≠ '&' := h c (by simp)
    simp only [decNumGo, hc, if_false, List.cons.injEq, true_and]
    exact ih (fun y hy => h y (by simp [hy]))

/-- `decHexGo` is the identity on `&`-free text. -/
theorem decHexGo_amp_free (l : List Char) (h : ∀ x ∈ l, x ≠ '&') :
    decHexGo 0 l = l := by
  induction l with
  | nil => rfl
  | cons c cs ih =>
    have hc : c ≠ '&' := h c (by simp)
    simp only [decHexGo, hc, if_false, List.cons.injEq, true_and]
    exact ih (fun y hy => h y (by simp [hy]))

/-- `replaceAllChars` with an `&`-headed pattern fixes `&`-free text. -/
theorem replaceAllChars_amp_free (pat rep l : List Char)
    (hp : pat.take 1 = ['&']) (h : ∀ x ∈ l, x ≠ '&') :
    replaceAllChars pat rep l = l := by
  cases pat with
  | nil => simp at hp
  | cons p pt =>
    have hpe : p = '&' := by simpa using hp
    subst hpe
    simp only [replaceAllChars]
    exact replaceAllGo_head_free '&' pt rep l h

/-- `decodeHtmlEntities` is the identity on `&`-free text. -/
theorem decodeHtmlEntities_amp_free (s : String)
    (h : ∀ x ∈ s.data, x ≠ '&') : decodeHtmlEntities s = s := by
  simp only [decodeHtmlEntities, decodeNumericEntities, decodeHexEntities]
  rw [replaceAllChars_amp_free "&amp;".data ['&'] s.data (by decide) h]
  rw [replaceAllChars_amp_free "&lt;".data ['<'] s.data (by decide) h]
  rw [replaceAllChars_amp_free "&gt;".data ['>'] s.data (by decide) h]
  rw [replaceAllChars_amp_free "&quot;".data ['"'] s.data (by decide) h]
  rw [replaceAllChars_amp_free "&apos;".data [squoteChar] s.data
    (by decide) h]
  rw [decNumGo_amp_free s.data h, decHexGo_amp_free s.data h]

/-- Index computation across an occurrence-free prefix. -/
theorem idxOfCharGo_append (c : Char) (xs ys : List Char)
    (h : ∀ x ∈ xs, x ≠ c) (i : Nat) :
    idxOfCharGo c (xs ++ c :: ys) i = some (i + xs.length) := by
  induction xs generalizing i with
  | nil => simp [idxOfCharGo]
  | cons x rest ih =>
    have hx : x ≠ c := h x (by simp)
    simp only [List.cons_append, idxOfCharGo, hx, if_false, List.append_eq]
    rw [ih (fun y hy => h y (by simp [hy])) (i + 1)]
    simp only [List.length_cons, Option.some.injEq]
    omega

/-- Strings with equal character data are equal. -/
theorem stringDataEq (s t : String) (h : s.data = t.data) : s = t := by
  cases s
  cases t
  simp only at h
  rw [h]

/-- A non-whitespace head kills the leading-whitespace run. -/
theorem takeWhile_ws_nil (l : List Char) (h : headNotWs l = true) :
    l.takeWhile wsChar = [] := by
  cases l with
  | nil => rfl
  | cons c cs =>
    simp only [headNotWs, decide_eq_true_eq] at h
    simp [List.takeWhile_cons, h]

/-- C10 counterexample: the function entity-decodes the whole destination
before stripping, so text before the `?` changes too — `a&amp;x?b#c`
becomes `a&x#c`, not the `a&amp;x#c` the claim requires. -/
theorem C10_counterexample :
    stripUrlQueryParamsPreservingFragment "a&amp;x?b#c" = "a&x#c" ∧
      ("a&x#c" : String) ≠ "a&amp;x#c" := by
  exact ⟨by decide, by decide⟩

/-- C10 (amended): for destinations free of HTML-entity ampersands, a
destination with no `?` is returned unchanged, and when a `?` precedes
every `#`, exactly the span from the first `?` up to (but not including)
the first `#` is removed (`a?b#c` becomes `a#c`). -/
theorem C10_strip_query_preserves_fragment :
    (∀ s : String, (∀ x ∈ s.data, x ≠ '&') → (∀ x ∈ s.data, x ≠ '?') →
        stripUrlQueryParamsPreservingFragment s = s) ∧
    (∀ a b c : String,
        (∀ x ∈ a.data, x ≠ '?' ∧ x ≠ '#' ∧ x ≠ '&') →
        (∀ x ∈ b.data, x ≠ '#' ∧ x ≠ '&') →
        (∀ x ∈ c.data, x ≠ '&') →
        headNotWs (a ++ "?" ++ b ++ "#" ++ c).data = true →
        lastNotWs (a ++ "?" ++ b ++ "#" ++ c).data = true →
        stripUrlQueryParamsPreservingFragment (a ++ "?" ++ b ++ "#" ++ c) =
          a ++ "#" ++ c) := by
  constructor
  · intro s hamp hq
    have htmem : ∀ x ∈ (jsTrim s).data, x ∈ s.data := by
      intro x hx
      exact mem_trimChars s.data x hx
    have hdec : decodeHtmlEntities (jsTrim s) = jsTrim s :=
      decodeHtmlEntities_amp_free (jsTrim s)
        (fun x hx => hamp x (htmem x hx))
    have hcont : containsChar (jsTrim s) '?' = false :=
      contains_eq_false (jsTrim s).data '?'
        (fun x hx => hq x (htmem x hx))
    simp only [stripUrlQueryParamsPreservingFragment, hdec, hcont,
      Bool.false_eq_true, not_false_eq_true, if_true]
  · intro a b c ha hb hc hhead hlast
    set raw := a ++ "?" ++ b ++ "#" ++ c with hraw
    have hdata : raw.data = a.data ++ '?' :: (b.data ++ '#' :: c.data) := by
      simp [hraw, String.data_append]
    have hampAll : ∀ x ∈ raw.data, x ≠ '&' := by
      rw [hdata]
      intro x hx
      rcases List.mem_append.mp hx with hx | hx
      · exact (ha x hx).2.2
      · rcases List.mem_cons.mp hx with hx | hx
        · subst hx; decide
        · rcases List.mem_append.mp hx with hx | hx
          · exact (hb x hx).2
          · rcases List.mem_cons.mp hx with hx | hx
            · subst hx; decide
            · exact hc x hx
    have htrim : jsTrim raw = raw := by
      apply stringDataEq
      show trimChars raw.data = raw.data
      exact trimChars_eq_self raw.data hhead hlast
    have hdec : decodeHtmlEntities (jsTrim raw) = raw := by
      rw [htrim]
      exact decodeHtmlEntities_amp_free raw hampAll
    have hcont : containsChar raw '?' = true := by
      apply contains_of_mem
      rw [hdata]
      exact List.mem_append.mpr (Or.inr (by simp))
    have hq2 : idxOfChar raw.data '?' = some a.data.length := by
      rw [hdata]
      show idxOfCharGo '?' (a.data ++ '?' :: (b.data ++ '#' :: c.data)) 0 =
        some a.data.length
      rw [idxOfCharGo_append '?' a.data (b.data ++ '#' :: c.data)
        (fun x hx => (ha x hx).1) 0]
      simp
    have hdata2 : raw.data = (a.data ++ '?' :: b.data) ++ '#' :: c.data := by
      rw [hdata]
      simp
    have hh2 : idxOfChar raw.data '#' =
        some (a.data.length + 1 + b.data.length) := by
      rw [hdata2]
      show idxOfCharGo '#' ((a.data ++ '?' :: b.data) ++ '#' :: c.data) 0 =
        some (a.data.length + 1 + b.data.length)
      rw [idxOfCharGo_append '#' (a.data ++ '?' :: b.data) c.data ?hfree 0]
      · simp only [List.length_append, List.length_cons, Option.some.injEq]
        omega
      case hfree =>
        intro x hx
        rcases List.mem_append.mp hx with hx | hx
        · exact (ha x hx).2.1
        · rcases List.mem_cons.mp hx with hx | hx
          · subst hx; decide
          · exact (hb x hx).1
    have hlt : a.data.length < a.data.length + 1 + b.data.length := by omega
    have htake : raw.data.take a.data.length = a.data := by
      rw [hdata]
      exact List.take_left a.data _
    have hdrop : raw.data.drop (a.data.length + 1 + b.data.length) =
        '#' :: c.data := by
      rw [hdata2]
      rw [show a.data.length + 1 + b.data.length =
        (a.data ++ '?' :: b.data).length from by simp; omega]
      exact List.drop_left _ _
    have hleadnil : raw.data.takeWhile wsChar = [] :=
      takeWhile_ws_nil raw.data hhead
    have htrailnil : raw.data.reverse.takeWhile wsChar = [] :=
      takeWhile_ws_nil raw.data.reverse hlast
    simp only [stripUrlQueryParamsPreservingFragment, hdec, hcont,
      Bool.true_eq_false, not_true_eq_false, if_false, hq2, hh2, hleadnil,
      htrailnil, hlt, if_true, List.reverse_nil]
    apply stringDataEq
    simp only [String.data_append, htake, hdrop]
    simp

/-- C10 witness: the amended theorem applied at concrete destinations —
a query-free destination is unchanged, and a `?token=secret` query before
a `#frag` fragment is removed exactly. -/
theorem C10_witness :
    stripUrlQueryParamsPreservingFragment "plain/path.png" =
      "plain/path.png" ∧
    stripUrlQueryParamsPreservingFragment
      ("https://x.test/img.png" ++ "?" ++ "token=secret" ++ "#" ++ "frag") =
      "https://x.test/img.png" ++ "#" ++ "frag" := by
  constructor
  · exact C10_strip_query_preserves_fragment.1 "plain/path.png" (by decide)
      (by decide)
  · exact C10_strip_query_preserves_fragment.2 "https://x.test/img.png"
      "token=secret" "frag" (by decide) (by decide) (by decide) (by decide)
      (by decide)


/-! ## vault.ts -/

/-- `ensureFolderExists` from vault.ts: ok when the folder exists, error
when a non-folder occupies the path, otherwise create it.  (The catch for
an "already exists" creation race cannot fire in this sequential model.) -/
def ensureFolderExists (v : Vault) (folderPath : String) :
    Except String Vault :=
  let normalizedPath := normalizePath folderPath
  match v.abstractAt normalizedPath with
  | .folder => .ok v
  | .file _ =>
    .error ("Sync path \x22" ++ normalizedPath ++
      "\x22 exists but is not a folder.")
  | .missing => .ok (v.createFolder normalizedPath)

/-! ## The sync module (the newer `handleNoteProcessing` and friends) -/

/-- Outcome of processing one note. -/
inductive NoteProcessingResult where
  /-- Upserted, with the final path, display title and optional preview. -/
  | processed (notePath title : String) (preview : Option String)
  /-- Trashed, with the path the file had. -/
  | deleted (notePath : String)
  /-- Nothing done. -/
  | skipped
  deriving Repr, DecidableEq

/-- The mutable state a sync pass threads through the reconciler: the
vault, the persisted identity map and the vault-scan index. -/
structure SyncState where
  /-- The host vault. -/
  vault : Vault
  /-- `notePathById`: noteId → path identity map. -/
  notePathById : List (String × String)
  /-- The vault-scan index. -/
  localIndex : List (String × String)
  deriving Repr, DecidableEq

/-- `getNoteTypeForRouting` from the sync module. -/
def getNoteTypeForRouting (noteData : Note) : Option String :=
  match noteData.type with
  | some t => some t
  | none =>
    extractFrontmatterScalar (splitFrontmatter noteData.content).frontmatter
      "type"

/-- `addSuffixToMarkdownPath` from the sync module. -/
def addSuffixToMarkdownPath (path suffix : String) : String :=
  let normalized := normalizePath path
  let parts := splitOnChar normalized '/'
  let dir :=
    match parts with
    | [] => ""
    | [_] => ""
    | _ => String.intercalate "/" parts.dropLast
  let filename :=
    match parts with
    | [] => normalized
    | [only] => only
    | _ => parts.getLastD ""
  let lower := jsToLower filename
  let isMarkdown := jsEndsWith lower ".md"
  let base := if isMarkdown then jsTake filename (filename.data.length - 3)
              else filename
  let ext := if isMarkdown then ".md" else ""
  let next := base ++ suffix ++ ext
  if dir ≠ "" then normalizePath (dir ++ "/" ++ next) else normalizePath next

/-- The availability test of `resolveUniqueNotePath`: a path is usable
when nothing occupies it, or when the occupant is the file currently
being renamed. -/
def candidateAvailable (v : Vault) (normalizedCurrent : Option String)
    (p : String) : Bool :=
  match v.abstractAt p with
  | .missing => true
  | .file f =>
    match normalizedCurrent with
    | some cpath => f.path = cpath
    | none => false
  | .folder => false

/-- Numeric tie-break suffix of attempt `k`. -/
def uniqueSuffix (baseSuffix : String) (attempt : Nat) : String :=
  if attempt = 0 then baseSuffix
  else baseSuffix ++ "-" ++ toString (attempt + 1)

/-- Candidate path of attempt `k`. -/
def uniqueCandidate (np baseSuffix : String) (attempt : Nat) : String :=
  addSuffixToMarkdownPath np (uniqueSuffix baseSuffix attempt)

/-- The 50-attempt loop of `resolveUniqueNotePath` (structural recursion
on the remaining attempt budget). -/
def resolveAttempt (v : Vault) (nc : Option String) (np baseSuffix : String) :
    Nat → Nat → String
  | _, 0 => np
  | attempt, rem + 1 =>
    let candidate := uniqueCandidate np baseSuffix attempt
    if candidateAvailable v nc candidate then candidate
    else resolveAttempt v nc np baseSuffix (attempt + 1) rem

/-- Normalize the optional current path, treating a falsy (empty)
normalized value as absent, as truthiness checks in the source do. -/
def normalizedCurrentOf (currentPath : Option String) : Option String :=
  match currentPath with
  | some c => if normalizePath c = "" then none else some (normalizePath c)
  | none => none

/-- `resolveUniqueNotePath` from the sync module (a falsy normalized
current path behaves like an absent one). -/
def resolveUniqueNotePath (v : Vault) (preferredPath noteId : String)
    (currentPath : Option String) : String :=
  let normalizedPreferred := normalizePath preferredPath
  let normalizedCurrent := normalizedCurrentOf currentPath
  if normalizedCurrent = some normalizedPreferred then normalizedPreferred
  else if candidateAvailable v normalizedCurrent normalizedPreferred then
    normalizedPreferred
  else
    let compactId := jsReplaceAll noteId "-" ""
    let shortId := jsTake (if compactId = "" then noteId else compactId) 8
    let baseSuffix :=
      if shortId ≠ "" then " (" ++ shortId ++ ")" else " (note)"
    resolveAttempt v normalizedCurrent normalizedPreferred baseSuffix 0 50

/-- `getDailyNoteEntryTitle` from the sync module. -/
def getDailyNoteEntryTitle (noteData : Note) (baseFilename : String) :
    String :=
  let rawTitle := jsTrim noteData.title
  if rawTitle ≠ "" then rawTitle else jsReplaceAll baseFilename "_" " "

/-- Skip a leading frontmatter block: advance past the closing `---`
(running to the end when it is missing, like the source index walk). -/
def skipFrontmatterLines : List String → List String
  | [] => []
  | l :: rest => if jsTrim l = "---" then rest else skipFrontmatterLines rest

/-- Strip the `/^#+\s*/` heading marker. -/
def stripHeadingMarker (l : List Char) : List Char :=
  match l with
  | '#' :: _ => (l.dropWhile (fun c => c = '#')).dropWhile wsChar
  | _ => l

/-- The preview line scan of `buildDailyNotePreview`. -/
def previewScan : List String → Option String
  | [] => none
  | line :: rest =>
    let t := jsTrim line
    if t = "" then previewScan rest
    else if jsStartsWith t ">" then previewScan rest
    else
      let cleaned := String.mk
        ((stripHeadingMarker t.data).filter
          (fun c => ¬ (c = btick ∨ c = '*' ∨ c = '_')))
      if cleaned = "" then previewScan rest
      else
        some (if 120 < cleaned.data.length then jsTake cleaned 117 ++ "..."
              else cleaned)

/-- `buildDailyNotePreview` from the sync module. -/
def buildDailyNotePreview (content : String) : Option String :=
  if content = "" then none
  else
    let lines := splitLinesJs content
    let scanned :=
      match lines with
      | first :: rest =>
        if jsTrim first = "---" then skipFrontmatterLines rest else lines
      | [] => lines
    previewScan scanned

/-- The configured preserve-key list: split on `[,\n\r]+`, trimmed, with
blanks and the identity keys dropped. -/
def preserveKeyList (settings : DinoPluginSettings) : List String :=
  (((splitOnRuns (fun c => c = ',' ∨ c = '\n' ∨ c = '\r')
      settings.preserveKeys).map jsTrim).filter
    (fun k => k ≠ "" ∧ k ≠ "noteId" ∧ k ≠ "source_app_id"))

/-- The template-variable replacement `/\x7b\x7b\s*name\s*\x7d\x7d/g`;
the counter skips an already-replaced marker (replacement text is emitted,
not rescanned). -/
def tmplGo (name value : List Char) : Nat → List Char → List Char
  | _ + 1, [] => []
  | n + 1, _ :: cs => tmplGo name value n cs
  | 0, [] => []
  | 0, c :: cs =>
    if c = lbrace then
      match cs with
      | c2 :: rest =>
        if c2 = lbrace then
          let ws1 := (rest.takeWhile wsChar).length
          let r1 := rest.drop ws1
          if name.isPrefixOf r1 then
            let r2 := r1.drop name.length
            let ws2 := (r2.takeWhile wsChar).length
            let r3 := r2.drop ws2
            if r3.take 2 = [rbrace, rbrace] then
              value ++
                tmplGo name value (1 + ws1 + name.length + ws2 + 2) cs
            else c :: tmplGo name value 0 cs
          else c :: tmplGo name value 0 cs
        else c :: tmplGo name value 0 cs
      | [] => c :: tmplGo name value 0 cs
    else c :: tmplGo name value 0 cs

/-- Replace every `\x7b\x7b name \x7d\x7d` marker by `value` (the JS
`$`-escape semantics of string replacements is not modelled; the sources
substitute plain titles and dates). -/
def replaceTemplateVar (s : String) (name value : String) : String :=
  String.mk (tmplGo name.data value.data 0 s.data)

/-- The filename computation of `handleNoteProcessing` (source lines for
the five `filenameFormat` schemes); the Boolean records whether the
invalid-`createTime` warning was logged. -/
def computeBaseFilename (settings : DinoPluginSettings) (noteData : Note)
    (sourceId : String) : String × Bool :=
  let idName := jsReplaceAll sourceId "-" "_"
  let format := settings.filenameFormat
  if format = "noteId" then (idName, false)
  else if format = "title" then
    (if noteData.title ≠ "" ∧ jsTrim noteData.title ≠ "" then
        sanitizeFilename noteData.title
      else idName, false)
  else if format = "time" then
    match parseDate noteData.createTime with
    | some createDate => (sanitizeFilename (formatDate createDate), false)
    | none => (idName, true)
  else if format = "titleDate" then
    match parseDate noteData.createTime with
    | some createDate =>
      let titlePart :=
        if noteData.title ≠ "" ∧ jsTrim noteData.title ≠ "" then
          sanitizeFilename noteData.title
        else idName
      let dateOnly := toString createDate.year ++ "-" ++
        pad2 (createDate.month + 1) ++ "-" ++ pad2 createDate.day
      (sanitizeFilename (titlePart ++ " (" ++ dateOnly ++ ")"), false)
    | none =>
      (if noteData.title ≠ "" ∧ jsTrim noteData.title ≠ "" then
          sanitizeFilename noteData.title
        else idName, true)
  else if format = "template" then
    match parseDate noteData.createTime with
    | some createDateObj =>
      let dateOnly := toString createDateObj.year ++ "-" ++
        pad2 (createDateObj.month + 1) ++ "-" ++ pad2 createDateObj.day
      let timeShort := pad2 createDateObj.hours ++
        pad2 createDateObj.minutes ++ pad2 createDateObj.seconds
      let titlePart :=
        if noteData.title ≠ "" ∧ jsTrim noteData.title ≠ "" then
          noteData.title
        else idName
      let template :=
        if settings.filenameTemplate ≠ "" then settings.filenameTemplate
        else "\x7b\x7btitle\x7d\x7d (\x7b\x7bcreateDate\x7d\x7d)"
      let rendered := replaceTemplateVar (replaceTemplateVar
        (replaceTemplateVar (replaceTemplateVar template "title" titlePart)
          "createDate" dateOnly) "createTime" timeShort) "noteId" sourceId
      let rendered :=
        if rendered ≠ "" ∧ jsTrim rendered ≠ "" then rendered else sourceId
      (sanitizeFilename rendered, false)
    | none => (idName, true)
  else (idName, false)

/-- The desired path for a note: base filename (with its blank-name
fallback) under `datePath`. -/
def desiredNotePath (settings : DinoPluginSettings) (noteData : Note)
    (sourceId datePath : String) : String :=
  let baseFilenameOf := (computeBaseFilename settings noteData sourceId).1
  let idName := jsReplaceAll sourceId "-" "_"
  let baseFilename :=
    if baseFilenameOf ≠ "" then baseFilenameOf
    else if idName ≠ "" then idName
    else "Untitled"
  normalizePath (datePath ++ "/" ++ baseFilename ++ ".md")

/-- The blank-proof base filename used for the daily-note title. -/
def finalBaseFilename (settings : DinoPluginSettings) (noteData : Note)
    (sourceId : String) : String :=
  let baseFilenameOf := (computeBaseFilename settings noteData sourceId).1
  let idName := jsReplaceAll sourceId "-" "_"
  if baseFilenameOf ≠ "" then baseFilenameOf
  else if idName ≠ "" then idName
  else "Untitled"

/-- The three-step existing-file resolution of `handleNoteProcessing`
(identity map with stale-entry cleanup, then the vault-scan index, then an
exact-path + frontmatter-ID match), followed by the unconditional map
refresh; returns the resolved file and the updated identity map. -/
def resolveExistingFile (vault : Vault)
    (notePathById localIndex : List (String × String))
    (sourceId desiredPath : String) :
    Option VFile × List (String × String) :=
  let step1 : Option VFile × List (String × String) :=
    match getAssoc notePathById sourceId with
    | some mappedPath =>
      if mappedPath = "" then (none, notePathById)
      else
        match vault.fileAt mappedPath with
        | some f => (some f, notePathById)
        | none => (none, delAssoc notePathById sourceId)
    | none => (none, notePathById)
  let step2 : Option VFile × List (String × String) :=
    match step1 with
    | (some f, m) => (some f, m)
    | (none, m) =>
      match getAssoc localIndex sourceId with
      | some indexedPath =>
        if indexedPath = "" then (none, m)
        else
          match vault.fileAt indexedPath with
          | some f => (some f, setAssoc m sourceId f.path)
          | none => (none, m)
      | none => (none, m)
  let step3 : Option VFile × List (String × String) :=
    match step2 with
    | (some f, m) => (some f, m)
    | (none, m) =>
      match vault.fileAt desiredPath with
      | some f =>
        match f.frontmatter with
        | some fm =>
          match fmCoalesce (fmGet fm "noteId") (fmGet fm "source_app_id") with
          | some (.s fmId) =>
            if jsTrim fmId = sourceId then (some f, setAssoc m sourceId f.path)
            else (none, m)
          | _ => (none, m)
        | none => (none, m)
      | none => (none, m)
  match step3 with
  | (some f, m) => (some f, setAssoc m sourceId f.path)
  | (none, m) => (none, m)

/-- The ignore-sync check: the configured key is present in the resolved
file's cached frontmatter with value exactly boolean `true`. -/
def ignoreFlagSet (settings : DinoPluginSettings)
    (existingFile : Option VFile) : Bool :=
  match existingFile with
  | some f =>
    match f.frontmatter with
    | some fm =>
      settings.ignoreSyncKey ≠ "" ∧
        fmGet fm settings.ignoreSyncKey = some (.b true)
    | none => false
  | none => false

/-- Collect the preserve-key values present in the existing frontmatter. -/
def preserveProps (keys : List String) (existingFile : Option VFile) :
    List (String × FmValue) :=
  match existingFile with
  | some f =>
    match f.frontmatter with
    | some fm =>
      keys.foldl (fun acc k =>
        match fmGet fm k with
        | some v => setAssoc acc k v
        | none => acc) []
    | none => []
  | none => []

/-- The deletion branch of `handleNoteProcessing`: trash the resolved file
(move to trash, not a hard delete) and drop the identity mapping, or skip
when nothing resolved. -/
def deleteBranch (sourceId : String) (existingFile : Option VFile)
    (st : SyncState) : Except String NoteProcessingResult × SyncState :=
  match existingFile with
  | some f =>
    (.ok (.deleted f.path),
      { st with
        vault := st.vault.trashFile f
        notePathById := delAssoc st.notePathById sourceId })
  | none =>
    (.ok .skipped,
      { st with notePathById := delAssoc st.notePathById sourceId })

/-- Directory part of a path (`slice(0, lastIndexOf("/"))`, "" without a
slash). -/
def pathDirname (p : String) : String :=
  let parts := splitOnChar p '/'
  match parts with
  | [] => ""
  | [_] => ""
  | _ => String.intercalate "/" parts.dropLast

/-- The upsert branch of `handleNoteProcessing`: rename to the
collision-resolved desired path when needed (keeping the old path when the
destination is occupied), overwrite content (or create the file), refresh
the identity map, and reapply preserved frontmatter keys. -/
def upsertBranch (noteData : Note)
    (sourceId desiredPath baseFilename : String)
    (propertiesToPreserve : List (String × FmValue))
    (existingFile : Option VFile) (st : SyncState) :
    Except String NoteProcessingResult × SyncState :=
  let finalContent := (stripQueryParamsFromImageUrls noteData.content).content
  let afterWrite :
      Except String (String × Vault) :=
    match existingFile with
    | some targetFile =>
      if targetFile.path ≠ desiredPath then
        let candidate := resolveUniqueNotePath st.vault desiredPath sourceId
          (some targetFile.path)
        match st.vault.abstractAt candidate with
        | .missing =>
          let folder := pathDirname candidate
          match
            (if folder ≠ "" then ensureFolderExists st.vault folder
             else .ok st.vault) with
          | .error e => .error e
          | .ok v1 =>
            .ok (candidate,
              (v1.rename targetFile.path candidate).modify candidate
                finalContent)
        | _ =>
          .ok (targetFile.path,
            st.vault.modify targetFile.path finalContent)
      else
        .ok (targetFile.path, st.vault.modify targetFile.path finalContent)
    | none =>
      let uniquePath := resolveUniqueNotePath st.vault desiredPath sourceId
        none
      let folder := pathDirname uniquePath
      match
        (if folder ≠ "" then ensureFolderExists st.vault folder
         else .ok st.vault) with
      | .error e => .error e
      | .ok v1 => .ok (uniquePath, v1.create uniquePath finalContent)
  match afterWrite with
  | .error e => (.error e, st)
  | .ok (finalPath, v2) =>
    let v3 :=
      if propertiesToPreserve ≠ [] then
        v2.patchFrontmatter finalPath propertiesToPreserve
      else v2
    (.ok (.processed finalPath (getDailyNoteEntryTitle noteData baseFilename)
        (buildDailyNotePreview finalContent)),
      { st with
        vault := v3
        notePathById := setAssoc st.notePathById sourceId finalPath })

/-- The body of `handleNoteProcessing` after the noteId check. -/
def handleNoteBody (settings : DinoPluginSettings) (noteData : Note)
    (datePath : String) (st : SyncState) (sourceId : String) :
    Except String NoteProcessingResult × SyncState :=
  let desiredPath := desiredNotePath settings noteData sourceId datePath
  match resolveExistingFile st.vault st.notePathById st.localIndex sourceId
      desiredPath with
  | (existingFile, m) =>
    let st := { st with notePathById := m }
    if ignoreFlagSet settings existingFile then (.ok .skipped, st)
    else
      let propertiesToPreserve :=
        preserveProps (preserveKeyList settings) existingFile
      if noteData.isDel then deleteBranch sourceId existingFile st
      else
        upsertBranch noteData sourceId desiredPath
          (finalBaseFilename settings noteData sourceId)
          propertiesToPreserve existingFile st

/-- `handleNoteProcessing` from the sync module (src/sync portion of
local-index.ts): reject blank noteIds, resolve the existing file, honour
the ignore-sync flag before deletion handling, then delete or upsert. -/
def handleNoteProcessing (settings : DinoPluginSettings) (noteData : Note)
    (datePath : String) (st : SyncState) :
    Except String NoteProcessingResult × SyncState :=
  let sourceId := jsTrim noteData.noteId
  if sourceId = "" then
    (.error "Dinox: noteId is missing in API response.", st)
  else handleNoteBody settings noteData datePath st sourceId

/-- A take of a nonzero count from a nonempty string is nonempty. -/
theorem jsTake_ne_empty (s : String) (n : Nat) (hn : n ≠ 0) (hs : s ≠ "") :
    jsTake s n ≠ "" := by
  cases s with
  | mk data =>
    cases data with
    | nil => exact absurd rfl hs
    | cons c cs =>
      cases n with
      | zero => exact absurd rfl hn
      | succ m => simp [jsTake, String.ext_iff]

/-- The 50-attempt loop either returns the first available candidate in
its window or, when every candidate in the window is taken, the preferred
path. -/
theorem resolveAttempt_spec (v : Vault) (nc : Option String)
    (np bs : String) :
    ∀ rem attempt : Nat,
      (∃ k, attempt ≤ k ∧ k < attempt + rem ∧
          candidateAvailable v nc (uniqueCandidate np bs k) = true ∧
          (∀ j, attempt ≤ j → j < k →
            candidateAvailable v nc (uniqueCandidate np bs j) = false) ∧
          resolveAttempt v nc np bs attempt rem = uniqueCandidate np bs k) ∨
        ((∀ k, attempt ≤ k → k < attempt + rem →
            candidateAvailable v nc (uniqueCandidate np bs k) = false) ∧
          resolveAttempt v nc np bs attempt rem = np)
  | 0, attempt => Or.inr ⟨fun _ _ h2 => absurd h2 (by omega), rfl⟩
  | rem + 1, attempt => by
    cases hc : candidateAvailable v nc (uniqueCandidate np bs attempt) with
    | true =>
      refine Or.inl ⟨attempt, Nat.le_refl _, by omega, hc,
        fun j h1 h2 => absurd (Nat.lt_of_le_of_lt h1 h2) (by omega), ?_⟩
      simp only [resolveAttempt, hc, if_true]
    | false =>
      rcases resolveAttempt_spec v nc np bs rem (attempt + 1) with
        ⟨k, hk1, hk2, hk3, hk4, hk5⟩ | ⟨hall, heq⟩
      · refine Or.inl ⟨k, by omega, by omega, hk3, ?_, ?_⟩
        · intro j h1 h2
          rcases Nat.eq_or_lt_of_le h1 with he | hl
          · rw [← he]; exact hc
          · exact hk4 j hl h2
        · simp only [resolveAttempt, hc, if_false]
          exact hk5
      · refine Or.inr ⟨?_, ?_⟩
        · intro k h1 h2
          rcases Nat.eq_or_lt_of_le h1 with he | hl
          · rw [← he]; exact hc
          · exact hall k hl (by omega)
        · simp only [resolveAttempt, hc, if_false]
          exact heq

/-- C5: when the preferred path is occupied and not by the note's own
current file, and the noteId has at least one non-dash character,
`resolveUniqueNotePath` tries candidates that append a parenthesized
suffix built from the first 8 characters of the dash-stripped noteId plus
a numeric tie-break, returns the first available one among at most 50
attempts, and when all 50 are taken returns the original preferred path,
accepting the collision — it is a total function and never errors. -/
theorem C5_resolve_unique_collision (v : Vault)
    (preferredPath noteId : String) (currentPath : Option String)
    (hcur : normalizedCurrentOf currentPath ≠
      some (normalizePath preferredPath))
    (hocc : candidateAvailable v (normalizedCurrentOf currentPath)
      (normalizePath preferredPath) = false)
    (hid : jsReplaceAll noteId "-" "" ≠ "") :
    (∃ k, k < 50 ∧
        candidateAvailable v (normalizedCurrentOf currentPath)
          (uniqueCandidate (normalizePath preferredPath)
            (" (" ++ jsTake (jsReplaceAll noteId "-" "") 8 ++ ")") k) =
          true ∧
        (∀ j, j < k →
          candidateAvailable v (normalizedCurrentOf currentPath)
            (uniqueCandidate (normalizePath preferredPath)
              (" (" ++ jsTake (jsReplaceAll noteId "-" "") 8 ++ ")") j) =
            false) ∧
        resolveUniqueNotePath v preferredPath noteId currentPath =
          uniqueCandidate (normalizePath preferredPath)
            (" (" ++ jsTake (jsReplaceAll noteId "-" "") 8 ++ ")") k) ∨
      ((∀ k, k < 50 →
          candidateAvailable v (normalizedCurrentOf currentPath)
            (uniqueCandidate (normalizePath preferredPath)
              (" (" ++ jsTake (jsReplaceAll noteId "-" "") 8 ++ ")") k) =
            false) ∧
        resolveUniqueNotePath v preferredPath noteId currentPath =
          normalizePath preferredPath) := by
  have hshort : jsTake (jsReplaceAll noteId "-" "") 8 ≠ "" :=
    jsTake_ne_empty _ 8 (by omega) hid
  have hres : resolveUniqueNotePath v preferredPath noteId currentPath =
      resolveAttempt v (normalizedCurrentOf currentPath)
        (normalizePath preferredPath)
        (" (" ++ jsTake (jsReplaceAll noteId "-" "") 8 ++ ")") 0 50 := by
    simp only [resolveUniqueNotePath]
    rw [if_neg hcur, if_neg (by simp [hocc]), if_neg hid, if_pos hshort]
  rw [hres]
  rcases resolveAttempt_spec v (normalizedCurrentOf currentPath)
      (normalizePath preferredPath)
      (" (" ++ jsTake (jsReplaceAll noteId "-" "") 8 ++ ")") 50 0 with
    ⟨k, _, hk2, hk3, hk4, hk5⟩ | ⟨hall, heq⟩
  · exact Or.inl ⟨k, by omega, hk3,
      fun j hj => hk4 j (Nat.zero_le _) hj, hk5⟩
  · exact Or.inr ⟨fun k hk => hall k (Nat.zero_le _) (by omega), heq⟩

/-- A vault with one folder `A` holding the single note `A/n.md`. -/
def c5Vault : Vault :=
  { files := [{ path := "A/n.md", content := "x", frontmatter := none }]
    folders := ["A"]
    trash := [] }

/-- Witness: on a vault where `A/n.md` is occupied by a different note,
the resolver picks the first suffixed candidate. -/
theorem C5_witness :
    (∃ k, k < 50 ∧
        candidateAvailable c5Vault (normalizedCurrentOf none)
          (uniqueCandidate (normalizePath "A/n.md")
            (" (" ++ jsTake (jsReplaceAll "abc-12345" "-" "") 8 ++ ")") k) =
          true ∧
        (∀ j, j < k →
          candidateAvailable c5Vault (normalizedCurrentOf none)
            (uniqueCandidate (normalizePath "A/n.md")
              (" (" ++ jsTake (jsReplaceAll "abc-12345" "-" "") 8 ++ ")")
              j) = false) ∧
        resolveUniqueNotePath c5Vault "A/n.md" "abc-12345" none =
          uniqueCandidate (normalizePath "A/n.md")
            (" (" ++ jsTake (jsReplaceAll "abc-12345" "-" "") 8 ++ ")") k) ∨
      ((∀ k, k < 50 →
          candidateAvailable c5Vault (normalizedCurrentOf none)
            (uniqueCandidate (normalizePath "A/n.md")
              (" (" ++ jsTake (jsReplaceAll "abc-12345" "-" "") 8 ++ ")")
              k) = false) ∧
        resolveUniqueNotePath c5Vault "A/n.md" "abc-12345" none =
          normalizePath "A/n.md") :=
  C5_resolve_unique_collision c5Vault "A/n.md" "abc-12345" none
    (by decide) (by decide) (by decide)


/-- A note with an unparseable creation time and a nonblank title. -/
def c7Note : Note :=
  { title := "Hello"
    createTime := "not a time"
    content := ""
    noteId := "abc-123"
    type := none
    isDel := false
    boxFields := [] }

/-- C7 counterexample: under the `titleDate` scheme with an unparseable
`createTime`, the base filename falls back to the sanitized title, not to
the ID scheme (the warning still fires). -/
theorem C7_counterexample :
    computeBaseFilename
        { DEFAULT_SETTINGS with filenameFormat := "titleDate" } c7Note
        "abc-123" = ("Hello", true) ∧
      "Hello" ≠ jsReplaceAll "abc-123" "-" "_" := by decide

/-- C7 amended: on an unparseable `createTime`, the `time` and `template`
schemes fall back to the ID scheme (noteId with dashes replaced by
underscores) and log a warning; the `titleDate` scheme logs a warning but
falls back to the sanitized title when the title is nonblank, reaching
the ID scheme only for a blank title; the `title` scheme parses nothing
and falls back to the ID scheme (without a warning) only when the title
is blank. -/
theorem C7_parse_failure_fallback (settings : DinoPluginSettings)
    (noteData : Note) (sourceId : String)
    (hbad : parseDate noteData.createTime = none) :
    (settings.filenameFormat = "time" →
      computeBaseFilename settings noteData sourceId =
        (jsReplaceAll sourceId "-" "_", true)) ∧
    (settings.filenameFormat = "template" →
      computeBaseFilename settings noteData sourceId =
        (jsReplaceAll sourceId "-" "_", true)) ∧
    (settings.filenameFormat = "titleDate" →
      computeBaseFilename settings noteData sourceId =
        ((if noteData.title ≠ "" ∧ jsTrim noteData.title ≠ "" then
            sanitizeFilename noteData.title
          else jsReplaceAll sourceId "-" "_"), true)) ∧
    (settings.filenameFormat = "title" → jsTrim noteData.title = "" →
      computeBaseFilename settings noteData sourceId =
        (jsReplaceAll sourceId "-" "_", false)) := by
  refine ⟨?_, ?_, ?_, ?_⟩
  · intro hf
    simp only [computeBaseFilename, hf, hbad]
    simp
  · intro hf
    simp only [computeBaseFilename, hf, hbad]
    simp
  · intro hf
    simp only [computeBaseFilename, hf, hbad]
    simp
  · intro hf ht
    simp only [computeBaseFilename, hf, ht]
    simp [ht]

/-- Witness: a concrete unparseable createTime under the `time` scheme. -/
theorem C7_witness :
    ({ DEFAULT_SETTINGS with
        filenameFormat := "time" : DinoPluginSettings }.filenameFormat =
          "time" →
      computeBaseFilename
          { DEFAULT_SETTINGS with filenameFormat := "time" } c7Note
          "abc-123" = (jsReplaceAll "abc-123" "-" "_", true)) ∧
    ({ DEFAULT_SETTINGS with
        filenameFormat := "time" : DinoPluginSettings }.filenameFormat =
          "template" →
      computeBaseFilename
          { DEFAULT_SETTINGS with filenameFormat := "time" } c7Note
          "abc-123" = (jsReplaceAll "abc-123" "-" "_", true)) ∧
    ({ DEFAULT_SETTINGS with
        filenameFormat := "time" : DinoPluginSettings }.filenameFormat =
          "titleDate" →
      computeBaseFilename
          { DEFAULT_SETTINGS with filenameFormat := "time" } c7Note
          "abc-123" =
        ((if c7Note.title ≠ "" ∧ jsTrim c7Note.title ≠ "" then
            sanitizeFilename c7Note.title
          else jsReplaceAll "abc-123" "-" "_"), true)) ∧
    ({ DEFAULT_SETTINGS with
        filenameFormat := "time" : DinoPluginSettings }.filenameFormat =
          "title" →
      jsTrim c7Note.title = "" →
      computeBaseFilename
          { DEFAULT_SETTINGS with filenameFormat := "time" } c7Note
          "abc-123" = (jsReplaceAll "abc-123" "-" "_", false)) :=
  C7_parse_failure_fallback
    { DEFAULT_SETTINGS with filenameFormat := "time" } c7Note "abc-123"
    (by decide)


/-- Deleting a key from an association list makes lookups of it miss. -/
theorem getAssoc_delAssoc {α : Type} (m : List (String × α)) (k : String) :
    getAssoc (delAssoc m k) k = none := by
  simp only [getAssoc, delAssoc, Option.map_eq_none']
  rw [List.find?_eq_none]
  intro f hf
  have := List.of_mem_filter hf
  simp at this ⊢
  exact this

/-- C1: a resolved note whose cached frontmatter carries the configured
ignore-sync key with value exactly boolean `true` is skipped outright:
the outcome is `skipped` and the vault is untouched (no trash, rename or
overwrite), with `isDel` left arbitrary because the ignore check runs
before deletion handling. -/
theorem C1_ignored_note_untouched (settings : DinoPluginSettings)
    (noteData : Note) (datePath : String) (st : SyncState) (f : VFile)
    (fm : Frontmatter)
    (hid : jsTrim noteData.noteId ≠ "")
    (hres : (resolveExistingFile st.vault st.notePathById st.localIndex
        (jsTrim noteData.noteId)
        (desiredNotePath settings noteData (jsTrim noteData.noteId)
          datePath)).1 = some f)
    (hfm : f.frontmatter = some fm)
    (hkey : settings.ignoreSyncKey ≠ "")
    (hflag : fmGet fm settings.ignoreSyncKey = some (.b true)) :
    (handleNoteProcessing settings noteData datePath st).1 =
        .ok .skipped ∧
      (handleNoteProcessing settings noteData datePath st).2.vault =
        st.vault := by
  rcases hr : resolveExistingFile st.vault st.notePathById st.localIndex
      (jsTrim noteData.noteId)
      (desiredNotePath settings noteData (jsTrim noteData.noteId) datePath)
    with ⟨ef, m⟩
  have hef : ef = some f := by rw [hr] at hres; exact hres
  subst hef
  have hflagB : ignoreFlagSet settings (some f) = true := by
    simp only [ignoreFlagSet, hfm]
    exact decide_eq_true ⟨hkey, hflag⟩
  have hwhole : handleNoteProcessing settings noteData datePath st =
      (.ok .skipped, { st with notePathById := m }) := by
    simp only [handleNoteProcessing]
    rw [if_neg hid]
    simp only [handleNoteBody, hr, hflagB, if_true]
  rw [hwhole]
  exact ⟨rfl, rfl⟩


/-- A vault file flagged with `ignore_sync: true`. -/
def c1File : VFile :=
  { path := "D/x.md"
    content := "old"
    frontmatter := some [("ignore_sync", FmValue.b true)] }

/-- Sync state whose identity map resolves `n-1` to the flagged file. -/
def c1State : SyncState :=
  { vault := { files := [c1File], folders := ["D"], trash := [] }
    notePathById := [("n-1", "D/x.md")]
    localIndex := [] }

/-- A remote record for `n-1` marked deleted. -/
def c1Note : Note :=
  { title := "T"
    createTime := "x"
    content := "body"
    noteId := "n-1"
    type := none
    isDel := true
    boxFields := [] }

/-- Witness: the flagged file is skipped and untouched although the
remote record says `isDel`. -/
theorem C1_witness :
    (handleNoteProcessing DEFAULT_SETTINGS c1Note "D" c1State).1 =
        .ok .skipped ∧
      (handleNoteProcessing DEFAULT_SETTINGS c1Note "D" c1State).2.vault =
        c1State.vault :=
  C1_ignored_note_untouched DEFAULT_SETTINGS c1Note "D" c1State c1File
    [("ignore_sync", FmValue.b true)] (by decide) (by decide) rfl
    (by decide) (by decide)

/-- C4: for a remote record marked deleted and not ignored, a resolved
local file is moved to trash (removed from the live files, appended to
the trash — not a hard delete), its identity mapping is dropped, and the
outcome is `deleted` with that file's path; with no resolved file the
outcome is `skipped` and the vault is untouched. -/
theorem C4_deletion_outcomes (settings : DinoPluginSettings)
    (noteData : Note) (datePath : String) (st : SyncState)
    (hid : jsTrim noteData.noteId ≠ "")
    (hdel : noteData.isDel = true)
    (hig : ignoreFlagSet settings
      (resolveExistingFile st.vault st.notePathById st.localIndex
        (jsTrim noteData.noteId)
        (desiredNotePath settings noteData (jsTrim noteData.noteId)
          datePath)).1 = false) :
    (∀ f, (resolveExistingFile st.vault st.notePathById st.localIndex
        (jsTrim noteData.noteId)
        (desiredNotePath settings noteData (jsTrim noteData.noteId)
          datePath)).1 = some f →
      (handleNoteProcessing settings noteData datePath st).1 =
          .ok (.deleted f.path) ∧
        (handleNoteProcessing settings noteData datePath st).2.vault =
          st.vault.trashFile f ∧
        (handleNoteProcessing settings noteData datePath st).2.vault.files
          = st.vault.files.filter (fun g => g.path ≠ f.path) ∧
        (handleNoteProcessing settings noteData datePath st).2.vault.trash
          = st.vault.trash ++ [f] ∧
        getAssoc (handleNoteProcessing settings noteData datePath
          st).2.notePathById (jsTrim noteData.noteId) = none) ∧
      ((resolveExistingFile st.vault st.notePathById st.localIndex
        (jsTrim noteData.noteId)
        (desiredNotePath settings noteData (jsTrim noteData.noteId)
          datePath)).1 = none →
      (handleNoteProcessing settings noteData datePath st).1 =
          .ok .skipped ∧
        (handleNoteProcessing settings noteData datePath st).2.vault =
          st.vault) := by
  rcases hr : resolveExistingFile st.vault st.notePathById st.localIndex
      (jsTrim noteData.noteId)
      (desiredNotePath settings noteData (jsTrim noteData.noteId) datePath)
    with ⟨ef, m⟩
  rw [hr] at hig
  have hig2 : ignoreFlagSet settings ef = false := hig
  have hwhole : handleNoteProcessing settings noteData datePath st =
      deleteBranch (jsTrim noteData.noteId) ef
        { st with notePathById := m } := by
    simp only [handleNoteProcessing]
    rw [if_neg hid]
    simp only [handleNoteBody, hr, hig2, Bool.false_eq_true, if_false,
      hdel, if_true]
  constructor
  · intro f hf
    have hef : ef = some f := hf
    subst hef
    rw [hwhole]
    refine ⟨rfl, rfl, rfl, rfl, ?_⟩
    show getAssoc (delAssoc m (jsTrim noteData.noteId))
      (jsTrim noteData.noteId) = none
    exact getAssoc_delAssoc m _
  · intro hf
    have hef : ef = none := hf
    subst hef
    rw [hwhole]
    exact ⟨rfl, rfl⟩

/-- A plain vault file for the deletion witness. -/
def c4File : VFile :=
  { path := "D/y.md", content := "c", frontmatter := none }

/-- Sync state whose identity map resolves `n-2` to that file. -/
def c4State : SyncState :=
  { vault := { files := [c4File], folders := ["D"], trash := [] }
    notePathById := [("n-2", "D/y.md")]
    localIndex := [] }

/-- A remote record for `n-2` marked deleted. -/
def c4Note : Note :=
  { title := "T"
    createTime := "x"
    content := "body"
    noteId := "n-2"
    type := none
    isDel := true
    boxFields := [] }

/-- Witness: the resolved file lands in the trash, its live entry and
identity mapping disappear, and the outcome is `deleted`. -/
theorem C4_witness :
    (handleNoteProcessing DEFAULT_SETTINGS c4Note "D" c4State).1 =
        .ok (.deleted "D/y.md") ∧
      (handleNoteProcessing DEFAULT_SETTINGS c4Note "D" c4State).2.vault =
        c4State.vault.trashFile c4File ∧
      getAssoc (handleNoteProcessing DEFAULT_SETTINGS c4Note "D"
        c4State).2.notePathById "n-2" = none := by
  have h := (C4_deletion_outcomes DEFAULT_SETTINGS c4Note "D" c4State
    (by decide) rfl (by decide)).1 c4File (by decide)
  exact ⟨h.1, h.2.1, h.2.2.2.2⟩


/-! ## processApiResponse (the orchestrating pass of the sync module) -/

/-- One day of remote notes. -/
structure DayNote where
  /-- The day's date string. -/
  date : String
  /-- That day's notes. -/
  notes : List Note
  deriving Repr

/-- `DailyNoteEntryPayload` from the daily-notes bridge interface. -/
structure DailyNoteEntryPayload where
  /-- Path of the synced note file. -/
  notePath : String
  /-- Optional display title. -/
  title : Option String
  /-- Optional preview line. -/
  preview : Option String
  deriving Repr, DecidableEq

/-- `DailyNoteChangeSet` from the daily-notes bridge interface. -/
structure DailyNoteChangeSet where
  /-- Entries to add. -/
  added : List DailyNoteEntryPayload
  /-- Entries to remove. -/
  removed : List DailyNoteEntryPayload
  deriving Repr, DecidableEq

/-- The user-visible notices the pass can emit (i18n rendering is an
external collaborator; notices are tracked by key and argument). -/
inductive NoticeMsg where
  /-- `notice.processNoteFailed` keyed by the truncated noteId. -/
  | processNoteFailed (shortId : String)
  /-- `notice.dailyNotesUpdateFailed`. -/
  | dailyNotesUpdateFailed
  /-- `notice.dailyNotesUpdated` with the update count. -/
  | dailyNotesUpdated (count : Nat)
  deriving Repr, DecidableEq

/-- The accumulator the pass threads through its day/note loops. -/
structure PassAcc where
  /-- The sync state. -/
  st : SyncState
  /-- The `ensuredFolders` set (insertion order kept). -/
  ensuredFolders : List String
  /-- Upserted-note count. -/
  processed : Nat
  /-- Deleted-note count. -/
  deleted : Nat
  /-- Notices shown so far. -/
  notices : List NoticeMsg
  /-- Per-date daily-note change sets (insertion order kept). -/
  dailyChanges : List (String × DailyNoteChangeSet)
  deriving Repr

/-- `ensureFolderOnce`: skip folders already ensured this pass. -/
def ensureFolderOnce (v : Vault) (ensured : List String)
    (folderPath : String) : Except String (Vault × List String) :=
  let normalized := normalizePath folderPath
  if ensured.contains normalized then .ok (v, ensured)
  else
    match ensureFolderExists v normalized with
    | .ok v2 => .ok (v2, ensured ++ [normalized])
    | .error e => .error e

/-- The folder routing done for each note before it is reconciled:
category folder, optional zettel-box folder, optional nested date folder;
returns the updated vault, the updated ensured set and the note's
`datePath`.  These `ensureFolderOnce` calls sit outside the per-note
`try`, so an error here aborts the pass. -/
def ensureNoteFolders (settings : DinoPluginSettings)
    (baseDir safeDate : String) (wantsNestedLayout : Bool) (noteData : Note)
    (v : Vault) (ensured : List String) :
    Except String (Vault × List String × String) :=
  let typeValue := getNoteTypeForRouting noteData
  let categorization := categorizeDinoxType typeValue
  let categoryBaseDir := resolveCategoryBaseDir baseDir settings.typeFolders
    categorization.category
  match ensureFolderOnce v ensured categoryBaseDir with
  | .error e => .error e
  | .ok (v, ensured) =>
    let zettelBoxFolder := resolveZettelBoxFolderSegment noteData
      settings.zettelBoxFolders.enabled
    let noteBaseDir :=
      match zettelBoxFolder with
      | some z => normalizePath (categoryBaseDir ++ "/" ++ z)
      | none => categoryBaseDir
    match
      (if noteBaseDir ≠ categoryBaseDir then
        ensureFolderOnce v ensured noteBaseDir
      else .ok (v, ensured)) with
    | .error e => .error e
    | .ok (v, ensured) =>
      let datePath :=
        if wantsNestedLayout then normalizePath (noteBaseDir ++ "/" ++ safeDate)
        else noteBaseDir
      match
        (if wantsNestedLayout then ensureFolderOnce v ensured datePath
         else .ok (v, ensured)) with
      | .error e => .error e
      | .ok (v, ensured) => .ok (v, ensured, datePath)

/-- `ensureChangeSet(date)` followed by a push onto `added`. -/
def addAddedChange (changes : List (String × DailyNoteChangeSet))
    (date : String) (entry : DailyNoteEntryPayload) :
    List (String × DailyNoteChangeSet) :=
  if changes.any (fun dc => dc.1 = date) then
    changes.map (fun dc =>
      if dc.1 = date then (dc.1, { dc.2 with added := dc.2.added ++ [entry] })
      else dc)
  else changes ++ [(date, { added := [entry], removed := [] })]

/-- `ensureChangeSet(date)` followed by a push onto `removed`. -/
def addRemovedChange (changes : List (String × DailyNoteChangeSet))
    (date : String) (entry : DailyNoteEntryPayload) :
    List (String × DailyNoteChangeSet) :=
  if changes.any (fun dc => dc.1 = date) then
    changes.map (fun dc =>
      if dc.1 = date then
        (dc.1, { dc.2 with removed := dc.2.removed ++ [entry] })
      else dc)
  else changes ++ [(date, { added := [], removed := [entry] })]

/-- The per-note body of the day loop: route folders (outside the
`try`), then reconcile the note inside a `try` whose `catch` shows a
`processNoteFailed` notice keyed by the first 8 characters of the raw
noteId and leaves the counts unchanged. -/
def processNoteStep (settings : DinoPluginSettings)
    (shouldSyncDailyNotes : Bool) (baseDir dayDate safeDate : String)
    (wantsNestedLayout : Bool) (acc : PassAcc) (noteData : Note) :
    Except String PassAcc :=
  match ensureNoteFolders settings baseDir safeDate wantsNestedLayout
      noteData acc.st.vault acc.ensuredFolders with
  | .error e => .error e
  | .ok (v, ensured, datePath) =>
    match handleNoteProcessing settings noteData datePath
        { acc.st with vault := v } with
    | (.ok (.deleted notePath), st2) =>
      .ok { acc with
        st := st2
        ensuredFolders := ensured
        deleted := acc.deleted + 1
        dailyChanges :=
          if shouldSyncDailyNotes ∧ notePath ≠ "" then
            addRemovedChange acc.dailyChanges dayDate
              { notePath := notePath, title := some noteData.title,
                preview := none }
          else acc.dailyChanges }
    | (.ok (.processed notePath title preview), st2) =>
      .ok { acc with
        st := st2
        ensuredFolders := ensured
        processed := acc.processed + 1
        dailyChanges :=
          if shouldSyncDailyNotes then
            addAddedChange acc.dailyChanges dayDate
              { notePath := notePath, title := some title,
                preview := preview }
          else acc.dailyChanges }
    | (.ok .skipped, st2) =>
      .ok { acc with st := st2, ensuredFolders := ensured }
    | (.error _, st2) =>
      .ok { acc with
        st := st2
        ensuredFolders := ensured
        notices := acc.notices ++
          [.processNoteFailed (jsTake noteData.noteId 8)] }

/-- The inner loop over one day's (reversed) notes. -/
def processNotesLoop (settings : DinoPluginSettings)
    (shouldSyncDailyNotes : Bool) (baseDir dayDate safeDate : String)
    (wantsNestedLayout : Bool) :
    List Note → PassAcc → Except String PassAcc
  | [], acc => .ok acc
  | noteData :: rest, acc =>
    match processNoteStep settings shouldSyncDailyNotes baseDir dayDate
        safeDate wantsNestedLayout acc noteData with
    | .error e => .error e
    | .ok acc2 =>
      processNotesLoop settings shouldSyncDailyNotes baseDir dayDate
        safeDate wantsNestedLayout rest acc2

/-- The outer loop over the (reversed) days. -/
def processDaysLoop (settings : DinoPluginSettings)
    (shouldSyncDailyNotes : Bool) (baseDir : String) :
    List DayNote → PassAcc → Except String PassAcc
  | [], acc => .ok acc
  | dayData :: rest, acc =>
    let safeDate := String.mk
      (dayData.date.data.filter (fun c => isDigitChar c ∨ c = '-'))
    let wantsNestedLayout := settings.fileLayout = "nested" ∧ safeDate ≠ ""
    match processNotesLoop settings shouldSyncDailyNotes baseDir
        dayData.date safeDate wantsNestedLayout dayData.notes.reverse acc with
    | .error e => .error e
    | .ok acc2 =>
      processDaysLoop settings shouldSyncDailyNotes baseDir rest acc2

/-- What one `applyChangesForDate` call can do. -/
inductive DailyApplyOutcome where
  /-- Returned `true` (the daily note changed). -/
  | changed
  /-- Returned `false`. -/
  | unchanged
  /-- Threw `DailyNotesUnavailableError`. -/
  | unavailable
  /-- Threw some other error. -/
  | failed
  deriving Repr, DecidableEq

/-- The daily-notes bridge as an external collaborator: for a date, a
change set and the daily-note settings it transforms the vault and
reports an outcome. -/
def DailyBridgeModel : Type :=
  String → DailyNoteChangeSet → DailyNotesSettings → Vault →
    DailyApplyOutcome × Vault

/-- The final daily-note application loop of `processApiResponse`:
unavailability flips the callback flag, other failures show a notice,
successful changes are counted. -/
def applyDailyLoop (bridge : DailyBridgeModel) (dn : DailyNotesSettings) :
    List (String × DailyNoteChangeSet) → Vault → Nat → Bool →
    List NoticeMsg → Vault × Nat × Bool × List NoticeMsg
  | [], v, updated, flag, notices => (v, updated, flag, notices)
  | (date, cs) :: rest, v, updated, flag, notices =>
    match bridge date cs dn v with
    | (.changed, v2) =>
      applyDailyLoop bridge dn rest v2 (updated + 1) flag notices
    | (.unchanged, v2) => applyDailyLoop bridge dn rest v2 updated flag notices
    | (.unavailable, v2) =>
      applyDailyLoop bridge dn rest v2 updated true notices
    | (.failed, v2) =>
      applyDailyLoop bridge dn rest v2 updated flag
        (notices ++ [.dailyNotesUpdateFailed])

/-- What `processApiResponse` produces (counts, final state, notices and
whether the daily-notes-unavailable callback fired). -/
structure ProcessApiResult where
  /-- Upserted-note count. -/
  processed : Nat
  /-- Deleted-note count. -/
  deleted : Nat
  /-- Final sync state. -/
  st : SyncState
  /-- Notices shown. -/
  notices : List NoticeMsg
  /-- Whether `onDailyNotesUnavailable` was invoked. -/
  dailyNotesUnavailableSignaled : Bool
  deriving Repr

/-- `processApiResponse` from the sync module: run the day/note loops on
the reversed input, then apply accumulated daily-note changes through the
bridge. -/
def processApiResponse (settings : DinoPluginSettings)
    (dayNotes : List DayNote) (baseDirRaw : String) (st : SyncState)
    (bridge : Option DailyBridgeModel) : Except String ProcessApiResult :=
  let baseDir := normalizePath baseDirRaw
  let shouldSyncDailyNotes := settings.dailyNotes.enabled && bridge.isSome
  match processDaysLoop settings shouldSyncDailyNotes baseDir
      dayNotes.reverse
      { st := st, ensuredFolders := [], processed := 0, deleted := 0,
        notices := [], dailyChanges := [] } with
  | .error e => .error e
  | .ok acc =>
    match bridge with
    | some b =>
      if shouldSyncDailyNotes ∧ acc.dailyChanges ≠ [] then
        match applyDailyLoop b settings.dailyNotes acc.dailyChanges
            acc.st.vault 0 false acc.notices with
        | (v2, updated, flag, notices2) =>
          let st2 := { acc.st with vault := v2 }
          let notices3 :=
            if updated > 0 then notices2 ++ [.dailyNotesUpdated updated]
            else notices2
          .ok
            { processed := acc.processed
              deleted := acc.deleted
              st := st2
              notices := notices3
              dailyNotesUnavailableSignaled := flag }
      else
        .ok
          { processed := acc.processed
            deleted := acc.deleted
            st := acc.st
            notices := acc.notices
            dailyNotesUnavailableSignaled := false }
    | none =>
      .ok
        { processed := acc.processed
          deleted := acc.deleted
          st := acc.st
          notices := acc.notices
          dailyNotesUnavailableSignaled := false }


/-- Decidable equality for thrown-or-returned results. -/
instance {ε α : Type} [DecidableEq ε] [DecidableEq α] :
    DecidableEq (Except ε α) := fun a b =>
  match a, b with
  | .ok x, .ok y =>
    if h : x = y then .isTrue (congrArg Except.ok h)
    else .isFalse (fun hh => h (Except.ok.inj hh))
  | .error x, .error y =>
    if h : x = y then .isTrue (congrArg Except.error h)
    else .isFalse (fun hh => h (Except.error.inj hh))
  | .ok _, .error _ => .isFalse (fun hh => Except.noConfusion hh)
  | .error _, .ok _ => .isFalse (fun hh => Except.noConfusion hh)

/-- C3: a blank (whitespace-only) noteId makes `handleNoteProcessing`
throw, and any per-note reconciliation error is caught by the pass loop,
which shows a `processNoteFailed` notice keyed by the first 8 characters
of the raw noteId, leaves the processed/deleted counts unchanged, and
continues with the remaining notes — one bad note never aborts the
pass. -/
theorem C3_per_note_errors_isolated :
    (∀ (settings : DinoPluginSettings) (noteData : Note)
        (datePath : String) (st : SyncState),
      jsTrim noteData.noteId = "" →
        handleNoteProcessing settings noteData datePath st =
          (.error "Dinox: noteId is missing in API response.", st)) ∧
      (∀ (settings : DinoPluginSettings) (shouldSyncDailyNotes : Bool)
          (baseDir dayDate safeDate : String) (wantsNestedLayout : Bool)
          (noteData : Note) (rest : List Note) (acc : PassAcc) (v : Vault)
          (ensured : List String) (datePath e : String) (st2 : SyncState),
        ensureNoteFolders settings baseDir safeDate wantsNestedLayout
            noteData acc.st.vault acc.ensuredFolders =
          .ok (v, ensured, datePath) →
        handleNoteProcessing settings noteData datePath
            { acc.st with vault := v } = (.error e, st2) →
        processNotesLoop settings shouldSyncDailyNotes baseDir dayDate
            safeDate wantsNestedLayout (noteData :: rest) acc =
          processNotesLoop settings shouldSyncDailyNotes baseDir dayDate
            safeDate wantsNestedLayout rest
            { st := st2
              ensuredFolders := ensured
              processed := acc.processed
              deleted := acc.deleted
              notices := acc.notices ++
                [.processNoteFailed (jsTake noteData.noteId 8)]
              dailyChanges := acc.dailyChanges }) := by
  constructor
  · intro settings noteData datePath st h
    simp only [handleNoteProcessing]
    rw [if_pos h]
  · intro settings sdn baseDir dayDate safeDate wnl noteData rest acc v
      ensured datePath e st2 hfold herr
    simp only [processNotesLoop, processNoteStep, hfold, herr]

/-- A note whose noteId is whitespace only. -/
def c3Note : Note :=
  { title := "T"
    createTime := "x"
    content := "b"
    noteId := "   "
    type := none
    isDel := false
    boxFields := [] }

/-- An empty starting accumulator. -/
def c3Acc : PassAcc :=
  { st :=
      { vault := { files := [], folders := [], trash := [] }
        notePathById := []
        localIndex := [] }
    ensuredFolders := []
    processed := 0
    deleted := 0
    notices := []
    dailyChanges := [] }

/-- The vault after the routing folders for the witness note exist. -/
def c3Vault : Vault :=
  { files := []
    folders := ["Dinox Sync/note", "Dinox Sync/note/2024-01-01"]
    trash := [] }

/-- Witness: the blank-noteId note throws, and the pass loop catches it,
emits the truncated-id notice, keeps the counts and goes on. -/
theorem C3_witness :
    handleNoteProcessing DEFAULT_SETTINGS c3Note "D" c3Acc.st =
        (.error "Dinox: noteId is missing in API response.", c3Acc.st) ∧
      processNotesLoop DEFAULT_SETTINGS false "Dinox Sync" "2024-01-01"
          "2024-01-01" true [c3Note] c3Acc =
        processNotesLoop DEFAULT_SETTINGS false "Dinox Sync" "2024-01-01"
          "2024-01-01" true []
          { st := { c3Acc.st with vault := c3Vault }
            ensuredFolders := ["Dinox Sync/note",
              "Dinox Sync/note/2024-01-01"]
            processed := c3Acc.processed
            deleted := c3Acc.deleted
            notices := c3Acc.notices ++
              [.processNoteFailed (jsTake c3Note.noteId 8)]
            dailyChanges := c3Acc.dailyChanges } :=
  ⟨C3_per_note_errors_isolated.1 DEFAULT_SETTINGS c3Note "D" c3Acc.st
      (by decide),
    C3_per_note_errors_isolated.2 DEFAULT_SETTINGS false "Dinox Sync"
      "2024-01-01" "2024-01-01" true c3Note [] c3Acc c3Vault
      ["Dinox Sync/note", "Dinox Sync/note/2024-01-01"]
      "Dinox Sync/note/2024-01-01"
      "Dinox: noteId is missing in API response."
      { c3Acc.st with vault := c3Vault } (by decide) (by decide)⟩


/-! ## The daily-notes managed block (DailyNotesBridge parse/render) -/

/-- One managed entry of the daily-note block. -/
structure ManagedEntryRecord where
  /-- Link target. -/
  target : String
  /-- Optional alias title. -/
  title : Option String
  /-- Optional blockquote preview. -/
  preview : Option String
  deriving Repr, DecidableEq

/-- `getDefaultTitle`: last `/`-segment of the target, or the target
itself when that segment is empty. -/
def getDefaultTitle (target : String) : String :=
  let segments := splitOnChar target '/'
  let last := segments.getLastD ""
  if last = "" then target else last

/-- `renderManagedEntry`: an embed line, or a bulleted wiki link with an
alias when the trimmed title is nonempty and differs from the default
title, plus an indented blockquote line for a nonempty preview. -/
def renderManagedEntry (entry : ManagedEntryRecord) (style : String) :
    List String :=
  if style = "embed" then ["![[" ++ entry.target ++ "]]"]
  else
    let linkAlias :=
      match entry.title with
      | some t => jsTrim t
      | none => ""
    let link :=
      if linkAlias ≠ "" ∧ linkAlias ≠ getDefaultTitle entry.target then
        "[[" ++ entry.target ++ "|" ++ linkAlias ++ "]]"
      else "[[" ++ entry.target ++ "]]"
    let lines := ["- " ++ link]
    match entry.preview with
    | some p => if p ≠ "" then lines ++ ["  > " ++ p] else lines
    | none => lines

/-- Characters admitted inside the link-target capture group
(`[^\]|#^>]`). -/
def wikiTargetChar (c : Char) : Bool :=
  ¬ (c = ']' ∨ c = '|' ∨ c = '#' ∨ c = '^' ∨ c = '>')

/-- One attempted match of `!?\[\[([^\]|#^>]+)(?:\|([^\]]+))?\]\]`
at a fixed start position, after the optional `!` (backtracking cannot
rescue a failed attempt, so greedy runs suffice). -/
def wikiMatchCore (cs : List Char) :
    Option (List Char × Option (List Char)) :=
  match cs with
  | c1 :: c2 :: cs2 =>
    if c1 = '[' ∧ c2 = '[' then
      let g1 := cs2.takeWhile wikiTargetChar
      if g1 = [] then none
      else
        let cs3 := cs2.drop g1.length
        match cs3 with
        | d :: cs4 =>
          if d = '|' then
            let g2 := cs4.takeWhile (fun c => ¬ c = ']')
            if g2 = [] then none
            else
              match cs4.drop g2.length with
              | f1 :: f2 :: _ =>
                if f1 = ']' ∧ f2 = ']' then some (g1, some g2) else none
              | _ => none
          else if d = ']' then
            match cs4 with
            | e2 :: _ => if e2 = ']' then some (g1, none) else none
            | [] => none
          else none
        | [] => none
    else none
  | _ => none

/-- One attempted match including the optional leading `!`. -/
def wikiMatchAt (cs : List Char) :
    Option (List Char × Option (List Char)) :=
  match cs with
  | c :: cs2 => if c = '!' then wikiMatchCore cs2 else wikiMatchCore (c :: cs2)
  | [] => none

/-- Leftmost match of the link regex (start positions advance one
character at a time). -/
def firstWikiMatch : List Char → Option (List Char × Option (List Char))
  | [] => none
  | c :: cs =>
    match wikiMatchAt (c :: cs) with
    | some r => some r
    | none => firstWikiMatch cs

/-- The preview cleanup `replace(/^>\s?/, "")`: drop one leading `>` and
at most one whitespace character after it. -/
def stripBlockquoteMark (s : String) : String :=
  match s.data with
  | '>' :: c :: rest => if wsChar c then String.mk rest else String.mk (c :: rest)
  | '>' :: [] => ""
  | _ => s

/-- The per-line part of `parseManagedEntries`: strip an optional
bullet, find the first wiki/embed link, and reject lines with no match
or a blank trimmed target; the preview is attached by the loop. -/
def parseLineEntry (raw : String) : Option ManagedEntryRecord :=
  let trimmed := jsTrim raw
  if trimmed = "" then none
  else
    let withoutBullet :=
      if jsStartsWith trimmed "- " then jsTrimStart (jsDrop trimmed 2)
      else trimmed
    match firstWikiMatch withoutBullet.data with
    | none => none
    | some (g1, g2) =>
      let target := jsTrim (String.mk g1)
      if target = "" then none
      else
        some { target := target
               title := g2.map (fun a => jsTrim (String.mk a))
               preview := none }

/-- `parseManagedEntries`: parse each line, consuming a following
blockquote line as the entry's preview. -/
def parseManagedEntries : List String → List ManagedEntryRecord
  | [] => []
  | [raw] =>
    match parseLineEntry raw with
    | some e => [e]
    | none => []
  | raw :: next :: rest2 =>
    match parseLineEntry raw with
    | none => parseManagedEntries (next :: rest2)
    | some e =>
      if next ≠ "" ∧ jsStartsWith (jsTrim next) ">" then
        { e with preview := some (stripBlockquoteMark (jsTrim next)) } ::
          parseManagedEntries rest2
      else e :: parseManagedEntries (next :: rest2)


/-- Rebuilding a string from its characters is the identity. -/
theorem mkData (s : String) : String.mk s.data = s := by
  cases s
  rfl

/-- A nonempty string has a nonempty character list. -/
theorem data_ne_nil (s : String) (h : s ≠ "") : s.data ≠ [] := by
  intro hd
  apply h
  rw [← mkData s, hd]

/-- A greedy character run stops exactly at the first failing char. -/
theorem takeWhile_append_stop (p : Char → Bool) (l1 : List Char) (c : Char)
    (l2 : List Char) (h1 : l1.all p = true) (h2 : p c = false) :
    (l1 ++ c :: l2).takeWhile p = l1 := by
  induction l1 with
  | nil => simp [List.takeWhile_cons, h2]
  | cons x xs ih =>
    simp only [List.all_cons, Bool.and_eq_true] at h1
    simp [List.takeWhile_cons, h1.1, ih h1.2]

/-- The head is governed by the first list when it is nonempty. -/
theorem headNotWs_append (l1 l2 : List Char) (h : l1 ≠ []) :
    headNotWs (l1 ++ l2) = headNotWs l1 := by
  cases l1 with
  | nil => exact absurd rfl h
  | cons c cs => rfl

/-- The last char is governed by the second list when it is nonempty. -/
theorem lastNotWs_append (l1 l2 : List Char) (h : l2 ≠ []) :
    lastNotWs (l1 ++ l2) = lastNotWs l2 := by
  unfold lastNotWs
  rw [List.reverse_append]
  exact headNotWs_append _ _ (by simpa using h)

/-- A string untouched by `trim` at both ends is returned unchanged. -/
theorem jsTrim_eq_self (s : String) (h1 : headNotWs s.data = true)
    (h2 : lastNotWs s.data = true) : jsTrim s = s := by
  unfold jsTrim
  rw [trimChars_eq_self s.data h1 h2, mkData]

/-- Dropping the leading whitespace run leaves a non-whitespace head. -/
theorem headNotWs_dropWhile (l : List Char) :
    headNotWs (l.dropWhile wsChar) = true := by
  induction l with
  | nil => rfl
  | cons c cs ih =>
    rw [List.dropWhile_cons]
    by_cases h : wsChar c = true
    · simp [h, ih]
    · simp only [h, if_false]
      simp only [headNotWs, decide_eq_true_eq]
      simpa using h

/-- Trimming the end cannot introduce a whitespace head. -/
theorem headNotWs_trimEnd (l : List Char) (h : headNotWs l = true) :
    headNotWs (trimEndChars l) = true := by
  unfold trimEndChars
  have hpre : (l.reverse.dropWhile wsChar).reverse <+: l := by
    have hs : l.reverse.dropWhile wsChar <:+ l.reverse :=
      List.dropWhile_suffix wsChar
    have := List.reverse_prefix.mpr hs
    simpa using this
  rcases hpre with ⟨tail, htail⟩
  cases hr : (l.reverse.dropWhile wsChar).reverse with
  | nil => rfl
  | cons c cs =>
    rw [hr] at htail
    rw [← htail] at h
    simpa [headNotWs] using h

/-- A trimmed list has a non-whitespace head. -/
theorem headNotWs_trimChars (l : List Char) :
    headNotWs (trimChars l) = true :=
  headNotWs_trimEnd _ (headNotWs_dropWhile l)

/-- A trimmed list has a non-whitespace last char. -/
theorem lastNotWs_trimChars (l : List Char) :
    lastNotWs (trimChars l) = true := by
  unfold lastNotWs trimChars trimEndChars
  rw [List.reverse_reverse]
  exact headNotWs_dropWhile _

/-- `trim` is idempotent. -/
theorem jsTrim_idem (s : String) : jsTrim (jsTrim s) = jsTrim s :=
  jsTrim_eq_self _ (headNotWs_trimChars s.data) (lastNotWs_trimChars s.data)

/-- A successful core match on the plain-link shape. -/
theorem wikiMatchCore_plain (t : String) (tail : List Char)
    (ht0 : t.data ≠ []) (ht : t.data.all wikiTargetChar = true) :
    wikiMatchCore ('[' :: '[' :: (t.data ++ (']' :: ']' :: tail))) =
      some (t.data, none) := by
  simp only [wikiMatchCore]
  rw [if_pos (by simp)]
  rw [takeWhile_append_stop wikiTargetChar t.data ']' (']' :: tail) ht
    (by decide)]
  rw [if_neg ht0]
  rw [List.drop_left]
  simp

/-- A successful core match on the aliased-link shape. -/
theorem wikiMatchCore_alias (t a : String) (tail : List Char)
    (ht0 : t.data ≠ []) (ht : t.data.all wikiTargetChar = true)
    (ha0 : a.data ≠ []) (ha : a.data.all (fun c => ¬ c = ']') = true) :
    wikiMatchCore
        ('[' :: '[' ::
          (t.data ++ ('|' :: (a.data ++ (']' :: ']' :: tail))))) =
      some (t.data, some a.data) := by
  simp only [wikiMatchCore]
  rw [if_pos (by simp)]
  rw [takeWhile_append_stop wikiTargetChar t.data '|'
    (a.data ++ (']' :: ']' :: tail)) ht (by decide)]
  rw [if_neg ht0]
  rw [List.drop_left]
  simp only [if_pos rfl]
  rw [takeWhile_append_stop (fun c => ¬ c = ']') a.data ']' (']' :: tail)
    (by simpa using ha) (by decide)]
  rw [if_neg ha0]
  rw [List.drop_left]
  simp


/-- A string whose characters form a cons cell is nonempty. -/
theorem str_ne_empty_of_data (s : String) (c : Char) (l : List Char)
    (h : s.data = c :: l) : s ≠ "" := by
  intro hs
  rw [hs] at h
  exact List.noConfusion h

/-- Parsing one rendered plain bulleted link line. -/
theorem parseLineEntry_plain (t : String) (ht0 : t ≠ "")
    (ht1 : jsTrim t = t) (ht2 : t.data.all wikiTargetChar = true) :
    parseLineEntry ("- " ++ ("[[" ++ t ++ "]]")) =
      some { target := t, title := none, preview := none } := by
  have hdata : ("- " ++ ("[[" ++ t ++ "]]")).data
      = '-' :: ' ' :: '[' :: '[' :: (t.data ++ (']' :: ']' :: [])) := by
    simp
  have hhead : headNotWs ("- " ++ ("[[" ++ t ++ "]]")).data = true := by
    rw [hdata]
    rfl
  have hlast : lastNotWs ("- " ++ ("[[" ++ t ++ "]]")).data = true := by
    rw [hdata,
      show '-' :: ' ' :: '[' :: '[' :: (t.data ++ (']' :: ']' :: []))
        = ('-' :: ' ' :: '[' :: '[' :: t.data) ++ (']' :: ']' :: []) from by
          simp,
      lastNotWs_append _ _ (by simp)]
    decide
  have htrim : jsTrim ("- " ++ ("[[" ++ t ++ "]]")) =
      "- " ++ ("[[" ++ t ++ "]]") := jsTrim_eq_self _ hhead hlast
  have hne : "- " ++ ("[[" ++ t ++ "]]") ≠ "" :=
    str_ne_empty_of_data _ _ _ hdata
  have hsw : jsStartsWith ("- " ++ ("[[" ++ t ++ "]]")) "- " = true := by
    simp only [jsStartsWith, hdata]
    rfl
  have hwb : (jsTrimStart (jsDrop ("- " ++ ("[[" ++ t ++ "]]")) 2)).data
      = '[' :: '[' :: (t.data ++ (']' :: ']' :: [])) := by
    simp only [jsTrimStart, jsDrop, hdata]
    exact trimStart_eq_self _ (by rfl)
  have hmatch : firstWikiMatch
      ('[' :: '[' :: (t.data ++ (']' :: ']' :: []))) =
      some (t.data, none) := by
    simp only [firstWikiMatch, wikiMatchAt]
    rw [if_neg (by decide)]
    rw [wikiMatchCore_plain t [] (data_ne_nil t ht0) ht2]
  simp only [parseLineEntry, htrim]
  rw [if_neg hne]
  simp only [hsw, if_true, hwb, hmatch]
  simp [mkData, ht1, ht0]


/-- Parsing one rendered aliased bulleted link line. -/
theorem parseLineEntry_alias (t a : String) (ht0 : t ≠ "")
    (ht1 : jsTrim t = t) (ht2 : t.data.all wikiTargetChar = true)
    (ha0 : a ≠ "") (ha1 : a.data.all (fun c => ¬ c = ']') = true) :
    parseLineEntry ("- " ++ ("[[" ++ t ++ "|" ++ a ++ "]]")) =
      some { target := t, title := some (jsTrim a), preview := none } := by
  have hdata : ("- " ++ ("[[" ++ t ++ "|" ++ a ++ "]]")).data
      = '-' :: ' ' :: '[' :: '[' ::
        (t.data ++ ('|' :: (a.data ++ (']' :: ']' :: [])))) := by
    simp
  have hhead : headNotWs ("- " ++ ("[[" ++ t ++ "|" ++ a ++ "]]")).data =
      true := by
    rw [hdata]
    rfl
  have hlast : lastNotWs ("- " ++ ("[[" ++ t ++ "|" ++ a ++ "]]")).data =
      true := by
    rw [hdata,
      show '-' :: ' ' :: '[' :: '[' ::
          (t.data ++ ('|' :: (a.data ++ (']' :: ']' :: []))))
        = ('-' :: ' ' :: '[' :: '[' :: (t.data ++ ('|' :: a.data))) ++
            (']' :: ']' :: []) from by simp,
      lastNotWs_append _ _ (by simp)]
    decide
  have htrim : jsTrim ("- " ++ ("[[" ++ t ++ "|" ++ a ++ "]]")) =
      "- " ++ ("[[" ++ t ++ "|" ++ a ++ "]]") := jsTrim_eq_self _ hhead hlast
  have hne : "- " ++ ("[[" ++ t ++ "|" ++ a ++ "]]") ≠ "" :=
    str_ne_empty_of_data _ _ _ hdata
  have hsw : jsStartsWith ("- " ++ ("[[" ++ t ++ "|" ++ a ++ "]]")) "- " =
      true := by
    simp only [jsStartsWith, hdata]
    rfl
  have hwb : (jsTrimStart
      (jsDrop ("- " ++ ("[[" ++ t ++ "|" ++ a ++ "]]")) 2)).data
      = '[' :: '[' :: (t.data ++ ('|' :: (a.data ++ (']' :: ']' :: [])))) := by
    simp only [jsTrimStart, jsDrop, hdata]
    exact trimStart_eq_self _ (by rfl)
  have hmatch : firstWikiMatch
      ('[' :: '[' :: (t.data ++ ('|' :: (a.data ++ (']' :: ']' :: []))))) =
      some (t.data, some a.data) := by
    simp only [firstWikiMatch, wikiMatchAt]
    rw [if_neg (by decide)]
    rw [wikiMatchCore_alias t a [] (data_ne_nil t ht0) ht2
      (data_ne_nil a ha0) ha1]
  simp only [parseLineEntry, htrim]
  rw [if_neg hne]
  simp only [hsw, if_true, hwb, hmatch]
  simp [mkData, ht1, ht0]

/-- Parsing one rendered embed line. -/
theorem parseLineEntry_embed (t : String) (ht0 : t ≠ "")
    (ht1 : jsTrim t = t) (ht2 : t.data.all wikiTargetChar = true) :
    parseLineEntry ("![[" ++ t ++ "]]") =
      some { target := t, title := none, preview := none } := by
  have hdata : ("![[" ++ t ++ "]]").data
      = '!' :: '[' :: '[' :: (t.data ++ (']' :: ']' :: [])) := by
    simp
  have hhead : headNotWs ("![[" ++ t ++ "]]").data = true := by
    rw [hdata]
    rfl
  have hlast : lastNotWs ("![[" ++ t ++ "]]").data = true := by
    rw [hdata,
      show '!' :: '[' :: '[' :: (t.data ++ (']' :: ']' :: []))
        = ('!' :: '[' :: '[' :: t.data) ++ (']' :: ']' :: []) from by simp,
      lastNotWs_append _ _ (by simp)]
    decide
  have htrim : jsTrim ("![[" ++ t ++ "]]") = "![[" ++ t ++ "]]" :=
    jsTrim_eq_self _ hhead hlast
  have hne : "![[" ++ t ++ "]]" ≠ "" := str_ne_empty_of_data _ _ _ hdata
  have hsw : jsStartsWith ("![[" ++ t ++ "]]") "- " = false := by
    simp only [jsStartsWith, hdata]
    rfl
  have hmatch : firstWikiMatch
      ('!' :: '[' :: '[' :: (t.data ++ (']' :: ']' :: []))) =
      some (t.data, none) := by
    simp only [firstWikiMatch, wikiMatchAt]
    rw [if_pos trivial]
    rw [wikiMatchCore_plain t [] (data_ne_nil t ht0) ht2]
  simp only [parseLineEntry, htrim]
  rw [if_neg hne]
  simp only [hsw, Bool.false_eq_true, if_false, hdata, hmatch]
  simp [mkData, ht1, ht0]


/-- A list whose last char is not whitespace is untouched by the end
trim. -/
theorem trimEnd_eq_self (l : List Char) (h : lastNotWs l = true) :
    trimEndChars l = l := by
  unfold trimEndChars
  unfold lastNotWs at h
  cases hr : l.reverse with
  | nil =>
    simp only [List.dropWhile_nil, List.reverse_nil]
    exact (List.reverse_eq_nil_iff.mp hr).symm
  | cons c cs =>
    rw [hr] at h
    simp only [headNotWs, decide_eq_true_eq] at h
    rw [List.dropWhile_cons, if_neg h]
    rw [← hr, List.reverse_reverse]

/-- The whole rendered preview line trims to `"> "` plus the preview. -/
theorem jsTrim_preview_line (p : String) (hp0 : p ≠ "")
    (hp1 : lastNotWs p.data = true) :
    jsTrim ("  > " ++ p) = String.mk ('>' :: ' ' :: p.data) := by
  have hdata : ("  > " ++ p).data = ' ' :: ' ' :: '>' :: ' ' :: p.data := by
    simp
  unfold jsTrim trimChars
  rw [hdata]
  rw [show trimStartChars (' ' :: ' ' :: '>' :: ' ' :: p.data)
      = '>' :: ' ' :: p.data from by
    simp [trimStartChars, List.dropWhile_cons, wsChar]]
  rw [trimEnd_eq_self _ (by
    rw [show '>' :: ' ' :: p.data = ['>', ' '] ++ p.data from by simp,
      lastNotWs_append _ _ (data_ne_nil p hp0)]
    exact hp1)]

/-- Stripping the blockquote mark undoes the `"  > "` template. -/
theorem stripBlockquoteMark_template (p : String) :
    stripBlockquoteMark (String.mk ('>' :: ' ' :: p.data)) = p := by
  simp only [stripBlockquoteMark]
  rw [show wsChar ' ' = true from by decide]
  simp [mkData]

/-- The end trim keeps a non-whitespace head in place. -/
theorem trimEnd_cons_head (c : Char) (l : List Char)
    (hnw : wsChar c = false) :
    ∃ l2, trimEndChars (c :: l) = c :: l2 := by
  have hpre : trimEndChars (c :: l) <+: c :: l := by
    unfold trimEndChars
    have hs : (c :: l).reverse.dropWhile wsChar <:+ (c :: l).reverse :=
      List.dropWhile_suffix wsChar
    have := List.reverse_prefix.mpr hs
    simpa using this
  have hne : trimEndChars (c :: l) ≠ [] := by
    unfold trimEndChars
    intro h
    have h2 : (c :: l).reverse.dropWhile wsChar = [] := by
      have := congrArg List.reverse h
      simpa using this
    have h3 := List.dropWhile_eq_nil_iff.mp h2 c (by simp)
    rw [hnw] at h3
    exact Bool.noConfusion h3
  rcases hpre with ⟨t2, ht2⟩
  cases he : trimEndChars (c :: l) with
  | nil => exact absurd he hne
  | cons d l2 =>
    rw [he, List.cons_append] at ht2
    injection ht2 with h1 h2
    exact ⟨l2, by rw [h1]⟩

/-- A trimmed string headed by a non-whitespace, non-`>` character does
not start with `>`. -/
theorem startsWith_quote_false (s : String) (c : Char) (l : List Char)
    (h : s.data = c :: l) (hc : ('>' == c) = false)
    (hnw : wsChar c = false) :
    jsStartsWith (jsTrim s) ">" = false := by
  unfold jsTrim trimChars
  rw [h]
  rw [show trimStartChars (c :: l) = c :: l from
    trimStart_eq_self _ (by simp [headNotWs, hnw])]
  rcases trimEnd_cons_head c l hnw with ⟨l2, hl2⟩
  rw [hl2]
  unfold jsStartsWith
  rw [show (String.mk (c :: l2)).data = c :: l2 from rfl]
  rw [show (">" : String).data = ['>'] from rfl]
  simp [List.isPrefixOf, hc]


/-- Well-formedness of a managed entry for lossless rendering: the target
is nonempty, already trimmed and free of the characters the link regex
excludes; the trimmed alias has no closing bracket; a nonempty preview
has no trailing whitespace. -/
def wfManagedEntry (e : ManagedEntryRecord) : Prop :=
  e.target ≠ "" ∧ jsTrim e.target = e.target ∧
    e.target.data.all wikiTargetChar = true ∧
    (match e.title with
     | some t => (jsTrim t).data.all (fun c => ¬ c = ']') = true
     | none => True) ∧
    (match e.preview with
     | some p => p ≠ "" → lastNotWs p.data = true
     | none => True)

/-- The entry recovered by parsing a rendered entry: the alias collapses
to nothing when it would not have been rendered, and the preview
collapses to nothing when empty or when the style is `embed`. -/
def parsedManagedEntry (style : String) (e : ManagedEntryRecord) :
    ManagedEntryRecord :=
  if style = "embed" then
    { target := e.target, title := none, preview := none }
  else
    let linkAlias :=
      match e.title with
      | some t => jsTrim t
      | none => ""
    { target := e.target
      title :=
        if linkAlias ≠ "" ∧ linkAlias ≠ getDefaultTitle e.target then
          some linkAlias
        else none
      preview :=
        match e.preview with
        | some p => if p ≠ "" then some p else none
        | none => none }

/-- Prefixing the bullet adds two characters. -/
theorem bullet_data (x : String) :
    ("- " ++ x).data = '-' :: ' ' :: x.data := by
  simp

/-- Every rendered entry starts with a line headed by `!` or `-`. -/
theorem render_first_line (e : ManagedEntryRecord) (style : String) :
    ∃ s ls0, renderManagedEntry e style = s :: ls0 ∧
      (s.data.head? = some '!' ∨ s.data.head? = some '-') := by
  by_cases hstyle : style = "embed"
  · refine ⟨"![[" ++ e.target ++ "]]", [], ?_, Or.inl ?_⟩
    · simp [renderManagedEntry, hstyle]
    · rw [show ("![[" ++ e.target ++ "]]").data
        = '!' :: ('[' :: '[' :: (e.target.data ++ (']' :: ']' :: [])))
        from by simp]
      rfl
  · simp only [renderManagedEntry, if_neg hstyle]
    rcases e.preview with _ | p
    · refine ⟨_, _, rfl, Or.inr ?_⟩
      rw [bullet_data]
      rfl
    · by_cases hp : p ≠ ""
      · simp only [if_pos hp]
        refine ⟨_, _, rfl, Or.inr ?_⟩
        rw [bullet_data]
        rfl
      · simp only [if_neg hp]
        refine ⟨_, _, rfl, Or.inr ?_⟩
        rw [bullet_data]
        rfl

/-- The first line of a nonempty rendered tail never looks like a
blockquote. -/
theorem rendered_head_not_quote (style : String)
    (tl : List ManagedEntryRecord) :
    ∀ l ls, tl.flatMap (fun e => renderManagedEntry e style) = l :: ls →
      jsStartsWith (jsTrim l) ">" = false := by
  cases tl with
  | nil => intro l ls h; exact absurd h (by simp)
  | cons e tl =>
    intro l ls h
    rw [List.flatMap_cons] at h
    rcases render_first_line e style with ⟨s, ls0, hs, hhead⟩
    rw [hs, List.cons_append] at h
    injection h with h1 _
    subst h1
    rcases hhead with hh | hh
    · cases hd : s.data with
      | nil => rw [hd] at hh; exact Option.noConfusion hh
      | cons c cs =>
        rw [hd] at hh
        simp only [List.head?_cons, Option.some.injEq] at hh
        subst hh
        exact startsWith_quote_false s _ _ hd (by decide) (by decide)
    · cases hd : s.data with
      | nil => rw [hd] at hh; exact Option.noConfusion hh
      | cons c cs =>
        rw [hd] at hh
        simp only [List.head?_cons, Option.some.injEq] at hh
        subst hh
        exact startsWith_quote_false s _ _ hd (by decide) (by decide)


/-- Parsing one entry line with no following blockquote line. -/
theorem parse_line_no_preview (line : String) (e2 : ManagedEntryRecord)
    (rest : List String) (hline : parseLineEntry line = some e2)
    (hrest : ∀ l ls, rest = l :: ls → jsStartsWith (jsTrim l) ">" = false) :
    parseManagedEntries (line :: rest) = e2 :: parseManagedEntries rest := by
  cases rest with
  | nil => simp only [parseManagedEntries, hline]
  | cons next ls =>
    have hq := hrest next ls rfl
    simp only [parseManagedEntries, hline]
    rw [if_neg (by simp [hq])]

/-- Parsing one entry line followed by its rendered blockquote line. -/
theorem parse_line_with_preview (line : String) (e2 : ManagedEntryRecord)
    (p : String) (rest : List String)
    (hline : parseLineEntry line = some e2) (hp0 : p ≠ "")
    (hpl : lastNotWs p.data = true) :
    parseManagedEntries (line :: ("  > " ++ p) :: rest) =
      { e2 with preview := some p } :: parseManagedEntries rest := by
  have hplt := jsTrim_preview_line p hp0 hpl
  have hne : ("  > " ++ p) ≠ "" :=
    str_ne_empty_of_data _ ' ' (' ' :: '>' :: ' ' :: p.data) (by simp)
  simp only [parseManagedEntries, hline]
  rw [if_pos ⟨hne, by rw [hplt]; rfl⟩]
  rw [hplt, stripBlockquoteMark_template]

/-- Parsing one rendered entry block recovers exactly its collapsed
entry and continues with the remaining lines. -/
theorem parse_rendered_block (style : String) (e : ManagedEntryRecord)
    (rest : List String) (hwf : wfManagedEntry e)
    (hrest : ∀ l ls, rest = l :: ls → jsStartsWith (jsTrim l) ">" = false) :
    parseManagedEntries (renderManagedEntry e style ++ rest) =
      parsedManagedEntry style e :: parseManagedEntries rest := by
  obtain ⟨tgt, tOpt, pOpt⟩ := e
  obtain ⟨ht0, ht1, ht2, htitle, hprev⟩ := hwf
  replace ht0 : tgt ≠ "" := ht0
  replace ht1 : jsTrim tgt = tgt := ht1
  replace ht2 : tgt.data.all wikiTargetChar = true := ht2
  by_cases hstyle : style = "embed"
  · have hline := parseLineEntry_embed tgt ht0 ht1 ht2
    simp only [renderManagedEntry, parsedManagedEntry, if_pos hstyle,
      List.cons_append, List.nil_append]
    exact parse_line_no_preview _ _ rest hline hrest
  · rcases tOpt with _ | t0
    · have hline := parseLineEntry_plain tgt ht0 ht1 ht2
      rcases pOpt with _ | p
      · simp only [renderManagedEntry, parsedManagedEntry, if_neg hstyle]
        rw [if_neg (show ¬("" ≠ "" ∧ "" ≠ getDefaultTitle tgt) from
          fun hh => hh.1 rfl),
          if_neg (show ¬("" ≠ "" ∧ "" ≠ getDefaultTitle tgt) from
          fun hh => hh.1 rfl)]
        simp only [List.cons_append, List.nil_append]
        exact parse_line_no_preview _ _ rest hline hrest
      · by_cases hp : p = ""
        · simp only [renderManagedEntry, parsedManagedEntry, if_neg hstyle]
          rw [if_neg (show ¬(p ≠ "") from by simp [hp]),
            if_neg (show ¬(p ≠ "") from by simp [hp]),
            if_neg (show ¬("" ≠ "" ∧ "" ≠ getDefaultTitle tgt) from
              fun hh => hh.1 rfl),
            if_neg (show ¬("" ≠ "" ∧ "" ≠ getDefaultTitle tgt) from
              fun hh => hh.1 rfl)]
          simp only [List.cons_append, List.nil_append]
          exact parse_line_no_preview _ _ rest hline hrest
        · have hpl : lastNotWs p.data = true := hprev hp
          simp only [renderManagedEntry, parsedManagedEntry, if_neg hstyle]
          rw [if_pos hp, if_pos hp,
            if_neg (show ¬("" ≠ "" ∧ "" ≠ getDefaultTitle tgt) from
              fun hh => hh.1 rfl),
            if_neg (show ¬("" ≠ "" ∧ "" ≠ getDefaultTitle tgt) from
              fun hh => hh.1 rfl)]
          simp only [List.cons_append, List.nil_append]
          exact parse_line_with_preview _ _ p rest hline hp hpl
    · have htitle2 : (jsTrim t0).data.all (fun c => ¬ c = ']') = true :=
        htitle
      by_cases hc : jsTrim t0 ≠ "" ∧ jsTrim t0 ≠ getDefaultTitle tgt
      · have hline := parseLineEntry_alias tgt (jsTrim t0) ht0 ht1 ht2
          hc.1 htitle2
        rw [jsTrim_idem] at hline
        rcases pOpt with _ | p
        · simp only [renderManagedEntry, parsedManagedEntry, if_neg hstyle]
          rw [if_pos hc, if_pos hc]
          simp only [List.cons_append, List.nil_append]
          exact parse_line_no_preview _ _ rest hline hrest
        · by_cases hp : p = ""
          · simp only [renderManagedEntry, parsedManagedEntry,
              if_neg hstyle]
            rw [if_pos hc, if_pos hc,
              if_neg (show ¬(p ≠ "") from by simp [hp]),
              if_neg (show ¬(p ≠ "") from by simp [hp])]
            simp only [List.cons_append, List.nil_append]
            exact parse_line_no_preview _ _ rest hline hrest
          · have hpl : lastNotWs p.data = true := hprev hp
            simp only [renderManagedEntry, parsedManagedEntry,
              if_neg hstyle]
            rw [if_pos hc, if_pos hc, if_pos hp, if_pos hp]
            simp only [List.cons_append, List.nil_append]
            exact parse_line_with_preview _ _ p rest hline hp hpl
      · have hline := parseLineEntry_plain tgt ht0 ht1 ht2
        rcases pOpt with _ | p
        · simp only [renderManagedEntry, parsedManagedEntry, if_neg hstyle]
          rw [if_neg hc, if_neg hc]
          simp only [List.cons_append, List.nil_append]
          exact parse_line_no_preview _ _ rest hline hrest
        · by_cases hp : p = ""
          · simp only [renderManagedEntry, parsedManagedEntry,
              if_neg hstyle]
            rw [if_neg hc, if_neg hc,
              if_neg (show ¬(p ≠ "") from by simp [hp]),
              if_neg (show ¬(p ≠ "") from by simp [hp])]
            simp only [List.cons_append, List.nil_append]
            exact parse_line_no_preview _ _ rest hline hrest
          · have hpl : lastNotWs p.data = true := hprev hp
            simp only [renderManagedEntry, parsedManagedEntry,
              if_neg hstyle]
            rw [if_neg hc, if_neg hc, if_pos hp, if_pos hp]
            simp only [List.cons_append, List.nil_append]
            exact parse_line_with_preview _ _ p rest hline hp hpl


/-- Re-rendering the collapsed entry reproduces the rendered lines. -/
theorem render_parsed_eq (style : String) (e : ManagedEntryRecord)
    (hwf : wfManagedEntry e) :
    renderManagedEntry (parsedManagedEntry style e) style =
      renderManagedEntry e style := by
  obtain ⟨tgt, tOpt, pOpt⟩ := e
  by_cases hstyle : style = "embed"
  · simp [renderManagedEntry, parsedManagedEntry, hstyle]
  · rcases tOpt with _ | t0
    · rcases pOpt with _ | p
      · simp [renderManagedEntry, parsedManagedEntry, hstyle]
      · by_cases hp : p = ""
        · simp [renderManagedEntry, parsedManagedEntry, hstyle, hp]
        · simp [renderManagedEntry, parsedManagedEntry, hstyle, hp]
    · by_cases hc : jsTrim t0 ≠ "" ∧ jsTrim t0 ≠ getDefaultTitle tgt
      · rcases pOpt with _ | p
        · simp only [renderManagedEntry, parsedManagedEntry,
            if_neg hstyle, if_pos hc]
          rw [jsTrim_idem]
          rw [if_pos hc]
        · by_cases hp : p = ""
          · simp only [renderManagedEntry, parsedManagedEntry,
              if_neg hstyle, if_pos hc,
              if_neg (show ¬(p ≠ "") from by simp [hp])]
            rw [jsTrim_idem]
            rw [if_pos hc]
          · simp only [renderManagedEntry, parsedManagedEntry,
              if_neg hstyle, if_pos hc, if_pos hp]
            rw [jsTrim_idem]
            rw [if_pos hc]
      · rcases pOpt with _ | p
        · simp only [renderManagedEntry, parsedManagedEntry,
            if_neg hstyle, if_neg hc]
          rw [if_neg (show ¬(("" : String) ≠ "" ∧
            ("" : String) ≠ getDefaultTitle tgt) from fun hh => hh.1 rfl)]
        · by_cases hp : p = ""
          · simp only [renderManagedEntry, parsedManagedEntry,
              if_neg hstyle, if_neg hc,
              if_neg (show ¬(p ≠ "") from by simp [hp])]
            rw [if_neg (show ¬(("" : String) ≠ "" ∧
              ("" : String) ≠ getDefaultTitle tgt) from fun hh => hh.1 rfl)]
          · simp only [renderManagedEntry, parsedManagedEntry,
              if_neg hstyle, if_neg hc, if_pos hp]
            rw [if_neg (show ¬(("" : String) ≠ "" ∧
              ("" : String) ≠ getDefaultTitle tgt) from fun hh => hh.1 rfl)]


/-- C9 counterexample: a target containing `#` renders to a line the
entry parser cannot match (the capture group excludes `#`), so the entry
is dropped and the round trip returns an empty block instead of the
original line. -/
theorem C9_counterexample :
    (parseManagedEntries
        (renderManagedEntry
          { target := "a#b", title := none, preview := none }
          "wiki")).flatMap (fun e => renderManagedEntry e "wiki") ≠
      renderManagedEntry
        { target := "a#b", title := none, preview := none } "wiki" := by
  decide

/-- C9 amended: for entries whose target is nonempty, trimmed and free of
the characters the link regex rejects, whose trimmed alias contains no
closing bracket, and whose nonempty preview has no trailing whitespace,
parsing the rendered block recovers exactly one (collapsed) entry per
entry in order, and re-rendering the parsed entries reproduces the block
lines byte-identically, for every link style. -/
theorem C9_managed_block_round_trip (style : String)
    (entries : List ManagedEntryRecord)
    (hwf : ∀ e ∈ entries, wfManagedEntry e) :
    parseManagedEntries
        (entries.flatMap (fun e => renderManagedEntry e style)) =
      entries.map (parsedManagedEntry style) ∧
    (entries.map (parsedManagedEntry style)).flatMap
        (fun e => renderManagedEntry e style) =
      entries.flatMap (fun e => renderManagedEntry e style) := by
  induction entries with
  | nil => exact ⟨rfl, rfl⟩
  | cons e tl ih =>
    have hwe := hwf e (List.mem_cons_self _ _)
    have hwtl : ∀ x ∈ tl, wfManagedEntry x := fun x hx =>
      hwf x (List.mem_cons_of_mem _ hx)
    obtain ⟨ih1, ih2⟩ := ih hwtl
    constructor
    · rw [List.flatMap_cons,
        parse_rendered_block style e _ hwe
          (rendered_head_not_quote style tl),
        ih1, List.map_cons]
    · rw [List.map_cons, List.flatMap_cons, List.flatMap_cons,
        render_parsed_eq style e hwe, ih2]

/-- A well-formed aliased entry with a preview. -/
def c9EntryA : ManagedEntryRecord :=
  { target := "Notes/n 1", title := some "My title",
    preview := some "first line" }

/-- A well-formed plain entry. -/
def c9EntryB : ManagedEntryRecord :=
  { target := "x", title := none, preview := none }

/-- Witness: a concrete two-entry block survives the round trip. -/
theorem C9_witness :
    parseManagedEntries
        ([c9EntryA, c9EntryB].flatMap
          (fun e => renderManagedEntry e "wiki")) =
      [c9EntryA, c9EntryB].map (parsedManagedEntry "wiki") ∧
    ([c9EntryA, c9EntryB].map (parsedManagedEntry "wiki")).flatMap
        (fun e => renderManagedEntry e "wiki") =
      [c9EntryA, c9EntryB].flatMap
        (fun e => renderManagedEntry e "wiki") :=
  C9_managed_block_round_trip "wiki" [c9EntryA, c9EntryB] (by
    intro e he
    rcases List.mem_cons.mp he with h | h2
    · rw [h]
      exact ⟨by decide, by decide, by decide,
        (by decide :
          ((jsTrim "My title").data.all fun c => ¬ c = ']') = true),
        (fun _ => by decide :
          "first line" ≠ "" → lastNotWs "first line".data = true)⟩
    · rw [List.mem_singleton.mp h2]
      exact ⟨by decide, by decide, by decide, trivial, trivial⟩)


/-! ## The legacy pipeline of main.ts (`syncNotes` and its helpers) -/

/-- The API payload shape (`GetNoteApiResult`) as `resp.json` is cast. -/
structure ApiResult where
  /-- API status code string. -/
  code : String
  /-- Optional error message. -/
  msg : Option String
  /-- The day-note payload. -/
  data : Option (List DayNote)

/-- An HTTP response from the notes endpoint (the transport is an
external collaborator; its response is an input). -/
structure HttpResponse where
  /-- HTTP status. -/
  status : Nat
  /-- Parsed JSON body (`none` models a falsy `resp.json`). -/
  json : Option ApiResult
  /-- Raw body text. -/
  text : String

/-- The validation in `fetchNotesFromApi`: non-200 statuses and non-zero
API codes throw; a missing `data` array becomes `[]`. -/
def fetchNotesFromApiM (resp : HttpResponse) :
    Except String (List DayNote) :=
  if resp.status ≠ 200 then
    .error ("API HTTP Error: Status " ++ toString resp.status ++ "\n" ++
      jsTake resp.text 200)
  else
    match resp.json with
    | none => .error "API Logic Error: Code N/A\nUnknown API error structure"
    | some result =>
      if result.code ≠ "000000" then
        .error ("API Logic Error: Code " ++ result.code ++ "\n" ++
          (match result.msg with
           | some m => if m ≠ "" then m else "Unknown API error structure"
           | none => "Unknown API error structure"))
      else .ok (result.data.getD [])

/-- The legacy preserve-key list: split on commas only, trimmed, blanks
dropped. -/
def preserveKeyListMain (settings : DinoPluginSettings) : List String :=
  ((splitOnChar settings.preserveKeys ',').map jsTrim).filter
    (fun k => k ≠ "")

/-- The legacy base filename: only the `noteId`, `title` and `time`
schemes exist, and the `time` scheme formats `new Date(createTime)`
without a reachable catch (an invalid date formats as NaN fields). -/
def baseFilenameMain (settings : DinoPluginSettings) (noteData : Note)
    (sourceId : String) : String :=
  let idName := jsReplaceAll sourceId "-" "_"
  let format := settings.filenameFormat
  let raw :=
    if format = "noteId" then idName
    else if format = "title" then
      if noteData.title ≠ "" ∧ jsTrim noteData.title ≠ "" then
        sanitizeFilename noteData.title
      else idName
    else if format = "time" then
      sanitizeFilename (formatDateOpt (jsNewDate noteData.createTime))
    else idName
  if raw ≠ "" then raw
  else if idName ≠ "" then idName
  else "Untitled"

/-- The legacy per-note reconciliation of main.ts: resolve by exact path
only, honour the ignore flag, trash on `isDel`, throw on a folder
conflict, then overwrite or create and reapply preserved keys. -/
def handleNoteProcessingMain (settings : DinoPluginSettings)
    (noteData : Note) (datePath : String) (v : Vault) :
    Except String (String × Vault) :=
  let sourceId := noteData.noteId
  let ignoreKey := settings.ignoreSyncKey
  let keysToPreserve := preserveKeyListMain settings
  let baseFilename := baseFilenameMain settings noteData sourceId
  let notePath := normalizePath (datePath ++ "/" ++ baseFilename ++ ".md")
  let existingFile := v.abstractAt notePath
  let ignoreHit : Bool :=
    match existingFile with
    | .file f =>
      match f.frontmatter with
      | some fm => ignoreKey ≠ "" ∧ fmGet fm ignoreKey = some (.b true)
      | none => false
    | _ => false
  if ignoreHit then .ok ("skipped", v)
  else
    let propertiesToPreserve :=
      match existingFile with
      | .file f =>
        match f.frontmatter with
        | some fm =>
          keysToPreserve.foldl (fun acc k =>
            match fmGet fm k with
            | some val => setAssoc acc k val
            | none => acc) []
        | none => []
      | _ => []
    if noteData.isDel then
      match existingFile with
      | .file f => .ok ("deleted", v.trashFile f)
      | _ => .ok ("skipped", v)
    else
      match existingFile with
      | .folder => .error ("Path conflict: " ++ notePath ++ " is not a file.")
      | .file f =>
        let v2 := v.modify f.path noteData.content
        let v3 :=
          if propertiesToPreserve ≠ [] then
            v2.patchFrontmatter f.path propertiesToPreserve
          else v2
        .ok ("processed", v3)
      | .missing =>
        let v2 := v.create notePath noteData.content
        let v3 :=
          if propertiesToPreserve ≠ [] then
            v2.patchFrontmatter notePath propertiesToPreserve
          else v2
        .ok ("processed", v3)

/-- The legacy per-day note loop: per-note errors are caught, noticed
with the truncated id, and skipped. -/
def mainNotesLoop (settings : DinoPluginSettings) (datePath : String) :
    List Note → Nat × Nat × Vault × List NoticeMsg →
      Nat × Nat × Vault × List NoticeMsg
  | [], acc => acc
  | noteData :: rest, (p, d, v, notices) =>
    match handleNoteProcessingMain settings noteData datePath v with
    | .ok ("deleted", v2) => mainNotesLoop settings datePath rest
        (p, d + 1, v2, notices)
    | .ok ("processed", v2) => mainNotesLoop settings datePath rest
        (p + 1, d, v2, notices)
    | .ok (_, v2) => mainNotesLoop settings datePath rest (p, d, v2, notices)
    | .error _ => mainNotesLoop settings datePath rest
        (p, d, v,
          notices ++ [.processNoteFailed (jsTake noteData.noteId 8)])

/-- The legacy day loop: nested layout creates the date folder outside
the per-note protection, so a folder conflict aborts the pass. -/
def mainDaysLoop (settings : DinoPluginSettings) (baseDir : String) :
    List DayNote → Nat × Nat × Vault × List NoticeMsg →
      Except String (Nat × Nat × Vault × List NoticeMsg) ×
        (Vault × List NoticeMsg)
  | [], acc => (.ok acc, acc.2.2)
  | dayData :: rest, (p, d, v, notices) =>
    if settings.fileLayout = "nested" then
      let safeDate := String.mk
        (dayData.date.data.filter (fun c => isDigitChar c ∨ c = '-'))
      let datePath := normalizePath (baseDir ++ "/" ++ safeDate)
      match ensureFolderExists v datePath with
      | .error e => (.error e, (v, notices))
      | .ok v1 =>
        match mainNotesLoop settings datePath dayData.notes.reverse
            (p, d, v1, notices) with
        | acc2 => mainDaysLoop settings baseDir rest acc2
    else
      match mainNotesLoop settings baseDir dayData.notes.reverse
          (p, d, v, notices) with
      | acc2 => mainDaysLoop settings baseDir rest acc2

/-- The legacy `processApiResponse`. -/
def processApiResponseMain (settings : DinoPluginSettings)
    (dayNotes : List DayNote) (v : Vault) :
    Except String (Nat × Nat × Vault × List NoticeMsg) ×
      (Vault × List NoticeMsg) :=
  let baseDir := normalizePath
    (if jsTrim settings.dir ≠ "" then jsTrim settings.dir
     else DEFAULT_SETTINGS.dir)
  mainDaysLoop settings baseDir dayNotes.reverse (0, 0, v, [])

/-- JSON encoding of one hotkey binding. -/
def jsonOfHotkey (h : DinoHotkeySetting) : Json :=
  .obj [("modifiers", .arr (h.modifiers.map .str)), ("key", .str h.key)]

/-- JSON encoding of the hotkey map. -/
def jsonOfHotkeyMap (m : DinoHotkeyMap) : Json :=
  .obj [("syncAll", jsonOfHotkey m.syncAll),
    ("syncCurrentNote", jsonOfHotkey m.syncCurrentNote),
    ("createNote", jsonOfHotkey m.createNote)]

/-- The object spread `{...this.settings}` as stored by `saveData`. -/
def settingsEntries (s : DinoPluginSettings) : List (String × Json) :=
  [("token", .str s.token),
    ("isAutoSync", .bool s.isAutoSync),
    ("dir", .str s.dir),
    ("typeFolders", jsonOfTypeFolders s.typeFolders),
    ("zettelBoxFolders", jsonOfZettelBox s.zettelBoxFolders),
    ("template", .str s.template),
    ("filenameFormat", .str s.filenameFormat),
    ("filenameTemplate", .str s.filenameTemplate),
    ("fileLayout", .str s.fileLayout),
    ("ignoreSyncKey", .str s.ignoreSyncKey),
    ("preserveKeys", .str s.preserveKeys),
    ("commandHotkeys", jsonOfHotkeyMap s.commandHotkeys),
    ("dailyNotes", jsonOfDailyNotes s.dailyNotes)]

/-- What one `syncNotes` run leaves behind. -/
structure SyncRun where
  /-- The persisted store after the run. -/
  store : List (String × Json)
  /-- The vault after the run. -/
  vault : Vault
  /-- Whether the pass completed and saved. -/
  success : Bool

/-- `syncNotes` from main.ts: guard on concurrency and token, fetch,
ensure the base folder, reconcile, and persist
`\x7b...pData, ...settings, lastSyncTime: formatDate(syncStartTime)\x7d`
only after full success — the catch branch saves nothing. -/
def syncNotesMain (isSyncing : Bool) (settings : DinoPluginSettings)
    (syncStartTime : JsDate) (store : List (String × Json))
    (resp : HttpResponse) (v : Vault) : SyncRun :=
  if isSyncing then { store := store, vault := v, success := false }
  else if settings.token = "" then
    { store := store, vault := v, success := false }
  else
    let pData := store
    match fetchNotesFromApiM resp with
    | .error _ => { store := store, vault := v, success := false }
    | .ok dayNotes =>
      match ensureFolderExists v
          (if settings.dir = "" then DEFAULT_SETTINGS.dir
           else settings.dir) with
      | .error _ => { store := store, vault := v, success := false }
      | .ok v1 =>
        match processApiResponseMain settings dayNotes v1 with
        | (.error _, (v2, _)) =>
          { store := store, vault := v2, success := false }
        | (.ok (_, _, v2, _), _) =>
          { store := setAssoc (objAssign pData (settingsEntries settings))
              "lastSyncTime" (.str (formatDate syncStartTime))
            vault := v2
            success := true }


/-- Setting a key makes lookups of it return the new value. -/
theorem getAssoc_setAssoc {α : Type} (m : List (String × α)) (k : String)
    (v : α) : getAssoc (setAssoc m k v) k = some v := by
  induction m with
  | nil => simp [setAssoc, getAssoc]
  | cons p t ih =>
    by_cases hp : p.1 = k
    · have hany : (p :: t).any (fun f => f.1 = k) = true := by
        simp [List.any_cons, hp]
      simp only [setAssoc, hany, if_true, List.map_cons]
      rw [if_pos hp]
      simp [getAssoc, List.find?_cons]
    · by_cases ht : t.any (fun f => f.1 = k) = true
      · have hany : (p :: t).any (fun f => f.1 = k) = true := by
          simp [List.any_cons, ht]
        simp only [setAssoc, hany, if_true, List.map_cons]
        rw [if_neg hp]
        simp only [getAssoc, List.find?_cons]
        rw [show (decide (p.1 = k)) = false from by simp [hp]]
        have ih2 := ih
        simp only [setAssoc, ht, if_true] at ih2
        simpa [getAssoc] using ih2
      · have ht2 : t.any (fun f => f.1 = k) = false :=
          Bool.eq_false_iff.mpr ht
        have hany : (p :: t).any (fun f => f.1 = k) = false := by
          simp [List.any_cons, hp, ht2]
        simp only [setAssoc, hany, Bool.false_eq_true, if_false]
        simp only [getAssoc, List.cons_append, List.find?_cons]
        rw [show (decide (p.1 = k)) = false from by simp [hp]]
        have ih2 := ih
        simp only [setAssoc, ht2, Bool.false_eq_true, if_false] at ih2
        simpa [getAssoc] using ih2


/-- C2: the sync watermark is atomic — after a successful pass the
persisted `lastSyncTime` is `formatDate` of the time captured at pass
entry (the start, not the end), and after any aborted or not-run pass
the persisted store (hence `lastSyncTime`) is exactly what it was
before. -/
theorem C2_watermark_atomic (isSyncing : Bool)
    (settings : DinoPluginSettings) (syncStartTime : JsDate)
    (store : List (String × Json)) (resp : HttpResponse) (v : Vault) :
    ((syncNotesMain isSyncing settings syncStartTime store resp v).success =
        true →
      getAssoc (syncNotesMain isSyncing settings syncStartTime store resp
          v).store "lastSyncTime" =
        some (.str (formatDate syncStartTime))) ∧
      ((syncNotesMain isSyncing settings syncStartTime store resp
          v).success = false →
        (syncNotesMain isSyncing settings syncStartTime store resp
          v).store = store) := by
  by_cases h1 : isSyncing = true
  · simp [syncNotesMain, h1]
  · by_cases h2 : settings.token = ""
    · simp [syncNotesMain, h1, h2]
    · cases hf : fetchNotesFromApiM resp with
      | error e => simp [syncNotesMain, h1, h2, hf]
      | ok dayNotes =>
        cases he : ensureFolderExists v
            (if settings.dir = "" then DEFAULT_SETTINGS.dir
             else settings.dir) with
        | error e => simp [syncNotesMain, h1, h2, hf, he]
        | ok v1 =>
          rcases hp : processApiResponseMain settings dayNotes v1 with
            ⟨res, v2, ns⟩
          cases res with
          | error e => simp [syncNotesMain, h1, h2, hf, he, hp]
          | ok quad =>
            obtain ⟨p, d, v3, ns2⟩ := quad
            simp [syncNotesMain, h1, h2, hf, he, hp, getAssoc_setAssoc]

/-- Settings with a token so the pass runs. -/
def c2Settings : DinoPluginSettings :=
  { DEFAULT_SETTINGS with token := "tok" }

/-- A successful empty API response. -/
def c2OkResp : HttpResponse :=
  { status := 200
    json := some { code := "000000", msg := none, data := some [] }
    text := "" }

/-- A failed HTTP response. -/
def c2BadResp : HttpResponse :=
  { status := 500, json := none, text := "oops" }

/-- A store with an older watermark. -/
def c2Store : List (String × Json) :=
  [("lastSyncTime", .str "2020-01-01 00:00:00")]

/-- A pass-entry timestamp. -/
def c2Date : JsDate :=
  { year := 2024, month := 4, day := 2, hours := 3, minutes := 4,
    seconds := 5 }

/-- An empty vault. -/
def c2Vault : Vault := { files := [], folders := [], trash := [] }

/-- Witness: a successful run persists the pass-start watermark, an
aborted run leaves the store untouched. -/
theorem C2_witness :
    getAssoc (syncNotesMain false c2Settings c2Date c2Store c2OkResp
        c2Vault).store "lastSyncTime" =
      some (.str (formatDate c2Date)) ∧
    (syncNotesMain false c2Settings c2Date c2Store c2BadResp
        c2Vault).store = c2Store :=
  ⟨(C2_watermark_atomic false c2Settings c2Date c2Store c2OkResp
      c2Vault).1 (by decide),
    (C2_watermark_atomic false c2Settings c2Date c2Store c2BadResp
      c2Vault).2 (by decide)⟩

end Dinox
